import Mathlib

/-
Verification development for the Multi_Agent_Path_Planning repository.

Shallow embedding of:
  * search_algorithms.py   (heuristic best-first search family),
  * robot_partial_knowledge.py (partial-knowledge agent), and
  * run_partial_robots.py  (synchronous multi-agent coordinator),
followed by theorems settling the spec claims.

Modelling conventions:
  * Python ints are Lean Int; grid coordinates are (Int × Int) pairs.
  * Node cost fields g/h/f are modelled in ℚ (the heuristics verified
    here are integer/rational valued; the float-valued
    euclidean_distance heuristic is outside the embedding).
  * Python's `heapq` module is translated instruction by instruction
    (CPython's _siftdown/_siftup, including the pop strategy of moving
    the last element to the root and sinking it to a leaf before
    bubbling it back up), because the exact array order determines
    which of several equal-f nodes is expanded first.
  * Search nodes live in an arena (an Array) addressed by index, with
    parent/child links stored as indices: this models Python object
    references faithfully, including sma_star_search's in-place
    mutation of a parent's f field during pruning.
  * while-loops are modelled by structural recursion on an explicit
    fuel argument chosen large enough (proved where a claim needs it);
    a run that would raise in Python (heappop from an empty list when
    max_nodes = 0 empties the frontier) is modelled as returning none.
  * Python dicts are association lists with insertion-order semantics
    (updating an existing key keeps its position, new keys append).
-/

set_option maxRecDepth 4000

/-- Grid position: an integer (row, col) pair. -/
abbrev Pos : Type := ℤ × ℤ

/-- An occupancy map: a list of rows of cell symbols. -/
abbrev Grid : Type := List (List Char)

def rowsOf (g : Grid) : ℕ := g.length

def colsOf (g : Grid) : ℕ := (g.headD []).length

/-- The bounds test `0 <= r < len(grid) and 0 <= c < len(grid[0])`. -/
def inBounds (g : Grid) (p : Pos) : Bool :=
  decide (0 ≤ p.1) && decide (p.1 < (rowsOf g : ℤ)) &&
  decide (0 ≤ p.2) && decide (p.2 < (colsOf g : ℤ))

/-- Cell lookup `grid[r][c]` (used only after a bounds test). -/
def cellAt (g : Grid) (p : Pos) : Char :=
  (g.getD p.1.toNat []).getD p.2.toNat '?'

/-- The Node class of search_algorithms.py: position, parent link
(an arena index), cost fields g/h/f, SMA* depth and child indices. -/
structure SNode where
  parent : Option ℕ
  pos : Pos
  g : ℕ
  h : ℚ
  f : ℚ
  depth : ℕ
  children : List ℕ
deriving Repr, DecidableEq, Inhabited

/-- The arena holding every Node created by one search call. -/
abbrev Arena : Type := Array SNode

/-- A heap (Python list) of arena indices. -/
abbrev HeapL : Type := List ℕ

def aGet (a : Arena) (i : ℕ) : SNode := a.getD i default

/-- In-place field update of the node at index `i` (no-op out of range),
modelling mutation of a Python Node object. -/
def aSet (a : Arena) (i : ℕ) (n : SNode) : Arena :=
  if h : i < a.size then a.set ⟨i, h⟩ n else a

def hGet (l : HeapL) (i : ℕ) : ℕ := l.getD i 0

/-- `Node.__lt__`: comparison by the f field only. -/
def nodeLt (a : Arena) (i j : ℕ) : Bool := decide ((aGet a i).f < (aGet a j).f)

/-- CPython `heapq._siftdown(heap, startpos, pos)` with `newitem` the
element being bubbled up toward the root. -/
def siftdownLoop (a : Arena) (startpos item : ℕ) : ℕ → HeapL → ℕ → HeapL
  | 0, l, pos => l.set pos item
  | fu + 1, l, pos =>
    if startpos < pos then
      let parentpos := (pos - 1) / 2
      let parent := hGet l parentpos
      if nodeLt a item parent then
        siftdownLoop a startpos item fu (l.set pos parent) parentpos
      else l.set pos item
    else l.set pos item

/-- CPython `heapq.heappush`. -/
def heappush (a : Arena) (l : HeapL) (item : ℕ) : HeapL :=
  siftdownLoop a 0 item (l.length + 1) (l ++ [item]) l.length

/-- The descending phase of CPython `heapq._siftup`: move the smaller
child up into the hole until the hole reaches a leaf; returns the
array and the final hole position. -/
def siftupLoop (a : Arena) : ℕ → HeapL → ℕ → HeapL × ℕ
  | 0, l, pos => (l, pos)
  | fu + 1, l, pos =>
    let endpos := l.length
    let childpos := 2 * pos + 1
    if childpos < endpos then
      let rightpos := childpos + 1
      let childpos2 :=
        if rightpos < endpos && !(nodeLt a (hGet l childpos) (hGet l rightpos))
        then rightpos else childpos
      siftupLoop a fu (l.set pos (hGet l childpos2)) childpos2
    else (l, pos)

/-- CPython `heapq._siftup(heap, pos)`. -/
def siftup (a : Arena) (l : HeapL) (pos : ℕ) : HeapL :=
  let newitem := hGet l pos
  let sunk := siftupLoop a l.length l pos
  siftdownLoop a pos newitem (sunk.1.length + 1) (sunk.1.set sunk.2 newitem) sunk.2

/-- CPython `heapq.heappop` (the empty case, which raises in Python,
returns a junk index; every call site pops a nonempty heap). -/
def heappopD (a : Arena) (l : HeapL) : ℕ × HeapL :=
  match l with
  | [] => (0, [])
  | [x] => (x, [])
  | x :: xs =>
    (x, siftup a (((x :: xs).dropLast).set 0 ((x :: xs).getLastD 0)) 0)

/-- CPython `heapq.heapify`. -/
def heapify (a : Arena) (l : HeapL) : HeapL :=
  ((List.range (l.length / 2)).reverse).foldl (fun h i => siftup a h i) l

/-- Python `max(open_list, key=lambda n: (n.f, -n.depth))`: first
element attaining the lexicographically greatest key. -/
def keyGtFD (a : Arena) (i j : ℕ) : Bool :=
  decide ((aGet a j).f < (aGet a i).f) ||
    (decide ((aGet a i).f = (aGet a j).f) && decide ((aGet a i).depth < (aGet a j).depth))

def pythonMax (a : Arena) : HeapL → ℕ
  | [] => 0
  | x :: xs => xs.foldl (fun best n => if keyGtFD a n best then n else best) x

/-- Python `open_list.remove(worst)`: removes the first element equal
to `worst` under `Node.__eq__`, i.e. the first index whose position
equals `worst`'s position. -/
def removeFirstPos (a : Arena) (p : Pos) : HeapL → HeapL
  | [] => []
  | i :: is => if (aGet a i).pos = p then is else i :: removeFirstPos a p is

/-- Python `min(iterable)` on a list of rationals. -/
def listMinQ : List ℚ → ℚ
  | [] => 0
  | x :: xs => xs.foldl min x

/-- `_reconstruct_path`: follow the parent chain, accumulating
positions front-most first (Python appends then reverses). -/
def reconstructAux (a : Arena) : ℕ → Option ℕ → List Pos → List Pos
  | 0, _, acc => acc
  | _ + 1, none, acc => acc
  | fu + 1, some i, acc =>
    reconstructAux a fu (aGet a i).parent ((aGet a i).pos :: acc)

def reconstruct (a : Arena) (i : ℕ) : List Pos :=
  reconstructAux a (i + 1) (some i) []

/-- The fixed neighbor expansion order (right, left, down, up). -/
def moves : List (ℤ × ℤ) := [(0, 1), (0, -1), (1, 0), (-1, 0)]

/-- A heuristic callable: reads the freshly created neighbor Node (its
parent chain is reachable through the arena) and the end position. -/
abbrev HFun : Type := Arena → SNode → Pos → ℚ

/-- `manhattan_distance` (reads the two nodes' position fields). -/
def manhattan_distance (p q : Pos) : ℕ :=
  (p.1 - q.1).natAbs + (p.2 - q.2).natAbs

/-- manhattan_distance packaged as a heuristic callable. -/
def hManhattan : HFun := fun _ n e => (manhattan_distance n.pos e : ℚ)

/-- Expansion of one neighbor move, shared by the non-SMA variants:
`gStep` maps the parent g to the child g and `mkF` computes f from g
and h (`a_star`: g+h, `greedy`: h, `weighted`: g + h·w, dynamic: the
decaying weight). -/
def expandMove (grid : Grid) (epos : Pos) (hEval : HFun) (gStep : ℕ → ℕ)
    (mkF : ℕ → ℚ → ℚ) (closed : List Pos) (ci : ℕ)
    (st : HeapL × Arena) (mv : ℤ × ℤ) : HeapL × Arena :=
  let cur := aGet st.2 ci
  let np : Pos := (cur.pos.1 + mv.1, cur.pos.2 + mv.2)
  if inBounds grid np && (cellAt grid np != '1') && !(decide (np ∈ closed)) then
    let g1 := gStep cur.g
    let pre : SNode :=
      { parent := some ci, pos := np, g := g1, h := 0, f := 0, depth := cur.depth + 1, children := [] }
    let hv := hEval st.2 pre epos
    let a1 := st.2.push { pre with h := hv, f := mkF g1 hv }
    (heappush a1 st.1 (a1.size - 1), a1)
  else st

/-- The common best-first loop of a_star_search, greedy_bfs_search,
weighted_a_star_search and dynamic_weighted_a_star_search: pop, skip
if closed, close, test goal, expand the four moves. -/
def searchLoop (grid : Grid) (epos : Pos) (hEval : HFun) (gStep : ℕ → ℕ)
    (mkF : ℕ → ℚ → ℚ) : ℕ → HeapL → Arena → List Pos → Option (List Pos)
  | 0, _, _, _ => none
  | fu + 1, l, a, closed =>
    match l with
    | [] => none
    | _ :: _ =>
      let popped := heappopD a l
      let ci := popped.1
      let cpos := (aGet a ci).pos
      if cpos ∈ closed then searchLoop grid epos hEval gStep mkF fu popped.2 a closed
      else
        let closed1 := cpos :: closed
        if cpos = epos then some (reconstruct a ci)
        else
          let st1 := moves.foldl (expandMove grid epos hEval gStep mkF closed1 ci)
            (popped.2, a)
          searchLoop grid epos hEval gStep mkF fu st1.1 st1.2 closed1

/-- Fuel bound: a search over `grid` pops at most `1 + 4·(rows·cols+1)`
nodes in total, so this fuel is never exhausted. -/
def FUEL (grid : Grid) : ℕ := 5 * rowsOf grid * colsOf grid + 10

/-- `a_star_search(grid, start_pos, end_pos, heuristic_func)`:
start node has g = h = f = 0; neighbor f = g + h. -/
def a_star_search (grid : Grid) (s e : Pos) (hEval : HFun) : Option (List Pos) :=
  let startNode : SNode :=
    { parent := none, pos := s, g := 0, h := 0, f := 0, depth := 0, children := [] }
  searchLoop grid e hEval (· + 1) (fun g h => (g : ℚ) + h)
    (FUEL grid) [0] #[startNode] []

/-- `greedy_bfs_search`: start f = h; neighbor g never assigned
(stays 0), f = h. -/
def greedy_bfs_search (grid : Grid) (s e : Pos) (hEval : HFun) : Option (List Pos) :=
  let start0 : SNode :=
    { parent := none, pos := s, g := 0, h := 0, f := 0, depth := 0, children := [] }
  let h0 := hEval #[] start0 e
  searchLoop grid e hEval (fun _ => 0) (fun _ h => h)
    (FUEL grid) [0] #[{ start0 with h := h0, f := h0 }] []

/-- `weighted_a_star_search`: neighbor f = g + h·weight. -/
def weighted_a_star_search (grid : Grid) (s e : Pos) (hEval : HFun)
    (weight : ℚ) : Option (List Pos) :=
  let startNode : SNode :=
    { parent := none, pos := s, g := 0, h := 0, f := 0, depth := 0, children := [] }
  searchLoop grid e hEval (· + 1) (fun g h => (g : ℚ) + h * weight)
    (FUEL grid) [0] #[startNode] []

/-- `dynamic_weighted_a_star_search`: h is always the Manhattan
distance; f = g + (1 + remaining_ratio)·h with the ratio taken
against the initial Manhattan distance. -/
def dynamic_weighted_a_star_search (grid : Grid) (s e : Pos) : Option (List Pos) :=
  let startNode : SNode :=
    { parent := none, pos := s, g := 0, h := 0, f := 0, depth := 0, children := [] }
  let maxDistance : ℚ := (manhattan_distance s e : ℚ)
  searchLoop grid e hManhattan (· + 1)
    (fun g h =>
      let ratio : ℚ := if maxDistance ≠ 0 then h / maxDistance else 1
      (g : ℚ) + (1 + ratio) * h)
    (FUEL grid) [0] #[startNode] []

/-- One pruning event of sma_star_search, recorded for analysis:
the frontier snapshot (position, f, depth) in heap order, the worst
node chosen by `max(open_list, key=...)`, the parent's f before and
after the backup, and the f values of the surviving siblings. -/
structure PruneEvent where
  frontier : List (Pos × ℚ × ℕ)
  worstPos : Pos
  worstF : ℚ
  worstDepth : ℕ
  parentFBefore : Option ℚ
  parentFAfter : Option ℚ
  siblingFs : List ℚ
deriving Repr, DecidableEq

/-- Lines 249-258 of search_algorithms.py: when the frontier exceeds
max_nodes, drop the worst (f, -depth) node (list.remove matches by
position), re-heapify, and back the minimum sibling f up into the
parent (never decreasing it). Also emits the PruneEvent. -/
def pruneStep (maxNodes : ℕ) (st : HeapL × Arena) : (HeapL × Arena) × Option PruneEvent :=
  let l := st.1
  let a := st.2
  if l.length > maxNodes then
    let wi := pythonMax a l
    let wrec := aGet a wi
    let snap := l.map (fun i => ((aGet a i).pos, (aGet a i).f, (aGet a i).depth))
    let l2 := heapify a (removeFirstPos a wrec.pos l)
    match wrec.parent with
    | none =>
      ((l2, a), some { frontier := snap, worstPos := wrec.pos, worstF := wrec.f,
                       worstDepth := wrec.depth, parentFBefore := none,
                       parentFAfter := none, siblingFs := [] })
    | some pi =>
      let prec := aGet a pi
      let sibs := prec.children.filter (fun c => (aGet a c).pos ≠ wrec.pos)
      if sibs.isEmpty then
        ((l2, a), some { frontier := snap, worstPos := wrec.pos, worstF := wrec.f,
                         worstDepth := wrec.depth, parentFBefore := some prec.f,
                         parentFAfter := some prec.f, siblingFs := [] })
      else
        let bestF := listMinQ (sibs.map (fun c => (aGet a c).f))
        let a2 := aSet a pi { prec with f := max prec.f bestF }
        ((l2, a2), some { frontier := snap, worstPos := wrec.pos, worstF := wrec.f,
                          worstDepth := wrec.depth, parentFBefore := some prec.f,
                          parentFAfter := some (max prec.f bestF),
                          siblingFs := sibs.map (fun c => (aGet a c).f) })
  else ((l, a), none)

/-- SMA* neighbor expansion: like A* expansion but the bounds/obstacle
test and the closed test are separate, the child is recorded in the
parent's children list, and depth is set explicitly. -/
def expandMoveSma (grid : Grid) (epos : Pos) (hEval : HFun) (closed : List Pos)
    (ci : ℕ) (st : HeapL × Arena) (mv : ℤ × ℤ) : HeapL × Arena :=
  let cur := aGet st.2 ci
  let np : Pos := (cur.pos.1 + mv.1, cur.pos.2 + mv.2)
  if inBounds grid np && (cellAt grid np != '1') then
    if decide (np ∈ closed) then st
    else
      let pre : SNode :=
        { parent := some ci, pos := np, g := cur.g + 1, h := 0, f := 0, depth := cur.depth + 1, children := [] }
      let hv := hEval st.2 pre epos
      let a1 := st.2.push { pre with h := hv, f := (cur.g + 1 : ℕ) + hv }
      let ni := a1.size - 1
      let a2 := aSet a1 ci { aGet a1 ci with children := (aGet a1 ci).children ++ [ni] }
      (heappush a2 st.1 ni, a2)
  else st

/-- The sma_star_search while-loop, accumulating prune events. -/
def smaLoop (grid : Grid) (epos : Pos) (hEval : HFun) (maxNodes : ℕ) :
    ℕ → HeapL → Arena → List Pos → List PruneEvent →
    Option (List Pos) × List PruneEvent
  | 0, _, _, _, evs => (none, evs)
  | fu + 1, l, a, closed, evs =>
    match l with
    | [] => (none, evs)
    | _ :: _ =>
      let pruned := pruneStep maxNodes (l, a)
      let evs1 := evs ++ pruned.2.toList
      match pruned.1.1 with
      | [] => (none, evs1)
      | _ :: _ =>
        let a1 := pruned.1.2
        let popped := heappopD a1 pruned.1.1
        let ci := popped.1
        let cpos := (aGet a1 ci).pos
        if cpos ∈ closed then smaLoop grid epos hEval maxNodes fu popped.2 a1 closed evs1
        else
          let closed1 := cpos :: closed
          if cpos = epos then (some (reconstruct a1 ci), evs1)
          else
            let st1 := moves.foldl (expandMoveSma grid epos hEval closed1 ci)
              (popped.2, a1)
            smaLoop grid epos hEval maxNodes fu st1.1 st1.2 closed1 evs1

/-- `sma_star_search(grid, start_pos, end_pos, heuristic_func, max_nodes)`:
start h = f = heuristic value. -/
def sma_star_search (grid : Grid) (s e : Pos) (hEval : HFun) (maxNodes : ℕ) :
    Option (List Pos) :=
  let start0 : SNode :=
    { parent := none, pos := s, g := 0, h := 0, f := 0, depth := 0, children := [] }
  let h0 := hEval #[] start0 e
  (smaLoop grid e hEval maxNodes (FUEL grid) [0]
    #[{ start0 with h := h0, f := h0 }] [] []).1

/-- The prune events emitted by a sma_star_search run. -/
def sma_star_events (grid : Grid) (s e : Pos) (hEval : HFun) (maxNodes : ℕ) :
    List PruneEvent :=
  let start0 : SNode :=
    { parent := none, pos := s, g := 0, h := 0, f := 0, depth := 0, children := [] }
  let h0 := hEval #[] start0 e
  (smaLoop grid e hEval maxNodes (FUEL grid) [0]
    #[{ start0 with h := h0, f := h0 }] [] []).2

/-- Python dict as an insertion-ordered association list: updating an
existing key keeps its position; a new key appends. -/
def dictUpd {α β : Type} [DecidableEq α] (d : List (α × β)) (k : α) (v : β) :
    List (α × β) :=
  if d.any (fun kv => kv.1 = k) then
    d.map (fun kv => if kv.1 = k then (k, v) else kv)
  else d ++ [(k, v)]

/-- The class-level `Robot.robot_positions` registry. -/
abbrev RegT : Type := List (ℕ × Pos)

/-- A broadcast package `{(x, y): symbol}`. -/
abbrev FactMap : Type := List (Pos × Char)

/-- Unchecked 2-D list read `grid[row][col]` (call sites are guarded or
operate on well-formed data). -/
def get2d (g : Grid) (row col : ℤ) : Char :=
  (g.getD row.toNat []).getD col.toNat '?'

/-- Unchecked 2-D list write `grid[row][col] = c`. -/
def set2d (g : Grid) (row col : ℤ) (c : Char) : Grid :=
  g.set row.toNat ((g.getD row.toNat []).set col.toNat c)

/-- The Robot class state of robot_partial_knowledge.py (pos_x/pos_y
are kept in lockstep with position in the source, so a single field
models both; wait_count is the attribute the coordinator attaches). -/
structure Robot where
  id : ℕ
  start_row : ℤ
  start_col : ℤ
  goal_row : ℤ
  goal_col : ℤ
  grid_rows : ℕ
  grid_cols : ℕ
  full_map : Grid
  sensor_radius : ℕ
  pos : Pos
  record : List (Char × ℤ × ℤ)
  local_map : Grid
  path : List Pos
  wait_count : ℕ
deriving Repr, DecidableEq, Inhabited

/-- `Robot.get_symbol_at`: bounds-checked read, '?' out of bounds. -/
def Robot.get_symbol_at (r : Robot) (grid : Grid) (row col : ℤ) : Char :=
  if decide (0 ≤ row) && decide (row < (r.grid_rows : ℤ)) &&
     decide (0 ≤ col) && decide (col < (r.grid_cols : ℤ)) then
    get2d grid row col
  else '?'

/-- The sensing offsets `range(-radius, radius+1) x range(-radius, radius+1)`
in row-major order. -/
def senseOffsets (radius : ℕ) : List (ℤ × ℤ) :=
  ((List.range (2 * radius + 1)).map (fun (k : ℕ) => (k : ℤ) - radius)).product
    ((List.range (2 * radius + 1)).map (fun (k : ℕ) => (k : ℤ) - radius))

/-- One cell of `Robot.sense_environment`: copy the ground-truth symbol
into the local map and append the fact if it is new. -/
def senseCell (r : Robot) (st : Grid × List (Char × ℤ × ℤ)) (d : ℤ × ℤ) :
    Grid × List (Char × ℤ × ℤ) :=
  let nx := r.pos.1 + d.1
  let ny := r.pos.2 + d.2
  let symbol := r.get_symbol_at r.full_map nx ny
  if decide (0 ≤ nx) && decide (nx < (r.grid_rows : ℤ)) &&
     decide (0 ≤ ny) && decide (ny < (r.grid_cols : ℤ)) then
    (set2d st.1 nx ny symbol,
     if (symbol, nx, ny) ∈ st.2 then st.2 else st.2 ++ [(symbol, nx, ny)])
  else st

/-- `Robot.sense_environment`. -/
def Robot.sense_environment (r : Robot) : Robot :=
  let res := (senseOffsets r.sensor_radius).foldl (senseCell r) (r.local_map, r.record)
  { r with local_map := res.1, record := res.2 }

/-- `Robot.__init__`: local map all Unknown except the goal cell,
initial record holds the goal fact, then an initial sense. -/
def initRobot (robot_id : ℕ) (start_pos : Pos) (grid_dimensions : ℕ × ℕ)
    (goal_pos : Pos) (full_map : Grid) (sensor_radius : ℕ) : Robot :=
  let lm0 : Grid :=
    List.replicate grid_dimensions.1 (List.replicate grid_dimensions.2 '?')
  Robot.sense_environment
    { id := robot_id, start_row := start_pos.1, start_col := start_pos.2,
      goal_row := goal_pos.1, goal_col := goal_pos.2,
      grid_rows := grid_dimensions.1, grid_cols := grid_dimensions.2,
      full_map := full_map, sensor_radius := sensor_radius,
      pos := start_pos,
      record := [('G', goal_pos.1, goal_pos.2)],
      local_map := set2d lm0 goal_pos.1 goal_pos.2 'G',
      path := [], wait_count := 0 }

/-- Stable insertion keeping the new element after equal keys. -/
def insertByKey {α : Type} (key : α → ℕ) (x : α) : List α → List α
  | [] => [x]
  | y :: ys => if key x < key y then x :: y :: ys else y :: insertByKey key x ys

/-- Python `list.sort(key=...)`: stable ascending sort by key. -/
def pySortByKey {α : Type} (key : α → ℕ) (l : List α) : List α :=
  l.foldl (fun acc x => insertByKey key x acc) []

/-- The `for target in unknown_tiles` loop of plan_path: first target
with a successful a_star_search. -/
def tryExplore (r : Robot) : List Pos → Option (List Pos)
  | [] => none
  | t :: ts =>
    match a_star_search r.local_map r.pos t hManhattan with
    | some p => some p
    | none => tryExplore r ts

/-- `Robot.plan_path`: A* on the local map with the Manhattan
heuristic; on failure, explore toward the nearest Unknown tile. -/
def Robot.plan_path (r : Robot) : Robot :=
  match a_star_search r.local_map r.pos (r.goal_row, r.goal_col) hManhattan with
  | some path => { r with path := path.drop 1 }
  | none =>
    let unknown_tiles : List Pos := (List.range r.grid_rows).flatMap (fun (i : ℕ) =>
      (List.range r.grid_cols).filterMap (fun (j : ℕ) =>
        if get2d r.local_map i j = '?' then some ((i : ℤ), (j : ℤ)) else none))
    if unknown_tiles.isEmpty then { r with path := [] }
    else
      match tryExplore r
        (pySortByKey (fun p => manhattan_distance p r.pos) unknown_tiles) with
      | some explore_path => { r with path := explore_path.drop 1 }
      | none => { r with path := [] }

/-- `Robot.replan`. -/
def Robot.replan (r : Robot) (new_goal : Pos) : Robot :=
  Robot.plan_path { r with goal_row := new_goal.1, goal_col := new_goal.2 }

/-- `Robot.move`: pop the next path entry, clear the vacated cell to
Free, adopt the new position unconditionally (the Bool result is the
PHASED THROUGH OBSTACLE flag), update the registry, re-sense. -/
def Robot.move (r : Robot) (reg : RegT) : Robot × RegT × Bool :=
  match r.path with
  | [] => (r, reg, false)
  | next_pos :: rest =>
    let lm1 := set2d r.local_map r.pos.1 r.pos.2 '0'
    let true_value := r.get_symbol_at r.full_map next_pos.1 next_pos.2
    let r1 := Robot.sense_environment
      { r with local_map := lm1, pos := next_pos, path := rest }
    (r1, dictUpd reg r.id next_pos, decide (true_value = '1'))

/-- `Robot.share_knowledge`: the record as a position-to-symbol dict. -/
def Robot.share_knowledge (r : Robot) : FactMap :=
  r.record.foldl (fun d rec => dictUpd d (rec.2.1, rec.2.2) rec.1) []

/-- One fact of `Robot.receive_knowledge`: adopt it only into a still
Unknown cell; the Bool tracks whether anything was adopted. -/
def receiveFact (st : Grid × List (Char × ℤ × ℤ) × Bool) (kv : Pos × Char) :
    Grid × List (Char × ℤ × ℤ) × Bool :=
  if get2d st.1 kv.1.1 kv.1.2 = '?' then
    (set2d st.1 kv.1.1 kv.1.2 kv.2, st.2.1 ++ [(kv.2, kv.1.1, kv.1.2)], true)
  else st

/-- `Robot.receive_knowledge`: adopt unknown facts; replan if any was
adopted. -/
def Robot.receive_knowledge (r : Robot) (shared_data : FactMap) : Robot :=
  let res := shared_data.foldl receiveFact (r.local_map, r.record, false)
  let r1 := { r with local_map := res.1, record := res.2.1 }
  if res.2.2 then Robot.plan_path r1 else r1

/-- `broadcast_knowledge` of run_partial_robots.py. -/
def broadcast_knowledge (robots : List Robot) : List Robot :=
  let all_shared : FactMap := robots.foldl
    (fun d r => (r.share_knowledge).foldl (fun d2 kv => dictUpd d2 kv.1 kv.2) d) []
  robots.map (fun r => r.receive_knowledge all_shared)

/-- `update_all_robot_positions`: clear stale RobotMarkers, then stamp
every registered robot position. -/
def update_all_robot_positions (reg : RegT) (robots : List Robot) : List Robot :=
  robots.map (fun r =>
    let cleared := r.local_map.map (fun row =>
      row.map (fun c => if c = 'R' then '0' else c))
    { r with local_map := reg.foldl (fun m kv => set2d m kv.2.1 kv.2.2 'R') cleared })

/-- Wait accounting in the conflict-resolution phase: bump the counter
and force a replan toward the own goal at threshold 2. -/
def waitBump (r : Robot) : Robot :=
  let wc := r.wait_count + 1
  if wc ≥ 2 then { Robot.replan { r with wait_count := wc } (r.goal_row, r.goal_col)
                   with wait_count := 0 }
  else { r with wait_count := wc }

def minNatD : List ℕ → ℕ
  | [] => 0
  | x :: xs => xs.foldl min x

/-- Phase 2 of run_simulation for the robot at list index `idx`:
skip if at goal or without an intent; same-target conflict goes to the
least id; an occupied target cell forces a wait unless it is the
proposer own goal; otherwise move, reset the wait counter, replan. -/
def phase2Robot (next_moves : List (ℕ × Option Pos))
    (acc : List Robot × RegT × Bool) (idx : ℕ) : List Robot × RegT × Bool :=
  let rs := acc.1
  let r := rs.getD idx default
  if r.pos = (r.goal_row, r.goal_col) then acc
  else
    match (next_moves.lookup r.id).bind (fun x => x) with
    | none => acc
    | some mv =>
      let conflicting := (next_moves.filter (fun kv => kv.2 = some mv)).map (fun kv => kv.1)
      if conflicting.length > 1 && !(decide (r.id = minNatD conflicting)) then
        (rs.set idx (waitBump r), acc.2.1, acc.2.2)
      else if rs.any (fun o => !(decide (o.id = r.id)) && decide (o.pos = mv)) &&
              !(decide (mv = ((r.goal_row, r.goal_col) : Pos))) then
        (rs.set idx (waitBump r), acc.2.1, acc.2.2)
      else
        let m := Robot.move r acc.2.1
        let r2 := Robot.plan_path { m.1 with wait_count := 0 }
        (rs.set idx r2, m.2.1, true)

/-- One time step of run_simulation: intent, conflict resolution and
movement, broadcast, position refresh (the Bool is any_robot_moved). -/
def simStep (st : List Robot × RegT) : (List Robot × RegT) × Bool :=
  let robots := st.1
  let next_moves : List (ℕ × Option Pos) := robots.map (fun r => (r.id, r.path.head?))
  let after2 := (List.range robots.length).foldl (phase2Robot next_moves)
    (robots, st.2, false)
  let robots3 := broadcast_knowledge after2.1
  let robots4 := update_all_robot_positions after2.2.1 robots3
  ((robots4, after2.2.1), after2.2.2)

def simSteps (st : List Robot × RegT) : ℕ → List Robot × RegT
  | 0 => st
  | k + 1 => simSteps (simStep st).1 k

/-- All (row, col) cell coordinates of the local map in row-major
order (spec formulation for the exploration fallback). -/
def allCellIdx (rows cols : ℕ) : List Pos :=
  ((List.range rows).product (List.range cols)).map
    (fun ij => ((ij.1 : ℤ), (ij.2 : ℤ)))

/-- The exploration-target list as the spec words it: all Unknown
cells of the local map. -/
def specUnknownTiles (r : Robot) : List Pos :=
  (allCellIdx r.grid_rows r.grid_cols).filter
    (fun p => get2d r.local_map p.1 p.2 = '?')

/-- plan() as claim C5 words it: primary A* to the goal; otherwise the
first Unknown cell, in ascending Manhattan distance from the current
position, that A* can reach; otherwise an empty path. -/
def specPlanPath (r : Robot) : Robot :=
  match a_star_search r.local_map r.pos (r.goal_row, r.goal_col) hManhattan with
  | some p => { r with path := p.drop 1 }
  | none =>
    match (pySortByKey (fun p => manhattan_distance p r.pos)
        (specUnknownTiles r)).findSome?
        (fun t => a_star_search r.local_map r.pos t hManhattan) with
    | some p => { r with path := p.drop 1 }
    | none => { r with path := [] }

/-- Number of Free ('0') cells of a grid. -/
def count0 (g : Grid) : ℕ :=
  (g.map (fun row => row.countP (fun c => c = '0'))).sum

/-- The in-bounds non-obstacle (passable) positions of a grid. -/
def passableFinset (g : Grid) : Finset Pos :=
  (((Finset.range (rowsOf g)) ×ˢ (Finset.range (colsOf g))).image
    (fun ij => ((ij.1 : ℤ), (ij.2 : ℤ)))).filter
    (fun p => cellAt g p ≠ '1')

/-- A heuristic callable that depends only on the queried node's
position, as manhattan_distance does (it may not inspect mutable
parent-chain cost fields). -/
def positional (hEval : HFun) : Prop :=
  ∀ (a₁ a₂ : Arena) (n₁ n₂ : SNode) (e : Pos),
    n₁.pos = n₂.pos → hEval a₁ n₁ e = hEval a₂ n₂ e

/-- Claim C3's eviction rule for one recorded prune event: the evicted
node has the (strictly) highest f among the frontier, ties broken by
greatest depth. -/
def evictsGreatestDepth (ev : PruneEvent) : Prop :=
  ∀ t ∈ ev.frontier, t.2.1 < ev.worstF ∨ (t.2.1 = ev.worstF ∧ t.2.2 ≤ ev.worstDepth)

/-- Claim C3's backup rule for one recorded prune event: the parent's
f becomes the minimum f among the remaining children. -/
def backsUpMinSibling (ev : PruneEvent) : Prop :=
  ev.parentFBefore ≠ none → ev.siblingFs ≠ [] →
    ev.parentFAfter = some (listMinQ ev.siblingFs)

instance (ev : PruneEvent) : Decidable (evictsGreatestDepth ev) := by
  unfold evictsGreatestDepth
  infer_instance

instance (ev : PruneEvent) : Decidable (backsUpMinSibling ev) := by
  unfold backsUpMinSibling
  infer_instance

/-- What the code actually does at an eviction (amended C3): the
evicted node maximizes (f, -depth) over the frontier — highest f,
ties broken by LEAST depth — and the parent's f is raised to the
minimum f among the remaining children only if that minimum exceeds
it. -/
def evictsLeastDepthBacksUpMax (ev : PruneEvent) : Prop :=
  (∀ t ∈ ev.frontier, t.2.1 < ev.worstF ∨ (t.2.1 = ev.worstF ∧ ev.worstDepth ≤ t.2.2)) ∧
  (ev.frontier ≠ [] → (ev.worstPos, ev.worstF, ev.worstDepth) ∈ ev.frontier) ∧
  (∀ q, ev.parentFBefore = some q → ev.siblingFs ≠ [] →
    ev.parentFAfter = some (max q (listMinQ ev.siblingFs))) ∧
  (∀ q, ev.parentFBefore = some q → ev.siblingFs = [] →
    ev.parentFAfter = some q)

/-- The four-adjacency relation of claim C1. -/
def fourAdj (p q : Pos) : Prop := manhattan_distance p q = 1

/-- Correspondence between an a_star_search arena and a sma_star_search
arena over the same run: equal sizes, identical parent/pos/g/depth
everywhere, and identical f except possibly at the start node (index 0,
whose f is 0 in A* but the heuristic value in SMA*); the children
fields, used only by pruning, are unconstrained. -/
abbrev c2Rel (a a₂ : Arena) : Prop :=
  a.size = a₂.size ∧
  (∀ j, (aGet a j).parent = (aGet a₂ j).parent ∧ (aGet a j).pos = (aGet a₂ j).pos ∧
    (aGet a j).g = (aGet a₂ j).g ∧ (aGet a j).depth = (aGet a₂ j).depth) ∧
  (∀ i, i ≠ 0 → (aGet a i).f = (aGet a₂ i).f)

/-- Well-formedness of a post-first-iteration search state: nonempty
arena, no heap entry for the already-popped start node, all heap
entries in range and sitting on passable (in-bounds, non-obstacle)
cells. -/
abbrev c2St (grid : Grid) (l : HeapL) (a : Arena) : Prop :=
  0 < a.size ∧ (∀ x ∈ l, x ≠ 0) ∧ (∀ x ∈ l, x < a.size) ∧
    (∀ i ∈ l, inBounds grid (aGet a i).pos = true ∧ cellAt grid (aGet a i).pos ≠ '1')

/-- Corresponding A*/SMA* search states: identical heaps, related
arenas, and a well-formed A*-side state. -/
abbrev c2Pair (grid : Grid) (st st₂ : HeapL × Arena) : Prop :=
  st.1 = st₂.1 ∧ c2Rel st.2 st₂.2 ∧ c2St grid st.1 st.2

/-- The grid holds no Obstacle ('1') cell (claim C4's hypothesis). -/
def obstacleFree (g : Grid) : Bool :=
  g.all (fun row => row.all (fun c => c != '1'))

/-- One canonical unit step from p toward e (row first, then column). -/
def stepTo (p e : Pos) : Pos :=
  if p.1 < e.1 then (p.1 + 1, p.2)
  else if e.1 < p.1 then (p.1 - 1, p.2)
  else if p.2 < e.2 then (p.1, p.2 + 1)
  else (p.1, p.2 - 1)

/-- The canonical monotone lattice path from s toward e. -/
def pathPt (s e : Pos) : ℕ → Pos
  | 0 => s
  | t + 1 => stepTo (pathPt s e t) e

/-- The CPython binary-heap ordering on f values: every non-root entry
is at least its parent entry. -/
abbrev heapOrd (a : Arena) (l : HeapL) : Prop :=
  ∀ j, j < l.length → 0 < j →
    (aGet a (hGet l ((j - 1) / 2))).f ≤ (aGet a (hGet l j)).f

/-- Per-node invariant for the C4 A* run with the Manhattan heuristic:
the root is the zero-cost start node; every other node refines its
parent by one 4-adjacent in-bounds step, with g one more than the
parent's and f = g + manhattan-to-goal. -/
abbrev nodeOK4 (grid : Grid) (s e : Pos) (a : Arena) (i : ℕ) : Prop :=
  ((aGet a i).parent = none →
    (aGet a i).pos = s ∧ (aGet a i).g = 0 ∧ (aGet a i).f = 0) ∧
  (∀ j, (aGet a i).parent = some j → j < i ∧
    inBounds grid (aGet a i).pos = true ∧
    fourAdj (aGet a j).pos (aGet a i).pos ∧
    (aGet a i).g = (aGet a j).g + 1 ∧
    (aGet a i).f = ((aGet a i).g : ℚ) + (manhattan_distance (aGet a i).pos e : ℚ))

/-- The full loop invariant for the C4 optimality proof: a well-formed
arena rooted at the start node, a heap of in-range non-root entries in
CPython heap order, a duplicate-free closed list of in-bounds cells
not containing the goal, and a frontier witness sitting on the
canonical optimal path with optimal g, the rest of that path being
unclosed. -/
abbrev c4Inv (grid : Grid) (s e : Pos) (l : HeapL) (a : Arena)
    (closed : List Pos) : Prop :=
  0 < a.size ∧
  (aGet a 0).parent = none ∧ (aGet a 0).pos = s ∧
  ((∀ x ∈ l, x ≠ 0) ∨ (l = [0] ∧ closed = [])) ∧
  (∀ x ∈ l, x < a.size) ∧
  (∀ i, i < a.size → nodeOK4 grid s e a i) ∧
  (∀ i, i < a.size → 0 < i → ∃ j, (aGet a i).parent = some j) ∧
  heapOrd a l ∧
  closed.Nodup ∧
  (∀ q ∈ closed, inBounds grid q = true) ∧
  e ∉ closed ∧
  (∃ r, r ≤ manhattan_distance s e ∧
    (∃ i ∈ l, (aGet a i).pos = pathPt s e r ∧ (aGet a i).g = r) ∧
    (∀ t, r ≤ t → t ≤ manhattan_distance s e → pathPt s e t ∉ closed))

/-- Validity of one arena node: the root carries the start position;
every other node points to an earlier index, sits 4-adjacent to its
parent and not on an obstacle cell. -/
abbrev nodeOK (grid : Grid) (s : Pos) (a : Arena) (i : ℕ) : Prop :=
  ((aGet a i).parent = none → (aGet a i).pos = s) ∧
  (∀ j, (aGet a i).parent = some j →
    j < i ∧ fourAdj (aGet a j).pos (aGet a i).pos ∧ cellAt grid (aGet a i).pos ≠ '1')

/-- Invariant of a search state (heap, arena): nonempty arena, every
node valid, every heap entry in range. -/
abbrev stInv (grid : Grid) (s : Pos) (st : HeapL × Arena) : Prop :=
  0 < st.2.size ∧ (∀ i, i < st.2.size → nodeOK grid s st.2 i) ∧
    (∀ i, i ∈ st.1 → i < st.2.size)

/-- The path shape of claim C1 (amended: the start cell itself is
never tested against obstacles by the code). -/
abbrev goodPath (grid : Grid) (s e : Pos) (p : List Pos) : Prop :=
  p.head? = some s ∧ p.getLast? = some e ∧ List.Chain' fourAdj p ∧
    ∀ q ∈ p.tail, cellAt grid q ≠ '1'

/-- The 1×3 corridor scenario of claim C7. -/
def corridorMap : Grid := [['0', '0', '0']]

/-- Claim C7 initial state: two robots sharing goal (0,2), after the
initial planning pass of run_simulation, with the class registry
empty. -/
def c7Init : List Robot × RegT :=
  ([Robot.plan_path (initRobot 1 (0, 0) (1, 3) (0, 2) corridorMap 1),
    Robot.plan_path (initRobot 2 (0, 1) (1, 3) (0, 2) corridorMap 1)], [])

/-- The C2 counterexample grid (a local-map style grid: '?' cells are
passable but not Free). -/
def gC2 : Grid := [['1', '?', '1', '0'], ['?', '0', '1', '?'], ['?', '?', '?', '?']]

/-- A concrete position-table heuristic exhibiting the f backup
divergence of claim C3. -/
def hTableC3 : HFun := fun _ n _ =>
  match n.pos with
  | (0, 0) => 11 | (0, 1) => 0 | (0, 2) => 6
  | (1, 0) => 11 | (1, 1) => 6 | (1, 2) => 9
  | (2, 0) => 7 | (2, 1) => 0 | (2, 2) => 5
  | _ => 0

/-- 2×3 and 3×3 obstacle-free grids for the C3 counterexample runs. -/
def gC3a : Grid := [['0', '0', '0'], ['0', '0', '0']]

def gC3b : Grid := [['0', '0', '0'], ['0', '0', '0'], ['0', '0', '0']]

/-- A robot state used to witness the move()/plan() theorems. -/
def witnessBot : Robot :=
  Robot.plan_path (initRobot 1 (0, 0) (1, 3) (0, 2) corridorMap 1)

/-- The in-bounds guard of senseCell. -/
def senseGuard (r : Robot) (d : ℤ × ℤ) : Bool :=
  decide (0 ≤ r.pos.1 + d.1) && decide (r.pos.1 + d.1 < (r.grid_rows : ℤ)) &&
  decide (0 ≤ r.pos.2 + d.2) && decide (r.pos.2 + d.2 < (r.grid_cols : ℤ))

/-- Cell-wise monotonicity of knowledge: every known (non-Unknown)
cell stays known. -/
def knownPreserved (m m₂ : Grid) : Prop :=
  ∀ (i j : ℕ), get2d m (i : ℤ) (j : ℤ) ≠ '?' → get2d m₂ (i : ℤ) (j : ℤ) ≠ '?'

/-- The number of known (non-Unknown) cells of a local map. -/
def knownCount (m : Grid) : ℕ :=
  (m.map (fun row => row.countP (fun c => decide (c ≠ '?')))).sum

/-- Same row count and row lengths. -/
def sameShape (m m₂ : Grid) : Prop :=
  m.length = m₂.length ∧ ∀ k : ℕ, (m.getD k []).length = (m₂.getD k []).length

/-- The ground-truth map carries a known symbol on every in-dimension
cell (spec: ground-truth symbols are only Free and Obstacle). -/
def fullMapKnown (r : Robot) : Bool :=
  (List.range r.grid_rows).all (fun a =>
    (List.range r.grid_cols).all (fun b =>
      !(get2d r.full_map (a : ℤ) (b : ℤ) = '?')))

/-! ### List and 2-D grid toolkit -/

theorem listSet_getD {α : Type} (l : List α) (n : ℕ) (v d : α)
    (h : l.getD n d = v) : l.set n v = l := by
  induction l generalizing n with
  | nil => rfl
  | cons x xs ih =>
    cases n with
    | zero => simp_all [List.getD]
    | succ m => simp_all [List.getD]

theorem set2d_same (g : Grid) (i j : ℤ) (v : Char)
    (h : get2d g i j = v) : set2d g i j v = g := by
  unfold set2d
  rw [listSet_getD (g.getD i.toNat []) j.toNat v '?' h]
  exact listSet_getD g i.toNat _ [] rfl

theorem length_set2d (g : Grid) (i j : ℤ) (v : Char) :
    (set2d g i j v).length = g.length := by
  unfold set2d; exact List.length_set ..

theorem row_set2d (g : Grid) (i j : ℤ) (v : Char) (k : ℕ) :
    (set2d g i j v).getD k [] =
      if k = i.toNat then
        if i.toNat < g.length then (g.getD i.toNat []).set j.toNat v
        else g.getD k []
      else g.getD k [] := by
  unfold set2d
  rw [List.getD_eq_getElem?_getD, List.getElem?_set]
  by_cases hk : k = i.toNat
  · by_cases hlen : i.toNat < g.length
    · simp [hk, hlen, List.getD_eq_getElem?_getD]
    · simp [hk, hlen, List.getD_eq_getElem?_getD,
        List.getElem?_eq_none (by omega : g.length ≤ i.toNat)]
  · have hk2 : ¬ (i.toNat = k) := fun hc => hk hc.symm
    simp [hk, hk2, List.getD_eq_getElem?_getD]

theorem rowlen_set2d (g : Grid) (i j : ℤ) (v : Char) (k : ℕ) :
    ((set2d g i j v).getD k []).length = (g.getD k []).length := by
  rw [row_set2d]
  by_cases hk : k = i.toNat
  · by_cases hlen : i.toNat < g.length
    · simp [hk, hlen, List.length_set]
    · simp [hk, hlen]
  · simp [hk]

theorem get2d_set2d_ne (g : Grid) (i j i₂ j₂ : ℤ) (v : Char)
    (h : i.toNat ≠ i₂.toNat ∨ j.toNat ≠ j₂.toNat) :
    get2d (set2d g i j v) i₂ j₂ = get2d g i₂ j₂ := by
  unfold get2d
  rw [row_set2d]
  by_cases hk : i₂.toNat = i.toNat
  · rcases h with h | h
    · exact absurd hk.symm h
    · by_cases hlen : i.toNat < g.length
      · simp only [hk, if_pos rfl, hlen, if_pos]
        rw [List.getD_eq_getElem?_getD, List.getElem?_set_ne h,
          ← List.getD_eq_getElem?_getD]
      · simp [hk, hlen]
  · simp [hk]

theorem get2d_set2d_self (g : Grid) (i j : ℤ) (v : Char)
    (hi : i.toNat < g.length) (hj : j.toNat < (g.getD i.toNat []).length) :
    get2d (set2d g i j v) i j = v := by
  unfold get2d
  rw [row_set2d, if_pos rfl, if_pos hi, List.getD_eq_getElem?_getD,
    List.getElem?_set_self (by simpa using hj)]
  simp

theorem set2d_oob (g : Grid) (i j : ℤ) (v : Char)
    (h : g.length ≤ i.toNat ∨ (g.getD i.toNat []).length ≤ j.toNat) :
    set2d g i j v = g := by
  unfold set2d
  rcases h with h | h
  · exact List.set_eq_of_length_le h
  · rw [List.set_eq_of_length_le h]
    exact listSet_getD g i.toNat _ [] rfl
/-! ### C10: move() with an empty path is a no-op -/

/-- C10: calling move() on an agent whose path is empty is a no-op:
the agent's position, LocalMap, fact record, path, and the shared
position registry are all unchanged (and no mismatch is flagged). -/
theorem c10_move_empty_noop (r : Robot) (reg : RegT) (h : r.path = []) :
    Robot.move r reg = (r, reg, false) := by
  unfold Robot.move
  rw [h]

/-- Witness for C10 at a concrete freshly initialized robot. -/
theorem c10_move_empty_noop_witness :
    (initRobot 1 (0, 0) (1, 3) (0, 2) corridorMap 1).path = [] ∧
    Robot.move (initRobot 1 (0, 0) (1, 3) (0, 2) corridorMap 1) [] =
      (initRobot 1 (0, 0) (1, 3) (0, 2) corridorMap 1, [], false) :=
  ⟨rfl, c10_move_empty_noop _ _ rfl⟩

-- (initRobot performs no search, so plain rfl suffices above.)

/-! ### C6: move() with a non-empty path -/

/-- C6: for an agent with a non-empty path, move() pops the first path
entry, marks the vacated cell Free ('0') in the LocalMap, and adopts
the popped position as the new position even when the ground-truth
cell there is an Obstacle; in that mismatch case the flag is raised
(the move is never rejected: the position update is unconditional),
the registry records the new position, and the state then re-senses
from the new position. -/
theorem c6_move_step (r : Robot) (reg : RegT) (next : Pos) (rest : List Pos)
    (h : r.path = next :: rest) :
    Robot.move r reg =
      (Robot.sense_environment
        { r with local_map := set2d r.local_map r.pos.1 r.pos.2 '0',
                 pos := next, path := rest },
       dictUpd reg r.id next,
       decide (r.get_symbol_at r.full_map next.1 next.2 = '1')) ∧
    (Robot.move r reg).1.pos = next ∧
    (Robot.move r reg).1.path = rest ∧
    ((Robot.move r reg).2.2 = true ↔ r.get_symbol_at r.full_map next.1 next.2 = '1') := by
  have hmv : Robot.move r reg =
      (Robot.sense_environment
        { r with local_map := set2d r.local_map r.pos.1 r.pos.2 '0',
                 pos := next, path := rest },
       dictUpd reg r.id next,
       decide (r.get_symbol_at r.full_map next.1 next.2 = '1')) := by
    unfold Robot.move
    rw [h]
  refine ⟨hmv, ?_, ?_, ?_⟩
  · rw [hmv]; rfl
  · rw [hmv]; rfl
  · rw [hmv]; simp

/-- Witness for C6: the corridor robot moving onto (0,1), with the
mismatch flag correctly down on a free ground-truth cell. -/
theorem c6_move_step_witness :
    witnessBot.path = (0, 1) :: [(0, 2)] ∧
    (Robot.move witnessBot []).1.pos = (0, 1) ∧
    (Robot.move witnessBot []).1.path = [(0, 2)] :=
  ⟨by with_unfolding_all decide,
    (c6_move_step witnessBot [] (0, 1) [(0, 2)] (by with_unfolding_all decide)).2.1,
    (c6_move_step witnessBot [] (0, 1) [(0, 2)] (by with_unfolding_all decide)).2.2.1⟩

/-! ### C7: the 1×3 corridor scenario -/

/-- C7 counterexample: in the corridor scenario the LOWER-id agent
does not proceed on the first step: after one coordinator step robot 1
is still at (0,0) with one recorded wait, while the higher-id robot 2
has already entered the goal (0,2). -/
theorem c7_counterexample :
    ((simSteps c7Init 1).1.map (fun r => (r.id, r.pos, r.wait_count))) =
      [(1, ((0 : ℤ), (0 : ℤ)), 1), (2, ((0 : ℤ), (2 : ℤ)), 0)] ∧
    ¬ ((((simSteps c7Init 1).1.getD 0 default).pos = ((0, 1) : Pos)) ∧
       (((simSteps c7Init 1).1.getD 1 default).pos = ((0, 1) : Pos))) := by
  constructor
  · with_unfolding_all decide
  · with_unfolding_all decide

/-- C7 amended: the higher-id agent (which starts in front) proceeds
immediately on the first step; the lower-id agent waits exactly one
step (occupancy conflict: its target cell is occupied) and then
proceeds, reaching the shared goal two steps later. -/
theorem c7_amended :
    ((simSteps c7Init 1).1.map (fun r => (r.id, r.pos, r.wait_count))) =
      [(1, ((0 : ℤ), (0 : ℤ)), 1), (2, ((0 : ℤ), (2 : ℤ)), 0)] ∧
    ((simSteps c7Init 2).1.map (fun r => (r.id, r.pos))) =
      [(1, ((0 : ℤ), (1 : ℤ))), (2, ((0 : ℤ), (2 : ℤ)))] ∧
    ((simSteps c7Init 3).1.map (fun r => (r.id, r.pos))) =
      [(1, ((0 : ℤ), (2 : ℤ))), (2, ((0 : ℤ), (2 : ℤ)))] := by
  refine ⟨by with_unfolding_all decide, by with_unfolding_all decide,
    by with_unfolding_all decide⟩
/-! ### C5: plan() matches its specification -/

theorem filterMapIf {β : Type} (l : List ℕ) (f : ℕ → β) (p : β → Prop)
    [DecidablePred p] :
    l.filterMap (fun j => if p (f j) then some (f j) else none) =
      (l.map f).filter (fun x => decide (p x)) := by
  induction l with
  | nil => rfl
  | cons x xs ih =>
    by_cases hp : p (f x)
    · simp [List.filterMap_cons, List.filter_cons, hp, ih]
    · simp [List.filterMap_cons, List.filter_cons, hp, ih]

theorem unknownTiles_eq (r : Robot) :
    ((List.range r.grid_rows).flatMap (fun (i : ℕ) =>
      (List.range r.grid_cols).filterMap (fun (j : ℕ) =>
        if get2d r.local_map i j = '?' then some ((i : ℤ), (j : ℤ)) else none)))
    = specUnknownTiles r := by
  unfold specUnknownTiles allCellIdx
  show _ = ((((List.range r.grid_rows).flatMap
      (fun a => (List.range r.grid_cols).map fun b => (a, b))).map
      (fun ij => ((ij.1 : ℤ), (ij.2 : ℤ)))).filter _)
  rw [List.map_flatMap, List.filter_flatMap]
  have hfun : (fun (i : ℕ) =>
      (List.range r.grid_cols).filterMap (fun (j : ℕ) =>
        if get2d r.local_map i j = '?' then some ((i : ℤ), (j : ℤ)) else none)) =
      (fun (i : ℕ) =>
        (((List.range r.grid_cols).map fun b => (i, b)).map
          (fun ij => ((ij.1 : ℤ), (ij.2 : ℤ)))).filter
          (fun p => decide (get2d r.local_map p.1 p.2 = '?'))) := by
    funext i
    rw [List.map_map]
    exact filterMapIf (List.range r.grid_cols)
      (fun j => ((i : ℤ), (j : ℤ))) (fun p => get2d r.local_map p.1 p.2 = '?')
  rw [hfun]

theorem tryExplore_eq (r : Robot) (l : List Pos) :
    tryExplore r l =
      l.findSome? (fun t => a_star_search r.local_map r.pos t hManhattan) := by
  induction l with
  | nil => rfl
  | cons t ts ih =>
    rw [List.findSome?_cons]
    unfold tryExplore
    cases a_star_search r.local_map r.pos t hManhattan with
    | some p => rfl
    | none => exact ih

theorem plan_path_spec_aux (r : Robot) : Robot.plan_path r = specPlanPath r := by
  unfold Robot.plan_path specPlanPath
  cases hA : a_star_search r.local_map r.pos (r.goal_row, r.goal_col) hManhattan with
  | some p => rfl
  | none =>
    simp only []
    rw [unknownTiles_eq r]
    by_cases hE : specUnknownTiles r = []
    · rw [hE]
      rfl
    · rw [(by simp [List.isEmpty_iff, hE] : (specUnknownTiles r).isEmpty = false)]
      simp only [Bool.false_eq_true, if_false]
      rw [tryExplore_eq]

/-- C5: plan() runs A* on the LocalMap from the current position to
the goal with the Manhattan heuristic, adopting a found path without
the current cell; otherwise it tries every Unknown cell in ascending
Manhattan distance from the current position and adopts the first
successful path (also without the current cell); if nothing succeeds
(including when no Unknown cell remains) the path becomes empty. -/
theorem c5_plan_path_spec (r : Robot) : Robot.plan_path r = specPlanPath r :=
  plan_path_spec_aux r
/-! ### C8: sense() is idempotent -/

theorem set2d_idem (g : Grid) (i j : ℤ) (v : Char) :
    set2d (set2d g i j v) i j v = set2d g i j v := by
  by_cases hi : i.toNat < g.length
  · by_cases hj : j.toNat < (g.getD i.toNat []).length
    · exact set2d_same _ i j v (get2d_set2d_self g i j v hi hj)
    · rw [set2d_oob g i j v (Or.inr (by omega))]
      exact set2d_oob g i j v (Or.inr (by omega))
  · rw [set2d_oob g i j v (Or.inl (by omega))]
    exact set2d_oob g i j v (Or.inl (by omega))

theorem set2d_id_cases (g : Grid) (i j : ℤ) (v : Char)
    (h : set2d g i j v = g) :
    get2d g i j = v ∨ g.length ≤ i.toNat ∨ (g.getD i.toNat []).length ≤ j.toNat := by
  by_cases hi : i.toNat < g.length
  · by_cases hj : j.toNat < (g.getD i.toNat []).length
    · exact Or.inl (by rw [← h]; exact get2d_set2d_self g i j v hi hj)
    · exact Or.inr (Or.inr (by omega))
  · exact Or.inr (Or.inl (by omega))

theorem senseCell_pos (r : Robot) (st : Grid × List (Char × ℤ × ℤ)) (d : ℤ × ℤ)
    (hg : senseGuard r d = true) :
    senseCell r st d =
      (set2d st.1 (r.pos.1 + d.1) (r.pos.2 + d.2)
        (r.get_symbol_at r.full_map (r.pos.1 + d.1) (r.pos.2 + d.2)),
       if (r.get_symbol_at r.full_map (r.pos.1 + d.1) (r.pos.2 + d.2),
           r.pos.1 + d.1, r.pos.2 + d.2) ∈ st.2 then st.2
       else st.2 ++ [(r.get_symbol_at r.full_map (r.pos.1 + d.1) (r.pos.2 + d.2),
           r.pos.1 + d.1, r.pos.2 + d.2)]) := by
  unfold senseCell
  unfold senseGuard at hg
  rw [if_pos hg]

theorem senseCell_neg (r : Robot) (st : Grid × List (Char × ℤ × ℤ)) (d : ℤ × ℤ)
    (hg : ¬ senseGuard r d = true) : senseCell r st d = st := by
  unfold senseCell
  unfold senseGuard at hg
  rw [if_neg hg]

theorem senseCell_step_idem (r : Robot) (st : Grid × List (Char × ℤ × ℤ))
    (d : ℤ × ℤ) : senseCell r (senseCell r st d) d = senseCell r st d := by
  by_cases hg : senseGuard r d = true
  · rw [senseCell_pos r st d hg, senseCell_pos r _ d hg]
    simp only [Prod.mk.injEq]
    constructor
    · exact set2d_idem st.1 (r.pos.1 + d.1) (r.pos.2 + d.2)
        (r.get_symbol_at r.full_map (r.pos.1 + d.1) (r.pos.2 + d.2))
    · by_cases hm : (r.get_symbol_at r.full_map (r.pos.1 + d.1) (r.pos.2 + d.2),
          r.pos.1 + d.1, r.pos.2 + d.2) ∈ st.2
      · simp [hm]
      · simp [hm]
  · rw [senseCell_neg r (senseCell r st d) d hg, senseCell_neg r st d hg]

theorem senseCell_record_extends (r : Robot) (st : Grid × List (Char × ℤ × ℤ))
    (d : ℤ × ℤ) : ∃ ext, (senseCell r st d).2 = st.2 ++ ext := by
  by_cases hg : senseGuard r d = true
  · rw [senseCell_pos r st d hg]
    by_cases hm : (r.get_symbol_at r.full_map (r.pos.1 + d.1) (r.pos.2 + d.2),
        r.pos.1 + d.1, r.pos.2 + d.2) ∈ st.2
    · exact ⟨[], by simp [hm]⟩
    · exact ⟨[(r.get_symbol_at r.full_map (r.pos.1 + d.1) (r.pos.2 + d.2),
        r.pos.1 + d.1, r.pos.2 + d.2)], by simp [hm]⟩
  · exact ⟨[], by simp [senseCell_neg r st d hg]⟩

theorem senseCell_preserve (r : Robot) (st : Grid × List (Char × ℤ × ℤ))
    (d d₂ : ℤ × ℤ) (hne : d ≠ d₂) (hsat : senseCell r st d = st) :
    senseCell r (senseCell r st d₂) d = senseCell r st d₂ := by
  by_cases hg : senseGuard r d = true
  · by_cases hg2 : senseGuard r d₂ = true
    · have hb : (0 ≤ r.pos.1 + d.1) ∧ (0 ≤ r.pos.2 + d.2) ∧
          (0 ≤ r.pos.1 + d₂.1) ∧ (0 ≤ r.pos.2 + d₂.2) := by
        unfold senseGuard at hg hg2
        simp only [Bool.and_eq_true, decide_eq_true_eq] at hg hg2
        exact ⟨hg.1.1.1, hg.1.2, hg2.1.1.1, hg2.1.2⟩
      have hcell : (r.pos.1 + d₂.1).toNat ≠ (r.pos.1 + d.1).toNat ∨
          (r.pos.2 + d₂.2).toNat ≠ (r.pos.2 + d.2).toNat := by
        by_contra hc
        push_neg at hc
        exact hne (Prod.ext (by omega) (by omega))
      have hsat2 : (set2d st.1 (r.pos.1 + d.1) (r.pos.2 + d.2)
            (r.get_symbol_at r.full_map (r.pos.1 + d.1) (r.pos.2 + d.2)) = st.1) ∧
          ((r.get_symbol_at r.full_map (r.pos.1 + d.1) (r.pos.2 + d.2),
            r.pos.1 + d.1, r.pos.2 + d.2) ∈ st.2) := by
        rw [senseCell_pos r st d hg] at hsat
        have hmap := congrArg Prod.fst hsat
        have hrec := congrArg Prod.snd hsat
        simp only at hmap hrec
        refine ⟨hmap, ?_⟩
        by_cases hm : (r.get_symbol_at r.full_map (r.pos.1 + d.1) (r.pos.2 + d.2),
            r.pos.1 + d.1, r.pos.2 + d.2) ∈ st.2
        · exact hm
        · rw [if_neg hm] at hrec
          have := congrArg List.length hrec
          simp at this
      have hmap2 : set2d (senseCell r st d₂).1 (r.pos.1 + d.1) (r.pos.2 + d.2)
          (r.get_symbol_at r.full_map (r.pos.1 + d.1) (r.pos.2 + d.2)) =
          (senseCell r st d₂).1 := by
        rw [senseCell_pos r st d₂ hg2]
        rcases set2d_id_cases _ _ _ _ hsat2.1 with hv | hoob
        · refine set2d_same _ _ _ _ ?_
          rw [get2d_set2d_ne _ _ _ _ _ _ hcell]
          exact hv
        · refine set2d_oob _ _ _ _ ?_
          rcases hoob with hoob | hoob
          · exact Or.inl (by rw [length_set2d]; exact hoob)
          · exact Or.inr (by rw [rowlen_set2d]; exact hoob)
      have hrec2 : (r.get_symbol_at r.full_map (r.pos.1 + d.1) (r.pos.2 + d.2),
          r.pos.1 + d.1, r.pos.2 + d.2) ∈ (senseCell r st d₂).2 := by
        obtain ⟨ext, hext⟩ := senseCell_record_extends r st d₂
        rw [hext]
        exact List.mem_append_left _ hsat2.2
      rw [senseCell_pos r _ d hg]
      refine Prod.ext ?_ ?_
      · exact hmap2
      · simp [hrec2]
    · rw [senseCell_neg r st d₂ hg2, hsat]
  · rw [senseCell_neg r (senseCell r st d₂) d hg]

theorem sat_foldl (r : Robot) (L : List (ℤ × ℤ)) (st : Grid × List (Char × ℤ × ℤ))
    (d : ℤ × ℤ) (hd : senseCell r st d = st) (hall : ∀ d₂ ∈ L, d ≠ d₂) :
    senseCell r (L.foldl (senseCell r) st) d = L.foldl (senseCell r) st := by
  induction L generalizing st with
  | nil => exact hd
  | cons d₂ L ih =>
    rw [List.foldl_cons]
    exact ih _ (senseCell_preserve r st d d₂ (hall d₂ (by simp)) hd)
      (fun x hx => hall x (by simp [hx]))

theorem foldl_sat_all (r : Robot) (L : List (ℤ × ℤ)) :
    ∀ (st : Grid × List (Char × ℤ × ℤ)), L.Nodup →
      ∀ d ∈ L, senseCell r (L.foldl (senseCell r) st) d = L.foldl (senseCell r) st := by
  induction L with
  | nil => intro st _ d hd; cases hd
  | cons d₀ L ih =>
    intro st hnd d hd
    rw [List.foldl_cons]
    rcases List.mem_cons.mp hd with h | h
    · subst h
      exact sat_foldl r L _ d (senseCell_step_idem r st d)
        (fun x hx h => (List.nodup_cons.mp hnd).1 (h ▸ hx))
    · exact ih _ (List.nodup_cons.mp hnd).2 d h

theorem foldl_noop (r : Robot) (L : List (ℤ × ℤ)) (st : Grid × List (Char × ℤ × ℤ))
    (hsat : ∀ d ∈ L, senseCell r st d = st) :
    L.foldl (senseCell r) st = st := by
  induction L with
  | nil => rfl
  | cons d₀ L ih =>
    rw [List.foldl_cons, hsat d₀ (by simp)]
    exact ih (fun d hd => hsat d (by simp [hd]))

theorem senseOffsets_nodup (radius : ℕ) : (senseOffsets radius).Nodup := by
  unfold senseOffsets
  refine List.Nodup.product ?_ ?_ <;>
    exact (List.nodup_range _).map (fun a b h => by omega)

/-- C8: sense() is idempotent: sensing a second time with the agent's
position and the ground-truth map unchanged (both are fields of the
state, untouched by sensing) leaves the LocalMap and the fact record —
indeed the whole agent state — exactly as after the first call. -/
theorem c8_sense_idempotent (r : Robot) :
    Robot.sense_environment (Robot.sense_environment r) = Robot.sense_environment r := by
  have hc : senseCell (Robot.sense_environment r) = senseCell r := by
    funext st d
    unfold senseCell Robot.get_symbol_at Robot.sense_environment
    rfl
  have key : (senseOffsets r.sensor_radius).foldl (senseCell r)
      ((senseOffsets r.sensor_radius).foldl (senseCell r) (r.local_map, r.record)) =
      (senseOffsets r.sensor_radius).foldl (senseCell r) (r.local_map, r.record) :=
    foldl_noop r _ _
      (foldl_sat_all r _ (r.local_map, r.record) (senseOffsets_nodup r.sensor_radius))
  show { Robot.sense_environment r with
      local_map := ((senseOffsets r.sensor_radius).foldl
        (senseCell (Robot.sense_environment r))
        ((Robot.sense_environment r).local_map, (Robot.sense_environment r).record)).1,
      record := ((senseOffsets r.sensor_radius).foldl
        (senseCell (Robot.sense_environment r))
        ((Robot.sense_environment r).local_map, (Robot.sense_environment r).record)).2 } =
    Robot.sense_environment r
  rw [hc]
  have hpair : (((Robot.sense_environment r).local_map,
      (Robot.sense_environment r).record) : Grid × List (Char × ℤ × ℤ)) =
      (senseOffsets r.sensor_radius).foldl (senseCell r) (r.local_map, r.record) := rfl
  rw [hpair, key]
  rfl

/-! ### C9: LocalMap knowledge is monotone -/

theorem get2d_toNat_congr (g : Grid) (i j i₂ j₂ : ℤ)
    (hi : i.toNat = i₂.toNat) (hj : j.toNat = j₂.toNat) :
    get2d g i j = get2d g i₂ j₂ := by
  unfold get2d
  rw [hi, hj]

theorem get2d_set2d_cases (g : Grid) (i j i₂ j₂ : ℤ) (v : Char) :
    get2d (set2d g i j v) i₂ j₂ = v ∨
    get2d (set2d g i j v) i₂ j₂ = get2d g i₂ j₂ := by
  by_cases hc : i.toNat = i₂.toNat ∧ j.toNat = j₂.toNat
  · by_cases hb : i.toNat < g.length ∧ j.toNat < (g.getD i.toNat []).length
    · left
      rw [get2d_toNat_congr _ i₂ j₂ i j hc.1.symm hc.2.symm]
      exact get2d_set2d_self g i j v hb.1 hb.2
    · right
      rw [set2d_oob g i j v (by omega)]
  · right
    exact get2d_set2d_ne g i j i₂ j₂ v (not_and_or.mp hc)

theorem knownPreserved_refl (m : Grid) : knownPreserved m m := fun _ _ h => h

theorem knownPreserved_trans {m₁ m₂ m₃ : Grid} (h₁ : knownPreserved m₁ m₂)
    (h₂ : knownPreserved m₂ m₃) : knownPreserved m₁ m₃ :=
  fun i j h => h₂ i j (h₁ i j h)

theorem knownPreserved_set_known (m : Grid) (x y : ℤ) (v : Char) (hv : v ≠ '?') :
    knownPreserved m (set2d m x y v) := by
  intro i j hk
  rcases get2d_set2d_cases m x y (i : ℤ) (j : ℤ) v with h | h <;> rw [h]
  · exact hv
  · exact hk

theorem knownPreserved_set_unknown (m : Grid) (x y : ℤ) (v : Char)
    (h : get2d m x y = '?') : knownPreserved m (set2d m x y v) := by
  intro i j hk
  by_cases hc : x.toNat = ((i : ℤ)).toNat ∧ y.toNat = ((j : ℤ)).toNat
  · exact absurd ((get2d_toNat_congr m (i : ℤ) (j : ℤ) x y hc.1.symm hc.2.symm).trans h) hk
  · rw [get2d_set2d_ne m x y (i : ℤ) (j : ℤ) v (not_and_or.mp hc)]
    exact hk

theorem receiveFact_known (st : Grid × List (Char × ℤ × ℤ) × Bool) (kv : Pos × Char) :
    knownPreserved st.1 (receiveFact st kv).1 := by
  unfold receiveFact
  by_cases h : get2d st.1 kv.1.1 kv.1.2 = '?'
  · rw [if_pos h]
    exact knownPreserved_set_unknown st.1 kv.1.1 kv.1.2 kv.2 h
  · rw [if_neg h]
    exact knownPreserved_refl st.1

theorem receiveFact_foldl_known (data : List (Pos × Char)) :
    ∀ st, knownPreserved st.1 ((data.foldl receiveFact st)).1 := by
  induction data with
  | nil => exact fun st => knownPreserved_refl st.1
  | cons kv rest ih =>
    intro st
    rw [List.foldl_cons]
    exact knownPreserved_trans (receiveFact_known st kv) (ih (receiveFact st kv))

theorem sameShape_refl (m : Grid) : sameShape m m := ⟨rfl, fun _ => rfl⟩

theorem sameShape_trans {m₁ m₂ m₃ : Grid} (h₁ : sameShape m₁ m₂)
    (h₂ : sameShape m₂ m₃) : sameShape m₁ m₃ :=
  ⟨h₁.1.trans h₂.1, fun k => (h₁.2 k).trans (h₂.2 k)⟩

theorem sameShape_set2d (m : Grid) (x y : ℤ) (v : Char) :
    sameShape m (set2d m x y v) :=
  ⟨(length_set2d m x y v).symm, fun k => (rowlen_set2d m x y v k).symm⟩

theorem receiveFact_foldl_shape (data : List (Pos × Char)) :
    ∀ st, sameShape st.1 ((data.foldl receiveFact st)).1 := by
  induction data with
  | nil => exact fun st => sameShape_refl st.1
  | cons kv rest ih =>
    intro st
    rw [List.foldl_cons]
    refine sameShape_trans ?_ (ih (receiveFact st kv))
    unfold receiveFact
    by_cases h : get2d st.1 kv.1.1 kv.1.2 = '?'
    · rw [if_pos h]
      exact sameShape_set2d st.1 kv.1.1 kv.1.2 kv.2
    · rw [if_neg h]
      exact sameShape_refl st.1

theorem countP_known_mono (l : List Char) :
    ∀ (l₂ : List Char), l.length = l₂.length →
      (∀ k : ℕ, k < l.length → l.getD k '?' ≠ '?' → l₂.getD k '?' ≠ '?') →
      l.countP (fun c => decide (c ≠ '?')) ≤ l₂.countP (fun c => decide (c ≠ '?')) := by
  induction l with
  | nil => intro l₂ _ _; simp
  | cons x xs ih =>
    intro l₂ hlen h
    cases l₂ with
    | nil => simp at hlen
    | cons y ys =>
      rw [List.countP_cons, List.countP_cons]
      have hx : (if decide (x ≠ '?') = true then 1 else 0) ≤
          (if decide (y ≠ '?') = true then 1 else 0) := by
        by_cases hxx : x = '?'
        · simp [hxx]
        · have hy : y ≠ '?' := h 0 (by simp) (by simpa using hxx)
          simp [hxx, hy]
      have hrec := ih ys (by simpa using hlen)
        (fun k hk hne => h (k + 1) (by simpa using Nat.succ_lt_succ hk) hne)
      omega

theorem knownCount_mono (m : Grid) :
    ∀ (m₂ : Grid), sameShape m m₂ → knownPreserved m m₂ →
      knownCount m ≤ knownCount m₂ := by
  induction m with
  | nil => intro m₂ _ _; simp [knownCount]
  | cons row rest ih =>
    intro m₂ hs hp
    cases m₂ with
    | nil => simp [sameShape] at hs
    | cons row₂ rest₂ =>
      unfold knownCount
      rw [List.map_cons, List.map_cons, List.sum_cons, List.sum_cons]
      have hrow : row.countP (fun c => decide (c ≠ '?')) ≤
          row₂.countP (fun c => decide (c ≠ '?')) := by
        refine countP_known_mono row row₂ (by simpa using hs.2 0) ?_
        intro k hk hne
        have := hp 0 k
        simp only [Int.toNat_natCast] at this
        exact this (by simpa [get2d] using hne)
      have hrest : knownCount rest ≤ knownCount rest₂ := by
        refine ih rest₂ ⟨by simpa using hs.1, fun k => by simpa using hs.2 (k + 1)⟩ ?_
        intro i j hne
        have := hp (i + 1) j
        simp only [get2d] at this hne ⊢
        simpa using this (by simpa using hne)
      unfold knownCount at hrest
      omega

theorem fullMapKnown_spec (r : Robot) (hfm : fullMapKnown r = true) :
    ∀ (a b : ℕ), a < r.grid_rows → b < r.grid_cols →
      get2d r.full_map (a : ℤ) (b : ℤ) ≠ '?' := by
  intro a b ha hb
  unfold fullMapKnown at hfm
  rw [List.all_eq_true] at hfm
  have := hfm a (List.mem_range.mpr ha)
  rw [List.all_eq_true] at this
  have := this b (List.mem_range.mpr hb)
  simpa using this

theorem senseCell_known (r : Robot) (hfm : fullMapKnown r = true)
    (st : Grid × List (Char × ℤ × ℤ)) (d : ℤ × ℤ) :
    knownPreserved st.1 (senseCell r st d).1 := by
  by_cases hg : senseGuard r d = true
  · rw [senseCell_pos r st d hg]
    refine knownPreserved_set_known st.1 _ _ _ ?_
    have hb : (0 ≤ r.pos.1 + d.1) ∧ (r.pos.1 + d.1 < (r.grid_rows : ℤ)) ∧
        (0 ≤ r.pos.2 + d.2) ∧ (r.pos.2 + d.2 < (r.grid_cols : ℤ)) := by
      unfold senseGuard at hg
      simp only [Bool.and_eq_true, decide_eq_true_eq] at hg
      exact ⟨hg.1.1.1, hg.1.1.2, hg.1.2, hg.2⟩
    unfold Robot.get_symbol_at
    rw [if_pos (by simp only [Bool.and_eq_true, decide_eq_true_eq]; tauto)]
    have hcst : get2d r.full_map (r.pos.1 + d.1) (r.pos.2 + d.2) =
        get2d r.full_map (((r.pos.1 + d.1).toNat : ℕ) : ℤ) (((r.pos.2 + d.2).toNat : ℕ) : ℤ) :=
      get2d_toNat_congr _ _ _ _ _ (by omega) (by omega)
    rw [hcst]
    exact fullMapKnown_spec r hfm _ _ (by omega) (by omega)
  · rw [senseCell_neg r st d hg]
    exact knownPreserved_refl st.1

theorem senseCell_foldl_known (r : Robot) (hfm : fullMapKnown r = true)
    (L : List (ℤ × ℤ)) :
    ∀ st, knownPreserved st.1 ((L.foldl (senseCell r) st)).1 := by
  induction L with
  | nil => exact fun st => knownPreserved_refl st.1
  | cons d L ih =>
    intro st
    rw [List.foldl_cons]
    exact knownPreserved_trans (senseCell_known r hfm st d) (ih (senseCell r st d))

theorem sense_known (r : Robot) (hfm : fullMapKnown r = true) :
    knownPreserved r.local_map (Robot.sense_environment r).local_map :=
  senseCell_foldl_known r hfm (senseOffsets r.sensor_radius) (r.local_map, r.record)
theorem plan_path_local_map (r : Robot) :
    (Robot.plan_path r).local_map = r.local_map := by
  rw [plan_path_spec_aux]
  unfold specPlanPath
  cases a_star_search r.local_map r.pos (r.goal_row, r.goal_col) hManhattan with
  | some p => rfl
  | none =>
    cases (pySortByKey (fun p => manhattan_distance p r.pos)
        (specUnknownTiles r)).findSome?
        (fun t => a_star_search r.local_map r.pos t hManhattan) with
    | some p => rfl
    | none => rfl

theorem receive_known (r : Robot) (data : FactMap) :
    knownPreserved r.local_map (Robot.receive_knowledge r data).local_map := by
  unfold Robot.receive_knowledge
  by_cases hu : (data.foldl receiveFact (r.local_map, r.record, false)).2.2 = true
  · rw [if_pos hu, plan_path_local_map]
    exact receiveFact_foldl_known data (r.local_map, r.record, false)
  · rw [if_neg hu]
    exact receiveFact_foldl_known data (r.local_map, r.record, false)

theorem receive_count (r : Robot) (data : FactMap) :
    knownCount r.local_map ≤ knownCount (Robot.receive_knowledge r data).local_map := by
  have hres : knownCount r.local_map ≤
      knownCount ((data.foldl receiveFact (r.local_map, r.record, false))).1 :=
    knownCount_mono r.local_map _
      (receiveFact_foldl_shape data (r.local_map, r.record, false))
      (receiveFact_foldl_known data (r.local_map, r.record, false))
  unfold Robot.receive_knowledge
  by_cases hu : (data.foldl receiveFact (r.local_map, r.record, false)).2.2 = true
  · rw [if_pos hu, plan_path_local_map]
    exact hres
  · rw [if_neg hu]
    exact hres

theorem move_known (r : Robot) (reg : RegT) (hfm : fullMapKnown r = true) :
    knownPreserved r.local_map (Robot.move r reg).1.local_map := by
  unfold Robot.move
  cases hp : r.path with
  | nil => exact knownPreserved_refl r.local_map
  | cons next rest =>
    refine knownPreserved_trans
      (knownPreserved_set_known r.local_map r.pos.1 r.pos.2 '0' (by decide)) ?_
    exact sense_known { r with
      local_map := set2d r.local_map r.pos.1 r.pos.2 '0',
      pos := next, path := rest } hfm

theorem stamp_foldl_known (reg : RegT) :
    ∀ m : Grid, knownPreserved m
      (reg.foldl (fun m kv => set2d m kv.2.1 kv.2.2 'R') m) := by
  induction reg with
  | nil => exact fun m => knownPreserved_refl m
  | cons kv rest ih =>
    intro m
    rw [List.foldl_cons]
    exact knownPreserved_trans
      (knownPreserved_set_known m kv.2.1 kv.2.2 'R' (by decide)) (ih _)

theorem get2d_rowmap (m : Grid) (f : Char → Char) (hf : f '?' = '?') (i j : ℤ) :
    get2d (m.map (fun row => row.map f)) i j = f (get2d m i j) := by
  unfold get2d
  have h1 : (m.map (fun row => row.map f)).getD i.toNat [] =
      (m.getD i.toNat []).map f := by
    have := List.getD_map m [] (n := i.toNat) (fun row => row.map f)
    simpa using this
  rw [h1]
  have h2 : ((m.getD i.toNat []).map f).getD j.toNat '?' =
      ((m.getD i.toNat []).map f).getD j.toNat (f '?') := by rw [hf]
  rw [h2, List.getD_map]

theorem clearR_known (m : Grid) :
    knownPreserved m (m.map (fun row => row.map
      (fun c => if c = 'R' then '0' else c))) := by
  intro i j hk
  rw [get2d_rowmap m _ (by decide)]
  by_cases hR : get2d m (i : ℤ) (j : ℤ) = 'R'
  · simp [hR]
  · simpa [hR] using hk

theorem refresh_known (reg : RegT) (robots : List Robot) (i : ℕ) :
    knownPreserved ((robots.getD i default).local_map)
      (((update_all_robot_positions reg robots).getD i default).local_map) := by
  unfold update_all_robot_positions
  have hmap : ∀ (F : Robot → Robot) (l : List Robot) (k : ℕ),
      (l.map F).getD k default = if k < l.length then F (l.getD k default)
      else default := by
    intro F l k
    by_cases hk : k < l.length
    · rw [if_pos hk, List.getD_eq_getElem?_getD, List.getElem?_map,
        List.getElem?_eq_getElem hk, List.getD_eq_getElem?_getD,
        List.getElem?_eq_getElem hk]
      rfl
    · rw [if_neg hk, List.getD_eq_getElem?_getD, List.getElem?_map,
        List.getElem?_eq_none (by omega)]
      rfl
  rw [hmap]
  by_cases hi : i < robots.length
  · rw [if_pos hi]
    exact knownPreserved_trans (clearR_known (robots.getD i default).local_map)
      (stamp_foldl_known reg _)
  · rw [if_neg hi]
    have : (robots.getD i default) = default := by
      rw [List.getD_eq_getElem?_getD, List.getElem?_eq_none (by omega)]
      rfl
    rw [this]
    exact knownPreserved_refl _

/-- C9: LocalMap cells transition only from Unknown to known and never
back, across every operation that writes a LocalMap — sense, receive,
move and the coordinator position refresh — given a ground-truth map
that carries no Unknown symbol (spec: ground truth is Free/Obstacle
only); in particular the count of known cells never decreases across
receive(). -/
theorem c9_localmap_monotone (r : Robot) (data : FactMap) (reg : RegT)
    (robots : List Robot) (i : ℕ) (hfm : fullMapKnown r = true) :
    knownPreserved r.local_map (Robot.sense_environment r).local_map ∧
    knownPreserved r.local_map (Robot.receive_knowledge r data).local_map ∧
    knownCount r.local_map ≤ knownCount (Robot.receive_knowledge r data).local_map ∧
    knownPreserved r.local_map (Robot.move r reg).1.local_map ∧
    knownPreserved ((robots.getD i default).local_map)
      (((update_all_robot_positions reg robots).getD i default).local_map) :=
  ⟨sense_known r hfm, receive_known r data, receive_count r data,
    move_known r reg hfm, refresh_known reg robots i⟩

/-- Witness for C9 at the corridor robot. -/
theorem c9_localmap_monotone_witness :
    fullMapKnown witnessBot = true ∧
    knownCount witnessBot.local_map ≤
      knownCount (Robot.receive_knowledge witnessBot []).local_map :=
  ⟨by with_unfolding_all decide,
    (c9_localmap_monotone witnessBot [] [] [] 0
      (by with_unfolding_all decide)).2.2.1⟩
/-! ### C3: the eviction rule of bounded-memory search -/

theorem keyGtFD_true (a : Arena) (i j : ℕ) :
    keyGtFD a i j = true ↔
      ((aGet a j).f < (aGet a i).f ∨
       ((aGet a i).f = (aGet a j).f ∧ (aGet a i).depth < (aGet a j).depth)) := by
  unfold keyGtFD
  simp

theorem keyGtFD_false (a : Arena) (i j : ℕ) :
    keyGtFD a i j = false ↔
      ((aGet a i).f ≤ (aGet a j).f ∧
       ((aGet a i).f = (aGet a j).f → (aGet a j).depth ≤ (aGet a i).depth)) := by
  rw [← Bool.not_eq_true, keyGtFD_true]
  constructor
  · intro h
    push_neg at h
    exact ⟨h.1, fun he => h.2 he⟩
  · rintro ⟨h1, h2⟩ hc
    rcases hc with hc | ⟨he, hd⟩
    · exact absurd h1 (not_le.mpr hc)
    · exact absurd hd (not_lt.mpr (h2 he))

theorem keyGtFD_false_trans (a : Arena) (i j k : ℕ)
    (h₁ : keyGtFD a i j = false) (h₂ : keyGtFD a j k = false) :
    keyGtFD a i k = false := by
  rw [keyGtFD_false] at h₁ h₂ ⊢
  refine ⟨h₁.1.trans h₂.1, fun he => ?_⟩
  have h3 : (aGet a i).f = (aGet a j).f :=
    le_antisymm h₁.1 (le_of_le_of_eq h₂.1 he.symm)
  have h4 : (aGet a j).f = (aGet a k).f := h3 ▸ he
  exact (h₂.2 h4).trans (h₁.2 h3)

theorem keyGt_true_false (a : Arena) (n b r : ℕ)
    (h₁ : keyGtFD a n b = true) (h₂ : keyGtFD a n r = false) :
    keyGtFD a b r = false := by
  rw [keyGtFD_true] at h₁
  rw [keyGtFD_false] at h₂ ⊢
  rcases h₁ with hlt | ⟨he, hd⟩
  · refine ⟨le_of_lt (lt_of_lt_of_le hlt h₂.1), fun hbe => ?_⟩
    exact absurd (lt_of_lt_of_le hlt (le_of_le_of_eq h₂.1 hbe.symm)) (lt_irrefl _)
  · refine ⟨le_of_eq_of_le he.symm h₂.1, fun hbe => ?_⟩
    have := h₂.2 (he.trans hbe)
    omega

theorem pythonMax_fold (a : Arena) (xs : HeapL) :
    ∀ best, (xs.foldl (fun b n => if keyGtFD a n b then n else b) best) ∈ best :: xs ∧
      keyGtFD a best (xs.foldl (fun b n => if keyGtFD a n b then n else b) best) = false ∧
      ∀ x ∈ xs, keyGtFD a x
        (xs.foldl (fun b n => if keyGtFD a n b then n else b) best) = false := by
  induction xs with
  | nil =>
    intro best
    refine ⟨by simp, ?_, by simp⟩
    rw [keyGtFD_false]
    exact ⟨le_refl _, fun _ => le_refl _⟩
  | cons n rest ih =>
    intro best
    rw [List.foldl_cons]
    rcases hkey : keyGtFD a n best with hkf | hkt
    · -- best keeps its place
      obtain ⟨hmem, hbest, hall⟩ := ih best
      simp only [Bool.false_eq_true, if_false]
      refine ⟨?_, hbest, ?_⟩
      · rcases List.mem_cons.mp hmem with h | h
        · simp [h]
        · simp [List.mem_cons, Or.inr (Or.inr h)]
      · intro x hx
        rcases List.mem_cons.mp hx with h | h
        · subst h
          exact keyGtFD_false_trans a x best _ hkey hbest
        · exact hall x h
    · -- n becomes the new best
      obtain ⟨hmem, hbest, hall⟩ := ih n
      simp only [if_true]
      refine ⟨?_, ?_, ?_⟩
      · rcases List.mem_cons.mp hmem with h | h
        · simp [h]
        · simp [List.mem_cons, Or.inr (Or.inr h)]
      · exact keyGt_true_false a n best _ hkey hbest
      · intro x hx
        rcases List.mem_cons.mp hx with h | h
        · subst h
          exact hbest
        · exact hall x h

theorem pythonMax_spec (a : Arena) (l : HeapL) (hne : l ≠ []) :
    pythonMax a l ∈ l ∧ ∀ x ∈ l, keyGtFD a x (pythonMax a l) = false := by
  cases l with
  | nil => exact absurd rfl hne
  | cons x xs =>
    obtain ⟨hmem, hbest, hall⟩ := pythonMax_fold a xs x
    refine ⟨hmem, ?_⟩
    intro y hy
    rcases List.mem_cons.mp hy with h | h
    · subst h
      exact hbest
    · exact hall y h

theorem frontier_bound_of_max (a : Arena) (l : HeapL) (hne : l ≠ [])
    (t : Pos × ℚ × ℕ)
    (ht : t ∈ l.map (fun i => ((aGet a i).pos, (aGet a i).f, (aGet a i).depth))) :
    t.2.1 < (aGet a (pythonMax a l)).f ∨
      (t.2.1 = (aGet a (pythonMax a l)).f ∧
       (aGet a (pythonMax a l)).depth ≤ t.2.2) := by
  obtain ⟨i, hi, rfl⟩ := List.mem_map.mp ht
  have := (pythonMax_spec a l hne).2 i hi
  rw [keyGtFD_false] at this
  rcases lt_or_eq_of_le this.1 with h | h
  · exact Or.inl h
  · exact Or.inr ⟨h, this.2 h⟩

theorem pruneStep_event (maxN : ℕ) (l : HeapL) (a : Arena) (ev : PruneEvent)
    (h : (pruneStep maxN (l, a)).2 = some ev) : evictsLeastDepthBacksUpMax ev := by
  unfold pruneStep at h
  by_cases hlen : l.length > maxN
  · have hne : l ≠ [] := by
      intro he
      rw [he] at hlen
      simp at hlen
    simp only [hlen, if_true] at h
    have hmem := (pythonMax_spec a l hne).1
    rcases hpar : (aGet a (pythonMax a l)).parent with _ | pi
    · rw [hpar] at h
      simp only at h
      cases h
      refine ⟨?_, ?_, ?_, ?_⟩
      · intro t ht
        exact frontier_bound_of_max a l hne t ht
      · intro _
        exact List.mem_map.mpr ⟨pythonMax a l, hmem, rfl⟩
      · intro q hq
        cases hq
      · intro q hq
        cases hq
    · rw [hpar] at h
      by_cases hsib : ((aGet a pi).children.filter
          (fun c => (aGet a c).pos ≠ (aGet a (pythonMax a l)).pos)).isEmpty = true
      · simp only [hsib, if_true] at h
        cases h
        refine ⟨?_, ?_, ?_, ?_⟩
        · intro t ht
          exact frontier_bound_of_max a l hne t ht
        · intro _
          exact List.mem_map.mpr ⟨pythonMax a l, hmem, rfl⟩
        · intro q _ hs
          exact absurd rfl hs
        · intro q hq _
          cases hq
          rfl
      · simp only [hsib, Bool.false_eq_true, if_false] at h
        cases h
        refine ⟨?_, ?_, ?_, ?_⟩
        · intro t ht
          exact frontier_bound_of_max a l hne t ht
        · intro _
          exact List.mem_map.mpr ⟨pythonMax a l, hmem, rfl⟩
        · intro q hq _
          cases hq
          rfl
        · intro q _ hs
          simp only [List.isEmpty_iff] at hsib
          simp only [List.map_eq_nil_iff, List.filter_eq_nil_iff] at hs
          rcases List.exists_mem_of_ne_nil _ (fun hnil => hsib hnil) with ⟨x, hx⟩
          have hxmem := List.mem_filter.mp hx
          have hxne : ¬ (aGet a x).pos = (aGet a (pythonMax a l)).pos := by
            simpa using hxmem.2
          have hxeq := hs x hxmem.1
          exact absurd (by simpa using hxeq) hxne
  · simp [hlen] at h

theorem smaLoop_events (grid : Grid) (epos : Pos) (hEval : HFun) (maxN : ℕ) :
    ∀ (fuel : ℕ) (l : HeapL) (a : Arena) (closed : List Pos)
      (evs : List PruneEvent),
      (∀ e ∈ evs, evictsLeastDepthBacksUpMax e) →
      ∀ e ∈ (smaLoop grid epos hEval maxN fuel l a closed evs).2,
        evictsLeastDepthBacksUpMax e := by
  intro fuel
  induction fuel with
  | zero =>
    intro l a closed evs hevs e he
    exact hevs e he
  | succ fu ih =>
    intro l a closed evs hevs e he
    cases l with
    | nil => exact hevs e he
    | cons x xs =>
      rw [smaLoop] at he
      have hevs1 : ∀ e₂ ∈ evs ++ (pruneStep maxN (x :: xs, a)).2.toList,
          evictsLeastDepthBacksUpMax e₂ := by
        intro e₂ he₂
        rcases List.mem_append.mp he₂ with h | h
        · exact hevs e₂ h
        · rcases hps : (pruneStep maxN (x :: xs, a)).2 with _ | ev₂
          · rw [hps] at h
            cases h
          · rw [hps] at h
            rcases List.mem_singleton.mp h with rfl
            exact pruneStep_event maxN (x :: xs) a e₂ hps
      split at he
      · exact hevs1 e he
      · simp only [] at he
        split at he
        · exact ih _ _ _ _ hevs1 e he
        · split at he
          · exact hevs1 e he
          · exact ih _ _ _ _ hevs1 e he
/-- C3 counterexample: the claimed eviction rule fails on concrete
runs. Run A (2×3 free grid, Manhattan, max_nodes 2): an eviction
removes the tied-f node of LEAST depth although a greater-depth node
with the same f is in the frontier. Run B (3×3 free grid, a
position-table heuristic, max_nodes 1): the parent's f is NOT lowered
to the minimum f among the remaining children (the code takes the max
with the old value). -/
theorem c3_counterexample :
    (¬ ∀ ev ∈ sma_star_events gC3a (0, 0) (0, 2) hManhattan 2,
        evictsGreatestDepth ev) ∧
    (¬ ∀ ev ∈ sma_star_events gC3b (2, 2) (2, 1) hTableC3 1,
        backsUpMinSibling ev) := by
  constructor
  · with_unfolding_all decide
  · with_unfolding_all decide

/-- C3 amended: at every eviction of sma_star_search, the node chosen
as worst maximizes (f, -depth) over the frontier — highest f, ties
broken by LEAST depth — and the parent's f is raised to the minimum f
among the remaining children only when that minimum exceeds it
(parent_f := max(parent_f, min sibling f)); with no remaining children
the parent's f is unchanged. -/
theorem c3_amended (grid : Grid) (s e : Pos) (hEval : HFun) (maxN : ℕ) :
    ∀ ev ∈ sma_star_events grid s e hEval maxN, evictsLeastDepthBacksUpMax ev := by
  unfold sma_star_events
  exact smaLoop_events grid e hEval maxN (FUEL grid) [0] _ [] []
    (fun x hx => absurd hx (List.not_mem_nil x))

/-- Witness for C3 amended: the first eviction event of run A. -/
theorem c3_amended_witness :
    evictsLeastDepthBacksUpMax
      { frontier := [((0, 2), 2, 2), ((1, 0), 4, 1), ((1, 1), 4, 2)],
        worstPos := (1, 0), worstF := 4, worstDepth := 1,
        parentFBefore := some 2, parentFAfter := some 2, siblingFs := [2] } :=
  c3_amended gC3a (0, 0) (0, 2) hManhattan 2 _ (by with_unfolding_all decide)
/-! ### C1: heap membership bounds -/

theorem hGet_mem (l : HeapL) (n : ℕ) : hGet l n = 0 ∨ hGet l n ∈ l := by
  induction l generalizing n with
  | nil => left; simp [hGet]
  | cons x xs ih =>
    cases n with
    | zero => right; simp [hGet]
    | succ m =>
      have e : hGet (x :: xs) (m + 1) = hGet xs m := by simp [hGet]
      rcases ih m with h | h
      · left; rw [e]; exact h
      · right; rw [e]; exact List.mem_cons_of_mem x h

theorem siftdownLoop_sub (a : Arena) (sp it : ℕ) :
    ∀ (fu : ℕ) (l : HeapL) (pos x : ℕ), x ∈ siftdownLoop a sp it fu l pos →
      x = it ∨ x = 0 ∨ x ∈ l := by
  intro fu
  induction fu with
  | zero =>
    intro l pos x hx
    rcases List.mem_or_eq_of_mem_set hx with h | h
    · right; right; exact h
    · left; exact h
  | succ fu ih =>
    intro l pos x hx
    rw [siftdownLoop] at hx
    simp only [] at hx
    split at hx
    · split at hx
      · rcases ih _ _ x hx with h | h | h
        · left; exact h
        · right; left; exact h
        · rcases List.mem_or_eq_of_mem_set h with h2 | h2
          · right; right; exact h2
          · right; subst h2; exact hGet_mem l _
      · rcases List.mem_or_eq_of_mem_set hx with h | h
        · right; right; exact h
        · left; exact h
    · rcases List.mem_or_eq_of_mem_set hx with h | h
      · right; right; exact h
      · left; exact h

theorem heappush_sub (a : Arena) (l : HeapL) (it x : ℕ)
    (hx : x ∈ heappush a l it) : x = it ∨ x = 0 ∨ x ∈ l := by
  rw [heappush] at hx
  rcases siftdownLoop_sub a 0 it _ _ _ x hx with h | h | h
  · left; exact h
  · right; left; exact h
  · rcases List.mem_append.mp h with h2 | h2
    · right; right; exact h2
    · left; simpa using h2

theorem siftupLoop_sub (a : Arena) :
    ∀ (fu : ℕ) (l : HeapL) (pos x : ℕ), x ∈ (siftupLoop a fu l pos).1 →
      x = 0 ∨ x ∈ l := by
  intro fu
  induction fu with
  | zero =>
    intro l pos x hx
    rw [siftupLoop] at hx
    right; exact hx
  | succ fu ih =>
    intro l pos x hx
    rw [siftupLoop] at hx
    simp only [] at hx
    split at hx
    · rcases ih _ _ x hx with h | h
      · left; exact h
      · rcases List.mem_or_eq_of_mem_set h with h2 | h2
        · right; exact h2
        · subst h2; exact hGet_mem l _
    · right; exact hx

theorem siftup_sub (a : Arena) (l : HeapL) (pos x : ℕ)
    (hx : x ∈ siftup a l pos) : x = 0 ∨ x ∈ l := by
  rw [siftup] at hx
  rcases siftdownLoop_sub a _ _ _ _ _ x hx with h | h | h
  · subst h; exact hGet_mem l pos
  · left; exact h
  · rcases List.mem_or_eq_of_mem_set h with h2 | h2
    · exact siftupLoop_sub a _ _ _ x h2
    · subst h2; exact hGet_mem l pos

theorem heappop_fst_mem (a : Arena) (x : ℕ) (xs : List ℕ) :
    (heappopD a (x :: xs)).1 ∈ x :: xs := by
  cases xs with
  | nil => simp [heappopD]
  | cons z ys => simp [heappopD]

theorem heappop_snd_sub (a : Arena) (l : HeapL) (x : ℕ)
    (hx : x ∈ (heappopD a l).2) : x = 0 ∨ x ∈ l := by
  match l with
  | [] => simp [heappopD] at hx
  | [y] => simp [heappopD] at hx
  | y :: z :: ys =>
    simp only [heappopD] at hx
    rcases siftup_sub a _ 0 x hx with h | h
    · left; exact h
    · rcases List.mem_or_eq_of_mem_set h with h2 | h2
      · right; exact (List.dropLast_sublist (y :: z :: ys)).mem h2
      · right
        rw [h2, List.getLastD_cons]
        exact List.getLastD_mem_cons (z :: ys) y

theorem siftup_foldl_sub (a : Arena) :
    ∀ (idxs : List ℕ) (l : HeapL) (x : ℕ),
      x ∈ idxs.foldl (fun h i => siftup a h i) l → x = 0 ∨ x ∈ l := by
  intro idxs
  induction idxs with
  | nil => intro l x hx; right; exact hx
  | cons i is ih =>
    intro l x hx
    rw [List.foldl_cons] at hx
    rcases ih _ x hx with h | h
    · left; exact h
    · exact siftup_sub a l i x h

theorem heapify_sub (a : Arena) (l : HeapL) (x : ℕ)
    (hx : x ∈ heapify a l) : x = 0 ∨ x ∈ l := by
  rw [heapify] at hx
  exact siftup_foldl_sub a _ l x hx

theorem removeFirstPos_sub (a : Arena) (p : Pos) :
    ∀ (l : HeapL) (x : ℕ), x ∈ removeFirstPos a p l → x ∈ l := by
  intro l
  induction l with
  | nil => intro x hx; rw [removeFirstPos] at hx; exact absurd hx (List.not_mem_nil x)
  | cons i is ih =>
    intro x hx
    rw [removeFirstPos] at hx
    split at hx
    · exact List.mem_cons_of_mem i hx
    · rcases List.mem_cons.mp hx with h | h
      · rw [h]; exact List.mem_cons_self i is
      · exact List.mem_cons_of_mem i (ih x h)

/-! ### C1: arena access and node validity -/

theorem aGet_push_lt (a : Arena) (n : SNode) (j : ℕ) (h : j < a.size) :
    aGet (a.push n) j = aGet a j := by
  have h2 : j < (a.push n).size := by rw [Array.size_push]; omega
  unfold aGet Array.getD
  rw [dif_pos h2, dif_pos h]
  exact Array.getElem_push_lt a n j h

theorem aGet_push_size (a : Arena) (n : SNode) : aGet (a.push n) a.size = n := by
  simp [aGet, Array.getD, Array.size_push]

theorem aSet_size (a : Arena) (k : ℕ) (n : SNode) : (aSet a k n).size = a.size := by
  rw [aSet]
  split
  · exact Array.size_set a _ n
  · rfl

theorem aGet_aSet (a : Arena) (k : ℕ) (n : SNode) (j : ℕ) :
    aGet (aSet a k n) j = if k < a.size ∧ j = k then n else aGet a j := by
  rw [aSet]
  split
  · case isTrue hk =>
    by_cases hjk : j = k
    · subst hjk
      rw [if_pos ⟨hk, rfl⟩]
      simp [aGet, Array.getD, Array.size_set, hk]
    · rw [if_neg (fun hc => hjk hc.2)]
      by_cases hj : j < a.size
      · have hkj : k ≠ j := fun hc => hjk hc.symm
        simp [aGet, Array.getD, Array.size_set, hj, hkj]
      · simp [aGet, Array.getD, Array.size_set, hj]
  · case isFalse hk =>
    rw [if_neg (fun hc => hk hc.1)]

theorem aSet_parent_pos (a : Arena) (k : ℕ) (n : SNode)
    (hp : n.parent = (aGet a k).parent) (hpos : n.pos = (aGet a k).pos) (j : ℕ) :
    (aGet (aSet a k n) j).parent = (aGet a j).parent ∧
      (aGet (aSet a k n) j).pos = (aGet a j).pos := by
  rw [aGet_aSet]
  split
  · case isTrue h =>
    rw [h.2]
    exact ⟨hp, hpos⟩
  · exact ⟨rfl, rfl⟩

theorem nodeOK_congr (grid : Grid) (s : Pos) (a a₂ : Arena) (i : ℕ)
    (hpp : ∀ j, (aGet a₂ j).parent = (aGet a j).parent ∧
      (aGet a₂ j).pos = (aGet a j).pos)
    (h : nodeOK grid s a i) : nodeOK grid s a₂ i := by
  obtain ⟨h1, h2⟩ := h
  constructor
  · intro hp
    rw [(hpp i).2]
    exact h1 (by rw [← (hpp i).1]; exact hp)
  · intro j hp
    rw [(hpp i).1] at hp
    obtain ⟨hj, hadj, hob⟩ := h2 j hp
    refine ⟨hj, ?_, ?_⟩
    · rw [(hpp j).2, (hpp i).2]; exact hadj
    · rw [(hpp i).2]; exact hob

theorem nodeOK_push (grid : Grid) (s : Pos) (a : Arena) (n : SNode) (i : ℕ)
    (hi : i < a.size) (h : nodeOK grid s a i) : nodeOK grid s (a.push n) i := by
  obtain ⟨h1, h2⟩ := h
  have e : aGet (a.push n) i = aGet a i := aGet_push_lt a n i hi
  constructor
  · rw [e]; exact h1
  · intro j hp
    rw [e] at hp
    obtain ⟨hj, hadj, hob⟩ := h2 j hp
    have ej : aGet (a.push n) j = aGet a j := aGet_push_lt a n j (Nat.lt_trans hj hi)
    rw [e, ej]
    exact ⟨hj, hadj, hob⟩

theorem nodeOK_push_new (grid : Grid) (s : Pos) (a : Arena) (n : SNode) (ci : ℕ)
    (hp : n.parent = some ci) (hci : ci < a.size)
    (hadj : fourAdj (aGet a ci).pos n.pos) (hob : cellAt grid n.pos ≠ '1') :
    nodeOK grid s (a.push n) a.size := by
  have e : aGet (a.push n) a.size = n := aGet_push_size a n
  constructor
  · intro hc
    rw [e, hp] at hc
    exact absurd hc (Option.some_ne_none ci)
  · intro j hj
    rw [e, hp] at hj
    injection hj with hji
    subst hji
    refine ⟨hci, ?_, ?_⟩
    · rw [e, aGet_push_lt a n ci hci]
      exact hadj
    · rw [e]
      exact hob

theorem stInv_push_arena (grid : Grid) (s : Pos) (l : HeapL) (a : Arena) (n : SNode)
    (hinv : stInv grid s (l, a)) (hnew : nodeOK grid s (a.push n) a.size) :
    stInv grid s (l, a.push n) := by
  obtain ⟨hsz, hA, hl⟩ := hinv
  refine ⟨?_, ?_, ?_⟩
  · rw [Array.size_push]; omega
  · intro i hi
    rw [Array.size_push] at hi
    rcases Nat.lt_succ_iff_lt_or_eq.mp hi with h | h
    · exact nodeOK_push grid s a n i h (hA i h)
    · subst h; exact hnew
  · intro i hi
    rw [Array.size_push]
    exact Nat.lt_succ_of_lt (hl i hi)

theorem stInv_heappush (grid : Grid) (s : Pos) (l : HeapL) (a : Arena) (i : ℕ)
    (hinv : stInv grid s (l, a)) (hi : i < a.size) :
    stInv grid s (heappush a l i, a) := by
  obtain ⟨hsz, hA, hl⟩ := hinv
  refine ⟨hsz, hA, ?_⟩
  intro x hx
  rcases heappush_sub a l i x hx with h | h | h
  · exact h ▸ hi
  · exact h ▸ hsz
  · exact hl x h

theorem stInv_aSet_pp (grid : Grid) (s : Pos) (l : HeapL) (a : Arena) (k : ℕ) (n : SNode)
    (hp : n.parent = (aGet a k).parent) (hpos : n.pos = (aGet a k).pos)
    (hinv : stInv grid s (l, a)) : stInv grid s (l, aSet a k n) := by
  obtain ⟨hsz, hA, hl⟩ := hinv
  refine ⟨?_, ?_, ?_⟩
  · rw [aSet_size]; exact hsz
  · intro i hi
    rw [aSet_size] at hi
    exact nodeOK_congr grid s a _ i (aSet_parent_pos a k n hp hpos) (hA i hi)
  · intro i hi
    rw [aSet_size]
    exact hl i hi

theorem fourAdj_move (p : Pos) (mv : ℤ × ℤ) (hmv : mv ∈ moves) :
    fourAdj p (p.1 + mv.1, p.2 + mv.2) := by
  simp only [moves, List.mem_cons, List.not_mem_nil, or_false] at hmv
  rcases hmv with h | h | h | h <;> subst h
  · show manhattan_distance p (p.1 + 0, p.2 + 1) = 1
    show (p.1 - (p.1 + 0)).natAbs + (p.2 - (p.2 + 1)).natAbs = 1
    have e1 : p.1 - (p.1 + 0) = 0 := by ring
    have e2 : p.2 - (p.2 + 1) = -1 := by ring
    rw [e1, e2]
    decide
  · show manhattan_distance p (p.1 + 0, p.2 + -1) = 1
    show (p.1 - (p.1 + 0)).natAbs + (p.2 - (p.2 + -1)).natAbs = 1
    have e1 : p.1 - (p.1 + 0) = 0 := by ring
    have e2 : p.2 - (p.2 + -1) = 1 := by ring
    rw [e1, e2]
    decide
  · show manhattan_distance p (p.1 + 1, p.2 + 0) = 1
    show (p.1 - (p.1 + 1)).natAbs + (p.2 - (p.2 + 0)).natAbs = 1
    have e1 : p.1 - (p.1 + 1) = -1 := by ring
    have e2 : p.2 - (p.2 + 0) = 0 := by ring
    rw [e1, e2]
    decide
  · show manhattan_distance p (p.1 + -1, p.2 + 0) = 1
    show (p.1 - (p.1 + -1)).natAbs + (p.2 - (p.2 + 0)).natAbs = 1
    have e1 : p.1 - (p.1 + -1) = 1 := by ring
    have e2 : p.2 - (p.2 + 0) = 0 := by ring
    rw [e1, e2]
    decide

/-! ### C1: path reconstruction -/

theorem reconstructAux_none (a : Arena) (fu : ℕ) (acc : List Pos) :
    reconstructAux a fu none acc = acc := by
  cases fu with
  | zero => rfl
  | succ fv => rfl

theorem reconstructAux_spec (grid : Grid) (s : Pos) (a : Arena)
    (hA : ∀ i, i < a.size → nodeOK grid s a i) :
    ∀ i, i < a.size → ∀ fu, i + 1 ≤ fu → ∀ acc,
      ∃ pre, reconstructAux a fu (some i) acc = pre ++ acc ∧
        goodPath grid s (aGet a i).pos pre := by
  intro i
  induction i using Nat.strong_induction_on with
  | _ i ih =>
    intro hi fu hfu acc
    match fu, hfu with
    | fv + 1, hfu =>
      rw [reconstructAux]
      obtain ⟨h1, h2⟩ := hA i hi
      cases hpar : (aGet a i).parent with
      | none =>
        rw [reconstructAux_none]
        refine ⟨[(aGet a i).pos], rfl, ?_, rfl, List.chain'_singleton _, ?_⟩
        · rw [h1 hpar]
          rfl
        · intro q hq
          exact absurd hq (List.not_mem_nil q)
      | some j =>
        obtain ⟨hj, hadj, hob⟩ := h2 j hpar
        have hjfv : j + 1 ≤ fv := by omega
        obtain ⟨pre, heq, hh, hl, hc, ht⟩ :=
          ih j hj (Nat.lt_trans hj hi) fv hjfv ((aGet a i).pos :: acc)
        have hne : pre ≠ [] := by
          intro h0
          rw [h0] at hh
          simp at hh
        obtain ⟨y, ys, hpre⟩ := List.exists_cons_of_ne_nil hne
        subst hpre
        refine ⟨(y :: ys) ++ [(aGet a i).pos], ?_, ?_, ?_, ?_, ?_⟩
        · rw [heq]
          simp
        · simpa using hh
        · exact List.getLast?_concat _
        · refine List.chain'_append.mpr ⟨hc, List.chain'_singleton _, ?_⟩
          intro u hu v hv
          rw [Option.mem_def] at hu hv
          rw [hl] at hu
          have hu2 := Option.some.inj hu
          have hv2 : (aGet a i).pos = v := by simpa using hv
          rw [← hu2, ← hv2]
          exact hadj
        · intro q hq
          rw [List.cons_append, List.tail_cons] at hq
          rcases List.mem_append.mp hq with h | h
          · exact ht q h
          · have hq2 := List.mem_singleton.mp h
            rw [hq2]
            exact hob

theorem reconstruct_goodPath (grid : Grid) (s : Pos) (a : Arena)
    (hA : ∀ i, i < a.size → nodeOK grid s a i) (i : ℕ) (hi : i < a.size) :
    goodPath grid s (aGet a i).pos (reconstruct a i) := by
  obtain ⟨pre, heq, hgp⟩ := reconstructAux_spec grid s a hA i hi (i + 1) (le_refl _) []
  rw [reconstruct, heq, List.append_nil]
  exact hgp

/-! ### C1: expansion and pruning preserve the state invariant -/

theorem expandMove_inv (grid : Grid) (epos : Pos) (hEval : HFun) (gStep : ℕ → ℕ)
    (mkF : ℕ → ℚ → ℚ) (closed : List Pos) (s : Pos) (ci : ℕ) (st : HeapL × Arena)
    (mv : ℤ × ℤ) (hmv : mv ∈ moves) (hinv : stInv grid s st) (hci : ci < st.2.size) :
    stInv grid s (expandMove grid epos hEval gStep mkF closed ci st mv) ∧
      st.2.size ≤ (expandMove grid epos hEval gStep mkF closed ci st mv).2.size := by
  rw [expandMove]
  simp only []
  split
  · case isTrue hguard =>
    have hob : cellAt grid
        ((aGet st.2 ci).pos.1 + mv.1, (aGet st.2 ci).pos.2 + mv.2) ≠ '1' := by
      simp only [Bool.and_eq_true, bne_iff_ne, ne_eq] at hguard
      exact hguard.1.2
    constructor
    · apply stInv_heappush
      · apply stInv_push_arena grid s st.1 st.2 _ hinv
        apply nodeOK_push_new grid s st.2 _ ci rfl hci _ hob
        exact fourAdj_move (aGet st.2 ci).pos mv hmv
      · rw [Array.size_push]
        omega
    · simp [Array.size_push]
  · case isFalse hguard =>
    exact ⟨hinv, le_refl _⟩

theorem expandMove_foldl_inv (grid : Grid) (epos : Pos) (hEval : HFun) (gStep : ℕ → ℕ)
    (mkF : ℕ → ℚ → ℚ) (closed : List Pos) (s : Pos) (ci : ℕ) :
    ∀ (mvs : List (ℤ × ℤ)), (∀ mv ∈ mvs, mv ∈ moves) → ∀ (st : HeapL × Arena),
      stInv grid s st → ci < st.2.size →
      stInv grid s ((mvs.foldl (expandMove grid epos hEval gStep mkF closed ci) st).1,
        (mvs.foldl (expandMove grid epos hEval gStep mkF closed ci) st).2) := by
  intro mvs
  induction mvs with
  | nil =>
    intro _ st hinv _
    exact hinv
  | cons mv mvs ih =>
    intro hsub st hinv hci
    rw [List.foldl_cons]
    obtain ⟨hinv2, hle⟩ := expandMove_inv grid epos hEval gStep mkF closed s ci st mv
      (hsub mv (List.mem_cons_self mv mvs)) hinv hci
    exact ih (fun m hm => hsub m (List.mem_cons_of_mem mv hm)) _ hinv2
      (Nat.lt_of_lt_of_le hci hle)

theorem expandMoveSma_inv (grid : Grid) (epos : Pos) (hEval : HFun) (closed : List Pos)
    (s : Pos) (ci : ℕ) (st : HeapL × Arena) (mv : ℤ × ℤ) (hmv : mv ∈ moves)
    (hinv : stInv grid s st) (hci : ci < st.2.size) :
    stInv grid s (expandMoveSma grid epos hEval closed ci st mv) ∧
      st.2.size ≤ (expandMoveSma grid epos hEval closed ci st mv).2.size := by
  rw [expandMoveSma]
  simp only []
  split
  · case isTrue hguard =>
    split
    · exact ⟨hinv, le_refl _⟩
    · have hob : cellAt grid
          ((aGet st.2 ci).pos.1 + mv.1, (aGet st.2 ci).pos.2 + mv.2) ≠ '1' := by
        simp only [Bool.and_eq_true, bne_iff_ne, ne_eq] at hguard
        exact hguard.2
      constructor
      · apply stInv_heappush
        · apply stInv_aSet_pp
          · rfl
          · rfl
          · apply stInv_push_arena grid s st.1 st.2 _ hinv
            apply nodeOK_push_new grid s st.2 _ ci rfl hci _ hob
            exact fourAdj_move (aGet st.2 ci).pos mv hmv
        · rw [aSet_size, Array.size_push]
          omega
      · simp [aSet_size, Array.size_push]
  · case isFalse hguard =>
    exact ⟨hinv, le_refl _⟩

theorem expandMoveSma_foldl_inv (grid : Grid) (epos : Pos) (hEval : HFun)
    (closed : List Pos) (s : Pos) (ci : ℕ) :
    ∀ (mvs : List (ℤ × ℤ)), (∀ mv ∈ mvs, mv ∈ moves) → ∀ (st : HeapL × Arena),
      stInv grid s st → ci < st.2.size →
      stInv grid s ((mvs.foldl (expandMoveSma grid epos hEval closed ci) st).1,
        (mvs.foldl (expandMoveSma grid epos hEval closed ci) st).2) := by
  intro mvs
  induction mvs with
  | nil =>
    intro _ st hinv _
    exact hinv
  | cons mv mvs ih =>
    intro hsub st hinv hci
    rw [List.foldl_cons]
    obtain ⟨hinv2, hle⟩ := expandMoveSma_inv grid epos hEval closed s ci st mv
      (hsub mv (List.mem_cons_self mv mvs)) hinv hci
    exact ih (fun m hm => hsub m (List.mem_cons_of_mem mv hm)) _ hinv2
      (Nat.lt_of_lt_of_le hci hle)

theorem pruneStep_inv (grid : Grid) (s : Pos) (maxN : ℕ) (l : HeapL) (a : Arena)
    (hinv : stInv grid s (l, a)) : stInv grid s (pruneStep maxN (l, a)).1 := by
  obtain ⟨hsz, hA, hl⟩ := hinv
  have hl2 : ∀ x, x ∈ heapify a (removeFirstPos a (aGet a (pythonMax a l)).pos l) →
      x < a.size := by
    intro x hx
    rcases heapify_sub a _ x hx with h | h
    · exact h ▸ hsz
    · exact hl x (removeFirstPos_sub a _ l x h)
  rw [pruneStep]
  simp only []
  split
  · split
    · exact ⟨hsz, hA, hl2⟩
    · split
      · exact ⟨hsz, hA, hl2⟩
      · refine ⟨?_, ?_, ?_⟩
        · rw [aSet_size]; exact hsz
        · intro i hi
          rw [aSet_size] at hi
          apply nodeOK_congr grid s a _ i _ (hA i hi)
          apply aSet_parent_pos
          · rfl
          · rfl
        · intro i hi
          rw [aSet_size]
          exact hl2 i hi
  · exact ⟨hsz, hA, hl⟩

theorem stInv_init (grid : Grid) (s : Pos) (nd : SNode)
    (hp : nd.parent = none) (hpos : nd.pos = s) :
    stInv grid s ([0], #[nd]) := by
  have hsz : (#[nd] : Arena).size = 1 := rfl
  have e : aGet #[nd] 0 = nd := rfl
  refine ⟨?_, ?_, ?_⟩
  · rw [hsz]; omega
  · intro i hi
    rw [hsz] at hi
    have h0 : i = 0 := by omega
    subst h0
    constructor
    · intro _
      rw [e]; exact hpos
    · intro j hj
      rw [e, hp] at hj
      exact Option.noConfusion hj
  · intro i hi
    have h0 : i = 0 := List.mem_singleton.mp hi
    subst h0
    rw [hsz]; omega

/-! ### C1: the search loops only return valid paths -/

theorem searchLoop_goodPath (grid : Grid) (s epos : Pos) (hEval : HFun)
    (gStep : ℕ → ℕ) (mkF : ℕ → ℚ → ℚ) :
    ∀ (fu : ℕ) (l : HeapL) (a : Arena) (closed : List Pos) (p : List Pos),
      stInv grid s (l, a) →
      searchLoop grid epos hEval gStep mkF fu l a closed = some p →
      goodPath grid s epos p := by
  intro fu
  induction fu with
  | zero =>
    intro l a closed p _ hres
    rw [searchLoop] at hres
    exact Option.noConfusion hres
  | succ fu ih =>
    intro l a closed p hinv hres
    obtain ⟨hsz, hA, hl⟩ := hinv
    cases l with
    | nil =>
      rw [searchLoop] at hres
      exact Option.noConfusion hres
    | cons x xs =>
      rw [searchLoop] at hres
      simp only [] at hres
      have hci : (heappopD a (x :: xs)).1 ∈ x :: xs := heappop_fst_mem a x xs
      have hcisz : (heappopD a (x :: xs)).1 < a.size := hl _ hci
      have hpop2 : ∀ i, i ∈ (heappopD a (x :: xs)).2 → i < a.size := by
        intro i hi
        rcases heappop_snd_sub a (x :: xs) i hi with h | h
        · exact h ▸ hsz
        · exact hl i h
      split at hres
      · exact ih ((heappopD a (x :: xs)).2) a closed p ⟨hsz, hA, hpop2⟩ hres
      · split at hres
        · case isTrue hgoal =>
          have hgp := reconstruct_goodPath grid s a hA _ hcisz
          rw [hgoal] at hgp
          rw [← Option.some.inj hres]
          exact hgp
        · case isFalse hgoal =>
          exact ih _ _ _ p
            (expandMove_foldl_inv grid epos hEval gStep mkF
              ((aGet a (heappopD a (x :: xs)).1).pos :: closed) s
              ((heappopD a (x :: xs)).1) moves (fun m hm => hm)
              ((heappopD a (x :: xs)).2, a) ⟨hsz, hA, hpop2⟩ hcisz) hres

theorem smaLoop_goodPath (grid : Grid) (s epos : Pos) (hEval : HFun) (maxN : ℕ) :
    ∀ (fu : ℕ) (l : HeapL) (a : Arena) (closed : List Pos) (evs : List PruneEvent)
      (p : List Pos),
      stInv grid s (l, a) →
      (smaLoop grid epos hEval maxN fu l a closed evs).1 = some p →
      goodPath grid s epos p := by
  intro fu
  induction fu with
  | zero =>
    intro l a closed evs p _ hres
    rw [smaLoop] at hres
    exact Option.noConfusion hres
  | succ fu ih =>
    intro l a closed evs p hinv hres
    cases l with
    | nil =>
      rw [smaLoop] at hres
      exact Option.noConfusion hres
    | cons x xs =>
      rw [smaLoop] at hres
      simp only [] at hres
      have hpr := pruneStep_inv grid s maxN (x :: xs) a hinv
      rcases hps : pruneStep maxN (x :: xs, a) with ⟨⟨l2, a2⟩, oev⟩
      rw [hps] at hres hpr
      obtain ⟨hsz2, hA2, hl2⟩ := hpr
      cases l2 with
      | nil =>
        simp only [] at hres
        exact Option.noConfusion hres
      | cons y ys =>
        simp only [] at hres
        have hci : (heappopD a2 (y :: ys)).1 ∈ y :: ys := heappop_fst_mem a2 y ys
        have hcisz : (heappopD a2 (y :: ys)).1 < a2.size := hl2 _ hci
        have hpop2 : ∀ i, i ∈ (heappopD a2 (y :: ys)).2 → i < a2.size := by
          intro i hi
          rcases heappop_snd_sub a2 (y :: ys) i hi with h | h
          · exact h ▸ hsz2
          · exact hl2 i h
        split at hres
        · exact ih ((heappopD a2 (y :: ys)).2) a2 closed (evs ++ oev.toList) p
            ⟨hsz2, hA2, hpop2⟩ hres
        · split at hres
          · case isTrue hgoal =>
            have hgp := reconstruct_goodPath grid s a2 hA2 _ hcisz
            rw [hgoal] at hgp
            rw [← Option.some.inj hres]
            exact hgp
          · case isFalse hgoal =>
            exact ih _ _ _ _ p
              (expandMoveSma_foldl_inv grid epos hEval
                ((aGet a2 (heappopD a2 (y :: ys)).1).pos :: closed) s
                ((heappopD a2 (y :: ys)).1) moves (fun m hm => hm)
                ((heappopD a2 (y :: ys)).2, a2) ⟨hsz2, hA2, hpop2⟩ hcisz) hres

/-- C1 counterexample: on the 1×1 grid whose only cell is an obstacle,
a_star_search with start = goal = (0,0) returns the path [(0,0)] even
though that position lies on an obstacle cell of the supplied map —
the code never tests the start cell against obstacles, so the claim's
no-obstacle clause fails for this returned path. -/
theorem c1_counterexample :
    a_star_search [['1']] (0, 0) (0, 0) hManhattan = some [(0, 0)] ∧
    cellAt [['1']] (0, 0) = '1' := by
  constructor
  · with_unfolding_all decide
  · rfl

/-- C1 amended: every path returned by any of the five search variants
(A*, Greedy Best-First, Weighted A*, Dynamic-Weighted A*, bounded-memory
SMA*) starts at the start position, ends at the goal position, has all
consecutive pairs 4-adjacent, and avoids obstacle ('1') cells of the
supplied map everywhere except possibly at the start cell itself. -/
theorem c1_amended (grid : Grid) (s e : Pos) (hEval : HFun) (w : ℚ) (maxN : ℕ)
    (p : List Pos)
    (hres : a_star_search grid s e hEval = some p ∨
        greedy_bfs_search grid s e hEval = some p ∨
        weighted_a_star_search grid s e hEval w = some p ∨
        dynamic_weighted_a_star_search grid s e = some p ∨
        sma_star_search grid s e hEval maxN = some p) :
    goodPath grid s e p := by
  rcases hres with h | h | h | h | h
  · rw [a_star_search] at h
    exact searchLoop_goodPath grid s e hEval _ _ _ _ _ _ p
      (stInv_init grid s _ rfl rfl) h
  · rw [greedy_bfs_search] at h
    simp only [] at h
    exact searchLoop_goodPath grid s e hEval _ _ _ _ _ _ p
      (stInv_init grid s _ rfl rfl) h
  · rw [weighted_a_star_search] at h
    exact searchLoop_goodPath grid s e hEval _ _ _ _ _ _ p
      (stInv_init grid s _ rfl rfl) h
  · rw [dynamic_weighted_a_star_search] at h
    simp only [] at h
    exact searchLoop_goodPath grid s e hManhattan _ _ _ _ _ _ p
      (stInv_init grid s _ rfl rfl) h
  · rw [sma_star_search] at h
    simp only [] at h
    exact smaLoop_goodPath grid s e hEval maxN _ _ _ _ _ p
      (stInv_init grid s _ rfl rfl) h

/-- Witness for C1 amended: A* on a free 1×2 grid returns the two-cell
path, which starts at the start, ends at the goal, is 4-adjacent and
obstacle-free. -/
theorem c1_amended_witness :
    goodPath [['0', '0']] (0, 0) (0, 1) [(0, 0), (0, 1)] :=
  c1_amended [['0', '0']] (0, 0) (0, 1) hManhattan 1 0 [(0, 0), (0, 1)]
    (Or.inl (by with_unfolding_all decide))

/-! ### C2: refined heap membership, length and congruence lemmas -/

theorem hGet_mem_of_lt (l : HeapL) (n : ℕ) (h : n < l.length) : hGet l n ∈ l := by
  induction l generalizing n with
  | nil => simp at h
  | cons x xs ih =>
    cases n with
    | zero => exact List.mem_cons_self x xs
    | succ m =>
      have e : hGet (x :: xs) (m + 1) = hGet xs m := by simp [hGet]
      rw [e]
      exact List.mem_cons_of_mem x (ih m (by simpa using h))

theorem siftdownLoop_sub2 (a : Arena) (sp it : ℕ) :
    ∀ (fu : ℕ) (l : HeapL) (pos : ℕ), pos < l.length →
      ∀ x ∈ siftdownLoop a sp it fu l pos, x = it ∨ x ∈ l := by
  intro fu
  induction fu with
  | zero =>
    intro l pos _ x hx
    rcases List.mem_or_eq_of_mem_set hx with h | h
    · right; exact h
    · left; exact h
  | succ fu ih =>
    intro l pos hpos x hx
    rw [siftdownLoop] at hx
    simp only [] at hx
    split at hx
    · case isTrue hsp =>
      split at hx
      · have hpp : (pos - 1) / 2 < l.length := by omega
        have hpar : hGet l ((pos - 1) / 2) ∈ l := hGet_mem_of_lt l _ hpp
        have hlen : (pos - 1) / 2 < (l.set pos (hGet l ((pos - 1) / 2))).length := by
          rw [List.length_set]; omega
        rcases ih _ _ hlen x hx with h | h
        · left; exact h
        · rcases List.mem_or_eq_of_mem_set h with h2 | h2
          · right; exact h2
          · right; rw [h2]; exact hpar
      · rcases List.mem_or_eq_of_mem_set hx with h | h
        · right; exact h
        · left; exact h
    · rcases List.mem_or_eq_of_mem_set hx with h | h
      · right; exact h
      · left; exact h

theorem siftupLoop_sub2 (a : Arena) :
    ∀ (fu : ℕ) (l : HeapL) (pos : ℕ), ∀ x ∈ (siftupLoop a fu l pos).1, x ∈ l := by
  intro fu
  induction fu with
  | zero =>
    intro l pos x hx
    rw [siftupLoop] at hx
    exact hx
  | succ fu ih =>
    intro l pos x hx
    rw [siftupLoop] at hx
    simp only [] at hx
    split at hx
    · case isTrue hcp =>
      have hc2 : (if 2 * pos + 1 + 1 < l.length &&
          !nodeLt a (hGet l (2 * pos + 1)) (hGet l (2 * pos + 1 + 1))
          then 2 * pos + 1 + 1 else 2 * pos + 1) < l.length := by
        split
        · case isTrue hb =>
          have := (Bool.and_eq_true _ _).mp hb
          exact of_decide_eq_true this.1
        · exact hcp
      rcases ih _ _ x hx with h
      rcases List.mem_or_eq_of_mem_set h with h2 | h2
      · exact h2
      · rw [h2]
        exact hGet_mem_of_lt l _ hc2
    · exact hx

theorem siftupLoop_len (a : Arena) :
    ∀ (fu : ℕ) (l : HeapL) (pos : ℕ), (siftupLoop a fu l pos).1.length = l.length := by
  intro fu
  induction fu with
  | zero => intro l pos; rw [siftupLoop]
  | succ fu ih =>
    intro l pos
    rw [siftupLoop]
    simp only []
    split
    · rw [ih, List.length_set]
    · rfl

theorem siftupLoop_pos_lt (a : Arena) :
    ∀ (fu : ℕ) (l : HeapL) (pos : ℕ), pos < l.length →
      (siftupLoop a fu l pos).2 < l.length := by
  intro fu
  induction fu with
  | zero => intro l pos h; rw [siftupLoop]; exact h
  | succ fu ih =>
    intro l pos h
    rw [siftupLoop]
    simp only []
    split
    · case isTrue hcp =>
      have hc2 : (if 2 * pos + 1 + 1 < l.length &&
          !nodeLt a (hGet l (2 * pos + 1)) (hGet l (2 * pos + 1 + 1))
          then 2 * pos + 1 + 1 else 2 * pos + 1) < l.length := by
        split
        · case isTrue hb =>
          have := (Bool.and_eq_true _ _).mp hb
          exact of_decide_eq_true this.1
        · exact hcp
      have := ih (l.set pos (hGet l (if 2 * pos + 1 + 1 < l.length &&
          !nodeLt a (hGet l (2 * pos + 1)) (hGet l (2 * pos + 1 + 1))
          then 2 * pos + 1 + 1 else 2 * pos + 1)))
        (if 2 * pos + 1 + 1 < l.length &&
          !nodeLt a (hGet l (2 * pos + 1)) (hGet l (2 * pos + 1 + 1))
          then 2 * pos + 1 + 1 else 2 * pos + 1)
        (by rw [List.length_set]; exact hc2)
      rw [List.length_set] at this
      exact this
    · exact h

theorem siftdownLoop_len (a : Arena) (sp it : ℕ) :
    ∀ (fu : ℕ) (l : HeapL) (pos : ℕ),
      (siftdownLoop a sp it fu l pos).length = l.length := by
  intro fu
  induction fu with
  | zero => intro l pos; rw [siftdownLoop]; exact List.length_set l pos it
  | succ fu ih =>
    intro l pos
    rw [siftdownLoop]
    simp only []
    split
    · split
      · rw [ih, List.length_set]
      · exact List.length_set l pos it
    · exact List.length_set l pos it

theorem siftup_sub2 (a : Arena) (l : HeapL) (pos : ℕ) (hpos : pos < l.length) :
    ∀ x ∈ siftup a l pos, x ∈ l := by
  intro x hx
  rw [siftup] at hx
  have hs2 : (siftupLoop a l.length l pos).2 <
      (siftupLoop a l.length l pos).1.length := by
    rw [siftupLoop_len]
    exact siftupLoop_pos_lt a l.length l pos hpos
  have hlen : (siftupLoop a l.length l pos).2 <
      ((siftupLoop a l.length l pos).1.set (siftupLoop a l.length l pos).2
        (hGet l pos)).length := by
    rw [List.length_set]
    exact hs2
  rcases siftdownLoop_sub2 a pos _ _ _ _ hlen x hx with h | h
  · rw [h]; exact hGet_mem_of_lt l pos hpos
  · rcases List.mem_or_eq_of_mem_set h with h2 | h2
    · exact siftupLoop_sub2 a _ _ _ x h2
    · rw [h2]; exact hGet_mem_of_lt l pos hpos

theorem siftup_len (a : Arena) (l : HeapL) (pos : ℕ) :
    (siftup a l pos).length = l.length := by
  rw [siftup]
  rw [siftdownLoop_len, List.length_set, siftupLoop_len]

theorem heappush_sub2 (a : Arena) (l : HeapL) (it : ℕ) :
    ∀ x ∈ heappush a l it, x = it ∨ x ∈ l := by
  intro x hx
  rw [heappush] at hx
  have hlen : l.length < (l ++ [it]).length := by
    rw [List.length_append]
    simp
  rcases siftdownLoop_sub2 a 0 it _ _ _ hlen x hx with h | h
  · left; exact h
  · rcases List.mem_append.mp h with h2 | h2
    · right; exact h2
    · left; simpa using h2

theorem heappush_len (a : Arena) (l : HeapL) (it : ℕ) :
    (heappush a l it).length = l.length + 1 := by
  rw [heappush, siftdownLoop_len, List.length_append]
  rfl

theorem heappopD_sub2 (a : Arena) (x : ℕ) (xs : List ℕ) :
    ∀ y ∈ (heappopD a (x :: xs)).2, y ∈ x :: xs := by
  intro y hy
  cases xs with
  | nil => simp [heappopD] at hy
  | cons z ys =>
    simp only [heappopD] at hy
    have hlen : 0 < (((x :: z :: ys).dropLast).set 0 ((x :: z :: ys).getLastD 0)).length := by
      rw [List.length_set]
      simp [List.dropLast]
    have := siftup_sub2 a _ 0 hlen y hy
    rcases List.mem_or_eq_of_mem_set this with h2 | h2
    · exact (List.dropLast_sublist (x :: z :: ys)).mem h2
    · rw [h2, List.getLastD_cons]
      exact List.getLastD_mem_cons (z :: ys) x

theorem heappopD_len (a : Arena) (x : ℕ) (xs : List ℕ) :
    (heappopD a (x :: xs)).2.length = xs.length := by
  cases xs with
  | nil => rfl
  | cons z ys =>
    simp only [heappopD]
    rw [siftup_len, List.length_set]
    simp [List.dropLast]

theorem nodeLt_congr (a a₂ : Arena) (hf : ∀ i, i ≠ 0 → (aGet a i).f = (aGet a₂ i).f)
    (i j : ℕ) (hi : i ≠ 0) (hj : j ≠ 0) : nodeLt a i j = nodeLt a₂ i j := by
  unfold nodeLt
  rw [hf i hi, hf j hj]

theorem siftdownLoop_congr (a a₂ : Arena)
    (hf : ∀ i, i ≠ 0 → (aGet a i).f = (aGet a₂ i).f) (sp it : ℕ) (hit : it ≠ 0) :
    ∀ (fu : ℕ) (l : HeapL) (pos : ℕ), (∀ x ∈ l, x ≠ 0) → pos < l.length →
      siftdownLoop a sp it fu l pos = siftdownLoop a₂ sp it fu l pos := by
  intro fu
  induction fu with
  | zero => intro l pos _ _; rfl
  | succ fu ih =>
    intro l pos hl hpos
    rw [siftdownLoop, siftdownLoop]
    simp only []
    by_cases hsp : sp < pos
    · rw [if_pos hsp, if_pos hsp]
      have hpp : (pos - 1) / 2 < l.length := by omega
      have hpar : hGet l ((pos - 1) / 2) ∈ l := hGet_mem_of_lt l _ hpp
      rw [nodeLt_congr a a₂ hf it _ hit (hl _ hpar)]
      by_cases hlt : nodeLt a₂ it (hGet l ((pos - 1) / 2)) = true
      · rw [if_pos hlt, if_pos hlt]
        apply ih
        · intro x hx
          rcases List.mem_or_eq_of_mem_set hx with h | h
          · exact hl x h
          · rw [h]; exact hl _ hpar
        · rw [List.length_set]; omega
      · rw [if_neg hlt, if_neg hlt]
    · rw [if_neg hsp, if_neg hsp]

theorem siftupLoop_congr (a a₂ : Arena)
    (hf : ∀ i, i ≠ 0 → (aGet a i).f = (aGet a₂ i).f) :
    ∀ (fu : ℕ) (l : HeapL) (pos : ℕ), (∀ x ∈ l, x ≠ 0) →
      siftupLoop a fu l pos = siftupLoop a₂ fu l pos := by
  intro fu
  induction fu with
  | zero => intro l pos _; rfl
  | succ fu ih =>
    intro l pos hl
    rw [siftupLoop, siftupLoop]
    simp only []
    by_cases hcp : 2 * pos + 1 < l.length
    · rw [if_pos hcp, if_pos hcp]
      have hcm : hGet l (2 * pos + 1) ∈ l := hGet_mem_of_lt l _ hcp
      have hcond : (decide (2 * pos + 1 + 1 < l.length) &&
            !nodeLt a (hGet l (2 * pos + 1)) (hGet l (2 * pos + 1 + 1))) =
          (decide (2 * pos + 1 + 1 < l.length) &&
            !nodeLt a₂ (hGet l (2 * pos + 1)) (hGet l (2 * pos + 1 + 1))) := by
        by_cases hrp : 2 * pos + 1 + 1 < l.length
        · have hrm : hGet l (2 * pos + 1 + 1) ∈ l := hGet_mem_of_lt l _ hrp
          rw [nodeLt_congr a a₂ hf _ _ (hl _ hcm) (hl _ hrm)]
        · rw [decide_eq_false hrp]
          rw [Bool.false_and, Bool.false_and]
      rw [hcond]
      apply ih
      intro x hx
      rcases List.mem_or_eq_of_mem_set hx with h | h
      · exact hl x h
      · rw [h]
        apply hl
        apply hGet_mem_of_lt
        split
        · next hb =>
          have := (Bool.and_eq_true _ _).mp hb
          exact of_decide_eq_true this.1
        · exact hcp
    · rw [if_neg hcp, if_neg hcp]

theorem siftup_congr (a a₂ : Arena)
    (hf : ∀ i, i ≠ 0 → (aGet a i).f = (aGet a₂ i).f) (l : HeapL) (pos : ℕ)
    (hl : ∀ x ∈ l, x ≠ 0) (hpos : pos < l.length) :
    siftup a l pos = siftup a₂ l pos := by
  rw [siftup, siftup]
  have e := siftupLoop_congr a a₂ hf l.length l pos hl
  rw [← e]
  have hitm : hGet l pos ∈ l := hGet_mem_of_lt l pos hpos
  apply siftdownLoop_congr a a₂ hf pos _ (hl _ hitm)
  · intro x hx
    rcases List.mem_or_eq_of_mem_set hx with h | h
    · exact hl x (siftupLoop_sub2 a _ _ _ x h)
    · rw [h]; exact hl _ hitm
  · rw [List.length_set, siftupLoop_len]
    exact siftupLoop_pos_lt a l.length l pos hpos

theorem heappush_congr (a a₂ : Arena)
    (hf : ∀ i, i ≠ 0 → (aGet a i).f = (aGet a₂ i).f) (l : HeapL) (it : ℕ)
    (hit : it ≠ 0) (hl : ∀ x ∈ l, x ≠ 0) :
    heappush a l it = heappush a₂ l it := by
  rw [heappush, heappush]
  apply siftdownLoop_congr a a₂ hf 0 it hit
  · intro x hx
    rcases List.mem_append.mp hx with h | h
    · exact hl x h
    · rw [List.mem_singleton.mp h]; exact hit
  · rw [List.length_append]
    simp

theorem heappopD_congr (a a₂ : Arena)
    (hf : ∀ i, i ≠ 0 → (aGet a i).f = (aGet a₂ i).f) (l : HeapL)
    (hl : ∀ x ∈ l, x ≠ 0) :
    heappopD a l = heappopD a₂ l := by
  match l with
  | [] => rfl
  | [x] => rfl
  | x :: y :: ys =>
    simp only [heappopD]
    have hlen : 0 < (((x :: y :: ys).dropLast).set 0 ((x :: y :: ys).getLastD 0)).length := by
      rw [List.length_set]
      simp [List.dropLast]
    rw [siftup_congr a a₂ hf _ 0 _ hlen]
    intro z hz
    rcases List.mem_or_eq_of_mem_set hz with h | h
    · exact hl z ((List.dropLast_sublist (x :: y :: ys)).mem h)
    · rw [h, List.getLastD_cons]
      exact hl _ (List.getLastD_mem_cons (y :: ys) x)

theorem reconstructAux_congr (a a₂ : Arena)
    (hpp : ∀ j, (aGet a j).parent = (aGet a₂ j).parent ∧
      (aGet a j).pos = (aGet a₂ j).pos) :
    ∀ (fu : ℕ) (o : Option ℕ) (acc : List Pos),
      reconstructAux a fu o acc = reconstructAux a₂ fu o acc := by
  intro fu
  induction fu with
  | zero => intro o acc; rfl
  | succ fu ih =>
    intro o acc
    cases o with
    | none => rfl
    | some i =>
      rw [reconstructAux, reconstructAux]
      rw [(hpp i).1, (hpp i).2]
      exact ih _ _

theorem aGet_oob (a : Arena) (j : ℕ) (h : a.size ≤ j) : aGet a j = default := by
  unfold aGet Array.getD
  rw [dif_neg (by omega)]

theorem bool_eq_false (b : Bool) (h : ¬ b = true) : b = false := by
  cases b
  · rfl
  · exact absurd rfl h

theorem c2Rel_push (a a₂ : Arena) (hrel : c2Rel a a₂) (n n₂ : SNode) (k : ℕ)
    (hk : k < a.size) (hpar : n.parent = n₂.parent) (hpo : n.pos = n₂.pos)
    (hg : n.g = n₂.g) (hd : n.depth = n₂.depth) (hf : n.f = n₂.f) (ch : List ℕ) :
    c2Rel (a.push n)
      (aSet (a₂.push n₂) k { aGet (a₂.push n₂) k with children := ch }) := by
  obtain ⟨hsz, hrelj, hrelf⟩ := hrel
  have hk₂ : k < a₂.size := by omega
  refine ⟨?_, ?_, ?_⟩
  · rw [aSet_size, Array.size_push, Array.size_push, hsz]
  · intro j
    rw [aGet_aSet]
    split
    · next hjc =>
      rw [hjc.2]
      refine ⟨?_, ?_, ?_, ?_⟩
      · show (aGet (a.push n) k).parent = (aGet (a₂.push n₂) k).parent
        rw [aGet_push_lt a n k hk, aGet_push_lt a₂ n₂ k hk₂]
        exact (hrelj k).1
      · show (aGet (a.push n) k).pos = (aGet (a₂.push n₂) k).pos
        rw [aGet_push_lt a n k hk, aGet_push_lt a₂ n₂ k hk₂]
        exact (hrelj k).2.1
      · show (aGet (a.push n) k).g = (aGet (a₂.push n₂) k).g
        rw [aGet_push_lt a n k hk, aGet_push_lt a₂ n₂ k hk₂]
        exact (hrelj k).2.2.1
      · show (aGet (a.push n) k).depth = (aGet (a₂.push n₂) k).depth
        rw [aGet_push_lt a n k hk, aGet_push_lt a₂ n₂ k hk₂]
        exact (hrelj k).2.2.2
    · rcases Nat.lt_trichotomy j a.size with h | h | h
      · rw [aGet_push_lt a n j h, aGet_push_lt a₂ n₂ j (by omega)]
        exact ⟨(hrelj j).1, (hrelj j).2.1, (hrelj j).2.2.1, (hrelj j).2.2.2⟩
      · subst h
        rw [aGet_push_size, hsz, aGet_push_size]
        exact ⟨hpar, hpo, hg, hd⟩
      · rw [aGet_oob _ j (by rw [Array.size_push]; omega),
          aGet_oob _ j (by rw [Array.size_push, ← hsz]; omega)]
        exact ⟨rfl, rfl, rfl, rfl⟩
  · intro i hi0
    rw [aGet_aSet]
    split
    · next hic =>
      rw [hic.2]
      show (aGet (a.push n) k).f = (aGet (a₂.push n₂) k).f
      rw [aGet_push_lt a n k hk, aGet_push_lt a₂ n₂ k hk₂]
      exact hrelf k (by rw [hic.2] at hi0; exact hi0)
    · rcases Nat.lt_trichotomy i a.size with h | h | h
      · rw [aGet_push_lt a n i h, aGet_push_lt a₂ n₂ i (by omega)]
        exact hrelf i hi0
      · subst h
        rw [aGet_push_size, hsz, aGet_push_size]
        exact hf
      · rw [aGet_oob _ i (by rw [Array.size_push]; omega),
          aGet_oob _ i (by rw [Array.size_push, ← hsz]; omega)]

theorem expandBoth_one (grid : Grid) (epos : Pos) (hEval : HFun)
    (hpos : positional hEval) (closed : List Pos) (ci : ℕ) (l : HeapL)
    (a a₂ : Arena) (mv : ℤ × ℤ)
    (hrel : c2Rel a a₂) (hst : c2St grid l a) (hci : ci < a.size) :
    c2Pair grid
      (expandMove grid epos hEval (· + 1) (fun g h => (g : ℚ) + h) closed ci (l, a) mv)
      (expandMoveSma grid epos hEval closed ci (l, a₂) mv) ∧
    (expandMove grid epos hEval (· + 1) (fun g h => (g : ℚ) + h) closed ci
        (l, a) mv).1.length ≤ l.length + 1 ∧
    a.size ≤
      (expandMove grid epos hEval (· + 1) (fun g h => (g : ℚ) + h) closed ci
        (l, a) mv).2.size := by
  have hszeq := hrel.1
  obtain ⟨hsz0, hne0, hlt, hpass⟩ := hst
  rw [expandMove, expandMoveSma]
  simp only []
  rw [← (hrel.2.1 ci).2.1, ← (hrel.2.1 ci).2.2.1, ← (hrel.2.1 ci).2.2.2]
  by_cases hg1 : (inBounds grid ((aGet a ci).pos.1 + mv.1, (aGet a ci).pos.2 + mv.2) && (cellAt grid ((aGet a ci).pos.1 + mv.1, (aGet a ci).pos.2 + mv.2) != '1')) = true
  · by_cases hg2 : ((aGet a ci).pos.1 + mv.1, (aGet a ci).pos.2 + mv.2) ∈ closed
    · have hcA : (inBounds grid ((aGet a ci).pos.1 + mv.1, (aGet a ci).pos.2 + mv.2) && (cellAt grid ((aGet a ci).pos.1 + mv.1, (aGet a ci).pos.2 + mv.2) != '1') &&
          !decide (((aGet a ci).pos.1 + mv.1, (aGet a ci).pos.2 + mv.2) ∈ closed)) = false := by
        rw [decide_eq_true hg2, hg1]
        rfl
      rw [hcA, if_neg Bool.false_ne_true, if_pos hg1, if_pos (decide_eq_true hg2)]
      exact ⟨⟨rfl, hrel, hsz0, hne0, hlt, hpass⟩, Nat.le_succ _, le_refl _⟩
    · have hg2d : decide (((aGet a ci).pos.1 + mv.1, (aGet a ci).pos.2 + mv.2) ∈ closed) = false := decide_eq_false hg2
      have hcA : (inBounds grid ((aGet a ci).pos.1 + mv.1, (aGet a ci).pos.2 + mv.2) && (cellAt grid ((aGet a ci).pos.1 + mv.1, (aGet a ci).pos.2 + mv.2) != '1') &&
          !decide (((aGet a ci).pos.1 + mv.1, (aGet a ci).pos.2 + mv.2) ∈ closed)) = true := by
        rw [hg1, hg2d]
        rfl
      rw [hcA, if_pos rfl, if_pos hg1, hg2d, if_neg Bool.false_ne_true]
      dsimp only
      have hveq : hEval a { parent := some ci, pos := ((aGet a ci).pos.1 + mv.1, (aGet a ci).pos.2 + mv.2), g := (aGet a ci).g + 1, h := 0, f := 0, depth := (aGet a ci).depth + 1, children := [] } epos = hEval a₂ { parent := some ci, pos := ((aGet a ci).pos.1 + mv.1, (aGet a ci).pos.2 + mv.2), g := (aGet a ci).g + 1, h := 0, f := 0, depth := (aGet a ci).depth + 1, children := [] } epos :=
        hpos a a₂ _ _ epos rfl
      have hbounds := (Bool.and_eq_true _ _).mp hg1
      have hobs : cellAt grid ((aGet a ci).pos.1 + mv.1, (aGet a ci).pos.2 + mv.2) ≠ '1' := by
        have := hbounds.2
        simpa using this
      have hidx : (a.push { parent := some ci, pos := ((aGet a ci).pos.1 + mv.1, (aGet a ci).pos.2 + mv.2), g := (aGet a ci).g + 1, h := hEval a { parent := some ci, pos := ((aGet a ci).pos.1 + mv.1, (aGet a ci).pos.2 + mv.2), g := (aGet a ci).g + 1, h := 0, f := 0, depth := (aGet a ci).depth + 1, children := [] } epos, f := (((aGet a ci).g + 1 : ℕ) : ℚ) + hEval a { parent := some ci, pos := ((aGet a ci).pos.1 + mv.1, (aGet a ci).pos.2 + mv.2), g := (aGet a ci).g + 1, h := 0, f := 0, depth := (aGet a ci).depth + 1, children := [] } epos, depth := (aGet a ci).depth + 1, children := [] }).size - 1 = a.size := by rw [Array.size_push]; omega
      have hidx₂ : (a₂.push { parent := some ci, pos := ((aGet a ci).pos.1 + mv.1, (aGet a ci).pos.2 + mv.2), g := (aGet a ci).g + 1, h := hEval a₂ { parent := some ci, pos := ((aGet a ci).pos.1 + mv.1, (aGet a ci).pos.2 + mv.2), g := (aGet a ci).g + 1, h := 0, f := 0, depth := (aGet a ci).depth + 1, children := [] } epos, f := (((aGet a ci).g + 1 : ℕ) : ℚ) + hEval a₂ { parent := some ci, pos := ((aGet a ci).pos.1 + mv.1, (aGet a ci).pos.2 + mv.2), g := (aGet a ci).g + 1, h := 0, f := 0, depth := (aGet a ci).depth + 1, children := [] } epos, depth := (aGet a ci).depth + 1, children := [] }).size - 1 = a.size := by rw [Array.size_push, ← hszeq]; omega
      rw [hidx, hidx₂]
      have hrel2 := c2Rel_push a a₂ hrel { parent := some ci, pos := ((aGet a ci).pos.1 + mv.1, (aGet a ci).pos.2 + mv.2), g := (aGet a ci).g + 1, h := hEval a { parent := some ci, pos := ((aGet a ci).pos.1 + mv.1, (aGet a ci).pos.2 + mv.2), g := (aGet a ci).g + 1, h := 0, f := 0, depth := (aGet a ci).depth + 1, children := [] } epos, f := (((aGet a ci).g + 1 : ℕ) : ℚ) + hEval a { parent := some ci, pos := ((aGet a ci).pos.1 + mv.1, (aGet a ci).pos.2 + mv.2), g := (aGet a ci).g + 1, h := 0, f := 0, depth := (aGet a ci).depth + 1, children := [] } epos, depth := (aGet a ci).depth + 1, children := [] } { parent := some ci, pos := ((aGet a ci).pos.1 + mv.1, (aGet a ci).pos.2 + mv.2), g := (aGet a ci).g + 1, h := hEval a₂ { parent := some ci, pos := ((aGet a ci).pos.1 + mv.1, (aGet a ci).pos.2 + mv.2), g := (aGet a ci).g + 1, h := 0, f := 0, depth := (aGet a ci).depth + 1, children := [] } epos, f := (((aGet a ci).g + 1 : ℕ) : ℚ) + hEval a₂ { parent := some ci, pos := ((aGet a ci).pos.1 + mv.1, (aGet a ci).pos.2 + mv.2), g := (aGet a ci).g + 1, h := 0, f := 0, depth := (aGet a ci).depth + 1, children := [] } epos, depth := (aGet a ci).depth + 1, children := [] } ci hci rfl rfl rfl rfl
        (by
          show ((((aGet a ci).g + 1 : ℕ) : ℚ) + hEval a { parent := some ci, pos := ((aGet a ci).pos.1 + mv.1, (aGet a ci).pos.2 + mv.2), g := (aGet a ci).g + 1, h := 0, f := 0, depth := (aGet a ci).depth + 1, children := [] } epos) = (((aGet a ci).g + 1 : ℕ) : ℚ) + hEval a₂ { parent := some ci, pos := ((aGet a ci).pos.1 + mv.1, (aGet a ci).pos.2 + mv.2), g := (aGet a ci).g + 1, h := 0, f := 0, depth := (aGet a ci).depth + 1, children := [] } epos
          rw [hveq])
        ((aGet (a₂.push { parent := some ci, pos := ((aGet a ci).pos.1 + mv.1, (aGet a ci).pos.2 + mv.2), g := (aGet a ci).g + 1, h := hEval a₂ { parent := some ci, pos := ((aGet a ci).pos.1 + mv.1, (aGet a ci).pos.2 + mv.2), g := (aGet a ci).g + 1, h := 0, f := 0, depth := (aGet a ci).depth + 1, children := [] } epos, f := (((aGet a ci).g + 1 : ℕ) : ℚ) + hEval a₂ { parent := some ci, pos := ((aGet a ci).pos.1 + mv.1, (aGet a ci).pos.2 + mv.2), g := (aGet a ci).g + 1, h := 0, f := 0, depth := (aGet a ci).depth + 1, children := [] } epos, depth := (aGet a ci).depth + 1, children := [] }) ci).children ++ [a.size])
      have hfnew := hrel2.2.2
      refine ⟨⟨?_, hrel2, ?_, ?_, ?_, ?_⟩, ?_, ?_⟩
      · exact heappush_congr _ _ hfnew l a.size (by omega) hne0
      · rw [Array.size_push]
        omega
      · intro x hx
        rcases heappush_sub2 _ _ _ x hx with h | h
        · rw [h]
          omega
        · exact hne0 x h
      · intro x hx
        rcases heappush_sub2 _ _ _ x hx with h | h
        · rw [h, Array.size_push]
          omega
        · rw [Array.size_push]
          exact Nat.lt_succ_of_lt (hlt x h)
      · intro i hi
        rcases heappush_sub2 _ _ _ i hi with h | h
        · rw [h, aGet_push_size]
          exact ⟨hbounds.1, hobs⟩
        · rw [aGet_push_lt a _ i (hlt i h)]
          exact hpass i h
      · rw [heappush_len]
      · rw [Array.size_push]
        omega
  · have hg1f : (inBounds grid ((aGet a ci).pos.1 + mv.1, (aGet a ci).pos.2 + mv.2) && (cellAt grid ((aGet a ci).pos.1 + mv.1, (aGet a ci).pos.2 + mv.2) != '1')) = false :=
      bool_eq_false _ hg1
    have hcA : (inBounds grid ((aGet a ci).pos.1 + mv.1, (aGet a ci).pos.2 + mv.2) && (cellAt grid ((aGet a ci).pos.1 + mv.1, (aGet a ci).pos.2 + mv.2) != '1') &&
        !decide (((aGet a ci).pos.1 + mv.1, (aGet a ci).pos.2 + mv.2) ∈ closed)) = false := by
      rw [hg1f]
      rfl
    rw [hcA, if_neg Bool.false_ne_true, if_neg (by simp [hg1f])]
    exact ⟨⟨rfl, hrel, hsz0, hne0, hlt, hpass⟩, Nat.le_succ _, le_refl _⟩

theorem expandBoth_foldl (grid : Grid) (epos : Pos) (hEval : HFun)
    (hpos : positional hEval) (closed : List Pos) (ci : ℕ) :
    ∀ (mvs : List (ℤ × ℤ)) (l : HeapL) (a a₂ : Arena),
      c2Rel a a₂ → c2St grid l a → ci < a.size →
      (mvs.foldl (expandMove grid epos hEval (· + 1) (fun g h => (g : ℚ) + h) closed ci)
          (l, a)).1 =
        (mvs.foldl (expandMoveSma grid epos hEval closed ci) (l, a₂)).1 ∧
      c2Rel
        (mvs.foldl (expandMove grid epos hEval (· + 1) (fun g h => (g : ℚ) + h) closed ci)
          (l, a)).2
        (mvs.foldl (expandMoveSma grid epos hEval closed ci) (l, a₂)).2 ∧
      c2St grid
        (mvs.foldl (expandMove grid epos hEval (· + 1) (fun g h => (g : ℚ) + h) closed ci)
          (l, a)).1
        (mvs.foldl (expandMove grid epos hEval (· + 1) (fun g h => (g : ℚ) + h) closed ci)
          (l, a)).2 ∧
      (mvs.foldl (expandMove grid epos hEval (· + 1) (fun g h => (g : ℚ) + h) closed ci)
          (l, a)).1.length ≤ l.length + mvs.length := by
  intro mvs
  induction mvs with
  | nil =>
    intro l a a₂ hrel hst _
    exact ⟨rfl, hrel, hst, Nat.le_refl _⟩
  | cons mv mvs ih =>
    intro l a a₂ hrel hst hci
    rw [List.foldl_cons, List.foldl_cons]
    obtain ⟨⟨hh, hrel1, hst1⟩, hlen1, hsz1⟩ :=
      expandBoth_one grid epos hEval hpos closed ci l a a₂ mv hrel hst hci
    have he : expandMoveSma grid epos hEval closed ci (l, a₂) mv =
        ((expandMove grid epos hEval (· + 1) (fun g h => (g : ℚ) + h) closed ci
          (l, a) mv).1,
         (expandMoveSma grid epos hEval closed ci (l, a₂) mv).2) := by
      rw [hh]
    rw [he]
    obtain ⟨hh2, hrel2, hst2, hlen2⟩ := ih
      (expandMove grid epos hEval (· + 1) (fun g h => (g : ℚ) + h) closed ci (l, a) mv).1
      (expandMove grid epos hEval (· + 1) (fun g h => (g : ℚ) + h) closed ci (l, a) mv).2
      (expandMoveSma grid epos hEval closed ci (l, a₂) mv).2
      hrel1 hst1 (Nat.lt_of_lt_of_le hci hsz1)
    refine ⟨hh2, hrel2, hst2, ?_⟩
    calc (mvs.foldl (expandMove grid epos hEval (· + 1) (fun g h => (g : ℚ) + h) closed ci)
          ((expandMove grid epos hEval (· + 1) (fun g h => (g : ℚ) + h) closed ci
            (l, a) mv).1,
           (expandMove grid epos hEval (· + 1) (fun g h => (g : ℚ) + h) closed ci
            (l, a) mv).2)).1.length ≤
        (expandMove grid epos hEval (· + 1) (fun g h => (g : ℚ) + h) closed ci
          (l, a) mv).1.length + mvs.length := hlen2
      _ ≤ (l.length + 1) + mvs.length := by omega
      _ = l.length + (mv :: mvs).length := by rw [List.length_cons]; omega

theorem pass_mem_finset (grid : Grid) (q : Pos)
    (hin : inBounds grid q = true) (hob : cellAt grid q ≠ '1') :
    q ∈ passableFinset grid := by
  rw [passableFinset, Finset.mem_filter]
  refine ⟨?_, hob⟩
  rw [Finset.mem_image]
  have hb : (0 ≤ q.1 ∧ q.1 < (rowsOf grid : ℤ)) ∧ 0 ≤ q.2 ∧ q.2 < (colsOf grid : ℤ) := by
    rw [inBounds] at hin
    simp only [Bool.and_eq_true, decide_eq_true_eq] at hin
    exact ⟨⟨hin.1.1.1, hin.1.1.2⟩, hin.1.2, hin.2⟩
  refine ⟨(q.1.toNat, q.2.toNat), ?_, ?_⟩
  · rw [Finset.mem_product]
    constructor
    · rw [Finset.mem_range]
      omega
    · rw [Finset.mem_range]
      omega
  · have e1 : (q.1.toNat : ℤ) = q.1 := Int.toNat_of_nonneg hb.1.1
    have e2 : (q.2.toNat : ℤ) = q.2 := Int.toNat_of_nonneg hb.2.1
    rw [Prod.ext_iff]
    exact ⟨e1, e2⟩

theorem nodup_sub_card (grid : Grid) (cl : List Pos) (hnd : cl.Nodup)
    (hsub : ∀ q ∈ cl, q ∈ passableFinset grid) :
    cl.length ≤ (passableFinset grid).card := by
  have hcard : cl.toFinset.card = cl.length := List.toFinset_card_of_nodup hnd
  rw [← hcard]
  apply Finset.card_le_card
  intro q hq
  exact hsub q (List.mem_toFinset.mp hq)

theorem smaLoop_eq_searchLoop (grid : Grid) (e : Pos) (hEval : HFun) (maxN : ℕ)
    (hpos : positional hEval)
    (hmax : 3 * (passableFinset grid).card + 1 ≤ maxN) :
    ∀ (fu : ℕ) (l : HeapL) (a a₂ : Arena) (closed : List Pos) (evs : List PruneEvent),
      c2Rel a a₂ → 0 < a.size → ((∀ x ∈ l, x ≠ 0) ∨ l = [0]) →
      (∀ x ∈ l, x < a.size) →
      (∀ i ∈ l, inBounds grid (aGet a i).pos = true ∧ cellAt grid (aGet a i).pos ≠ '1') →
      closed.Nodup →
      (∀ q ∈ closed, q ∈ passableFinset grid) →
      l.length ≤ 1 + 3 * closed.length →
      (smaLoop grid e hEval maxN fu l a₂ closed evs).1 =
        searchLoop grid e hEval (· + 1) (fun g h => (g : ℚ) + h) fu l a closed := by
  intro fu
  induction fu with
  | zero =>
    intro l a a₂ closed evs _ _ _ _ _ _ _ _
    rfl
  | succ fu ih =>
    intro l a a₂ closed evs hrel hsz0 hne0 hlt hpass hnd hsub hcnt
    cases l with
    | nil => rfl
    | cons x xs =>
      rw [smaLoop, searchLoop]
      have hclen : closed.length ≤ (passableFinset grid).card :=
        nodup_sub_card grid closed hnd hsub
      have hcnt1 : xs.length + 1 ≤ 1 + 3 * closed.length := by
        rw [List.length_cons] at hcnt
        exact hcnt
      have hnogt : ¬((x :: xs).length > maxN) := by
        rw [List.length_cons]
        omega
      have hpr : pruneStep maxN (x :: xs, a₂) = ((x :: xs, a₂), none) := by
        rw [pruneStep]
        simp only []
        rw [if_neg hnogt]
      rw [hpr]
      dsimp only
      have hpop : heappopD a (x :: xs) = heappopD a₂ (x :: xs) := by
        rcases hne0 with h | h
        · exact heappopD_congr a a₂ hrel.2.2 (x :: xs) h
        · rw [h]
          rfl
      rw [← hpop]
      rw [← (hrel.2.1 (heappopD a (x :: xs)).1).2.1]
      have hfst : (heappopD a (x :: xs)).1 ∈ x :: xs := heappop_fst_mem a x xs
      have hfsz : (heappopD a (x :: xs)).1 < a.size := hlt _ hfst
      have hp0 : ∀ y ∈ (heappopD a (x :: xs)).2, y ≠ 0 := by
        rcases hne0 with h | h
        · exact fun y hy => h y (heappopD_sub2 a x xs y hy)
        · intro y hy
          rw [h] at hy
          have he2 : (heappopD a ([0] : HeapL)).2 = [] := rfl
          rw [he2] at hy
          exact absurd hy (List.not_mem_nil y)
      have hplt : ∀ y ∈ (heappopD a (x :: xs)).2, y < a.size := fun y hy =>
        hlt y (heappopD_sub2 a x xs y hy)
      have hppass : ∀ y ∈ (heappopD a (x :: xs)).2,
          inBounds grid (aGet a y).pos = true ∧ cellAt grid (aGet a y).pos ≠ '1' :=
        fun y hy => hpass y (heappopD_sub2 a x xs y hy)
      have hplen : (heappopD a (x :: xs)).2.length = xs.length := heappopD_len a x xs
      by_cases hclm : (aGet a (heappopD a (x :: xs)).1).pos ∈ closed
      · rw [if_pos hclm, if_pos hclm]
        refine ih _ _ _ _ _ hrel hsz0 (Or.inl hp0) hplt hppass hnd hsub ?_
        rw [hplen]
        omega
      · rw [if_neg hclm, if_neg hclm]
        by_cases hgoal : (aGet a (heappopD a (x :: xs)).1).pos = e
        · rw [if_pos hgoal, if_pos hgoal]
          dsimp only
          rw [reconstruct, reconstruct]
          exact congrArg some
            ((reconstructAux_congr a a₂
              (fun j => ⟨(hrel.2.1 j).1, (hrel.2.1 j).2.1⟩) _ _ _).symm)
        · rw [if_neg hgoal, if_neg hgoal]
          obtain ⟨hh, hrelN, hstN, hlenN⟩ := expandBoth_foldl grid e hEval hpos
            ((aGet a (heappopD a (x :: xs)).1).pos :: closed)
            ((heappopD a (x :: xs)).1) moves (heappopD a (x :: xs)).2 a a₂
            hrel ⟨hsz0, hp0, hplt, hppass⟩ hfsz
          rw [← hh]
          refine ih _ _ _ _ _ hrelN hstN.1 (Or.inl hstN.2.1) hstN.2.2.1 hstN.2.2.2 ?_ ?_ ?_
          · exact List.nodup_cons.mpr ⟨hclm, hnd⟩
          · intro q hq
            rcases List.mem_cons.mp hq with h | h
            · rw [h]
              exact pass_mem_finset grid _ (hpass _ hfst).1 (hpass _ hfst).2
            · exact hsub q h
          · have hm4 : moves.length = 4 := rfl
            rw [hm4, hplen] at hlenN
            rw [List.length_cons]
            omega

theorem c2Rel_single (a a₂ : Arena) (hsz : a.size = 1) (hsz₂ : a₂.size = 1)
    (hp : (aGet a 0).parent = (aGet a₂ 0).parent)
    (hpo : (aGet a 0).pos = (aGet a₂ 0).pos)
    (hg : (aGet a 0).g = (aGet a₂ 0).g) (hd : (aGet a 0).depth = (aGet a₂ 0).depth) :
    c2Rel a a₂ := by
  refine ⟨by omega, ?_, ?_⟩
  · intro j
    cases j with
    | zero => exact ⟨hp, hpo, hg, hd⟩
    | succ m =>
      rw [aGet_oob a (m + 1) (by omega), aGet_oob a₂ (m + 1) (by omega)]
      exact ⟨rfl, rfl, rfl, rfl⟩
  · intro i hi0
    cases i with
    | zero => exact absurd rfl hi0
    | succ m =>
      rw [aGet_oob a (m + 1) (by omega), aGet_oob a₂ (m + 1) (by omega)]

theorem positional_hManhattan : positional hManhattan := by
  intro a₁ a₂ n₁ n₂ e h
  show ((manhattan_distance n₁.pos e : ℚ)) = (manhattan_distance n₂.pos e : ℚ)
  rw [h]

/-- C2 counterexample: on a grid with two Free ('0') cells but several
passable Unknown ('?') cells, running sma_star_search with max_nodes
equal to the free-cell count (2) prunes the frontier and returns a
7-step path where a_star_search returns a 5-step path on the same
instance — start (1,1) and goal (0,3) both sit on Free cells. -/
theorem c2_counterexample :
    count0 gC2 = 2 ∧ cellAt gC2 (1, 1) = '0' ∧ cellAt gC2 (0, 3) = '0' ∧
    a_star_search gC2 (1, 1) (0, 3) hManhattan =
      some [(1, 1), (2, 1), (2, 2), (2, 3), (1, 3), (0, 3)] ∧
    sma_star_search gC2 (1, 1) (0, 3) hManhattan (count0 gC2) =
      some [(1, 1), (1, 0), (2, 0), (2, 1), (2, 2), (2, 3), (1, 3), (0, 3)] := by
  refine ⟨rfl, rfl, rfl, ?_, ?_⟩
  · with_unfolding_all decide
  · with_unfolding_all decide

/-- C2 amended: if the start cell is in bounds and passable, the
heuristic reads only the queried node's position, and max_nodes is at
least 3·(number of passable cells) + 1, then sma_star_search never
prunes and returns exactly the same result as a_star_search — the
same path, hence in particular a path of identical cost. -/
theorem c2_amended (grid : Grid) (s e : Pos) (hEval : HFun) (maxN : ℕ)
    (hpos : positional hEval)
    (hs : inBounds grid s = true) (hs1 : cellAt grid s ≠ '1')
    (hmax : 3 * (passableFinset grid).card + 1 ≤ maxN) :
    sma_star_search grid s e hEval maxN = a_star_search grid s e hEval := by
  rw [sma_star_search, a_star_search]
  simp only []
  refine smaLoop_eq_searchLoop grid e hEval maxN hpos hmax (FUEL grid) [0] _ _ [] []
    ?_ ?_ ?_ ?_ ?_ ?_ ?_ ?_
  · exact c2Rel_single _ _ rfl rfl rfl rfl rfl rfl
  · exact Nat.one_pos
  · right
    rfl
  · intro x hx
    rw [List.mem_singleton.mp hx]
    exact Nat.one_pos
  · intro i hi
    rw [List.mem_singleton.mp hi]
    exact ⟨hs, hs1⟩
  · exact List.nodup_nil
  · intro q hq
    exact absurd hq (List.not_mem_nil q)
  · exact Nat.le_refl 1

/-- Witness for C2 amended: on the free 1×2 grid with max_nodes 7
(= 3·2 passable cells + 1), SMA* agrees with A*. -/
theorem c2_amended_witness :
    sma_star_search [['0', '0']] (0, 0) (0, 1) hManhattan 7 =
      a_star_search [['0', '0']] (0, 0) (0, 1) hManhattan :=
  c2_amended [['0', '0']] (0, 0) (0, 1) hManhattan 7 positional_hManhattan
    (by with_unfolding_all decide) (by with_unfolding_all decide)
    (by with_unfolding_all decide)

/-! ### C4: heap permutation lemmas -/

theorem setSelf : ∀ (l : HeapL) (n : ℕ), l.set n (hGet l n) = l := by
  intro l
  induction l with
  | nil => intro n; rfl
  | cons x xs ih =>
    intro n
    cases n with
    | zero => rfl
    | succ m =>
      show x :: xs.set m (hGet xs m) = x :: xs
      rw [ih m]

theorem hGet_set (l : HeapL) (m : ℕ) (hm : m < l.length) (v j : ℕ) :
    hGet (l.set m v) j = if j = m then v else hGet l j := by
  induction l generalizing m j with
  | nil => simp at hm
  | cons x xs ih =>
    cases m with
    | zero =>
      cases j with
      | zero => rfl
      | succ k => simp [hGet]
    | succ m2 =>
      cases j with
      | zero => simp [hGet]
      | succ k =>
        have e1 : hGet ((x :: xs).set (m2 + 1) v) (k + 1) = hGet (xs.set m2 v) k := by
          simp [hGet]
        have e2 : hGet (x :: xs) (k + 1) = hGet xs k := by simp [hGet]
        rw [e1, e2, ih m2 (by simpa using hm) k]
        by_cases hkm : k = m2
        · rw [if_pos hkm, if_pos (by omega)]
        · rw [if_neg hkm, if_neg (by omega)]

theorem hGet_append (l : HeapL) (x : ℕ) (j : ℕ) (hj : j < l.length) :
    hGet (l ++ [x]) j = hGet l j := by
  induction l generalizing j with
  | nil => simp at hj
  | cons y ys ih =>
    cases j with
    | zero => rfl
    | succ k =>
      show hGet (ys ++ [x]) k = hGet ys k
      exact ih k (by simpa using hj)

theorem cons_set_swap : ∀ (xs : List ℕ) (m : ℕ), m < xs.length → ∀ (u v : ℕ),
    (u :: xs.set m v).Perm (v :: xs.set m u) := by
  intro xs
  induction xs with
  | nil => intro m hm; simp at hm
  | cons y ys ih =>
    intro m hm u v
    cases m with
    | zero => exact List.Perm.swap v u ys
    | succ k =>
      show (u :: y :: ys.set k v).Perm (v :: y :: ys.set k u)
      have h1 : (u :: y :: ys.set k v).Perm (y :: u :: ys.set k v) :=
        List.Perm.swap y u _
      have h2 : (u :: ys.set k v).Perm (v :: ys.set k u) :=
        ih k (by simpa using hm) u v
      have h3 : (y :: u :: ys.set k v).Perm (y :: v :: ys.set k u) := h2.cons y
      have h4 : (y :: v :: ys.set k u).Perm (v :: y :: ys.set k u) :=
        List.Perm.swap v y _
      exact (h1.trans h3).trans h4

theorem swap_set_perm : ∀ (l : HeapL) (i j : ℕ), i < l.length → j < l.length →
    ∀ (v : ℕ), ((l.set i (hGet l j)).set j v).Perm (l.set i v) := by
  intro l
  induction l with
  | nil => intro i j hi _ _; simp at hi
  | cons x xs ih =>
    intro i j hi hj v
    cases i with
    | zero =>
      cases j with
      | zero => exact List.Perm.refl _
      | succ k =>
        show (hGet xs k :: xs.set k v).Perm (v :: xs)
        have h1 := cons_set_swap xs k (by simpa using hj) (hGet xs k) v
        rw [setSelf xs k] at h1
        exact h1
    | succ m =>
      cases j with
      | zero =>
        show (v :: xs.set m x).Perm (x :: xs.set m v)
        exact cons_set_swap xs m (by simpa using hi) v x
      | succ k =>
        show (x :: (xs.set m (hGet xs k)).set k v).Perm (x :: xs.set m v)
        exact (ih m k (by simpa using hi) (by simpa using hj) v).cons x

theorem siftdownLoop_perm (a : Arena) (sp it : ℕ) :
    ∀ (fu : ℕ) (l : HeapL) (pos : ℕ), pos < l.length →
      (siftdownLoop a sp it fu l pos).Perm (l.set pos it) := by
  intro fu
  induction fu with
  | zero => intro l pos _; exact List.Perm.refl _
  | succ fu ih =>
    intro l pos hpos
    rw [siftdownLoop]
    simp only []
    split
    · split
      · case isTrue hsp hlt =>
        have hpp : (pos - 1) / 2 < l.length := by omega
        have h1 := ih (l.set pos (hGet l ((pos - 1) / 2))) ((pos - 1) / 2)
          (by rw [List.length_set]; omega)
        refine h1.trans ?_
        exact swap_set_perm l pos ((pos - 1) / 2) hpos hpp it
      · exact List.Perm.refl _
    · exact List.Perm.refl _

theorem hGet_append_len : ∀ (l : HeapL) (x : ℕ), hGet (l ++ [x]) l.length = x := by
  intro l
  induction l with
  | nil => intro x; rfl
  | cons y ys ih => intro x; exact ih x

theorem heappush_perm (a : Arena) (l : HeapL) (it : ℕ) :
    (heappush a l it).Perm (it :: l) := by
  rw [heappush]
  have h1 := siftdownLoop_perm a 0 it (l.length + 1) (l ++ [it]) l.length
    (by rw [List.length_append]; simp)
  have h2 : (l ++ [it]).set l.length it = l ++ [it] := by
    have h3 := setSelf (l ++ [it]) l.length
    rw [hGet_append_len l it] at h3
    exact h3
  rw [h2] at h1
  exact h1.trans (List.perm_append_singleton it l)

theorem siftupLoop_set_perm (a : Arena) :
    ∀ (fu : ℕ) (l : HeapL) (pos : ℕ), pos < l.length → ∀ (v : ℕ),
      ((siftupLoop a fu l pos).1.set (siftupLoop a fu l pos).2 v).Perm
        (l.set pos v) := by
  intro fu
  induction fu with
  | zero => intro l pos _ v; exact List.Perm.refl _
  | succ fu ih =>
    intro l pos hpos v
    rw [siftupLoop]
    simp only []
    split
    · case isTrue hcp =>
      have hc2 : (if 2 * pos + 1 + 1 < l.length && !nodeLt a (hGet l (2 * pos + 1)) (hGet l (2 * pos + 1 + 1)) then 2 * pos + 1 + 1 else 2 * pos + 1) < l.length := by
        split
        · next hb =>
          have := (Bool.and_eq_true _ _).mp hb
          exact of_decide_eq_true this.1
        · exact hcp
      have h1 := ih (l.set pos (hGet l (if 2 * pos + 1 + 1 < l.length && !nodeLt a (hGet l (2 * pos + 1)) (hGet l (2 * pos + 1 + 1)) then 2 * pos + 1 + 1 else 2 * pos + 1))) (if 2 * pos + 1 + 1 < l.length && !nodeLt a (hGet l (2 * pos + 1)) (hGet l (2 * pos + 1 + 1)) then 2 * pos + 1 + 1 else 2 * pos + 1)
        (by rw [List.length_set]; exact hc2) v
      refine h1.trans ?_
      exact swap_set_perm l pos (if 2 * pos + 1 + 1 < l.length && !nodeLt a (hGet l (2 * pos + 1)) (hGet l (2 * pos + 1 + 1)) then 2 * pos + 1 + 1 else 2 * pos + 1) hpos hc2 v
    · exact List.Perm.refl _

theorem siftup_perm (a : Arena) (l : HeapL) (pos : ℕ) (hpos : pos < l.length) :
    (siftup a l pos).Perm l := by
  rw [siftup]
  have hs2 : (siftupLoop a l.length l pos).2 < (siftupLoop a l.length l pos).1.length := by
    rw [siftupLoop_len]
    exact siftupLoop_pos_lt a l.length l pos hpos
  have h1 := siftdownLoop_perm a pos (hGet l pos)
    ((siftupLoop a l.length l pos).1.length + 1)
    ((siftupLoop a l.length l pos).1.set (siftupLoop a l.length l pos).2 (hGet l pos))
    (siftupLoop a l.length l pos).2
    (by rw [List.length_set]; exact hs2)
  rw [List.set_set] at h1
  refine h1.trans ?_
  refine (siftupLoop_set_perm a l.length l pos hpos (hGet l pos)).trans ?_
  rw [setSelf]

theorem heappopD_perm (a : Arena) (x : ℕ) (xs : List ℕ) :
    ((heappopD a (x :: xs)).2).Perm xs := by
  cases xs with
  | nil => exact List.Perm.refl _
  | cons z ys =>
    simp only [heappopD]
    have hlen : (0 : ℕ) <
        (((x :: z :: ys).dropLast).set 0 ((x :: z :: ys).getLastD 0)).length := by
      rw [List.length_set]
      simp [List.dropLast]
    refine (siftup_perm a _ 0 hlen).trans ?_
    show ((x :: z :: ys).getLastD 0 :: ((z :: ys).dropLast)).Perm (z :: ys)
    rw [List.getLastD_cons]
    have hne : z :: ys ≠ [] := by simp
    have hgl : (z :: ys).getLastD x = (z :: ys).getLast hne := by
      rw [List.getLastD_eq_getLast?, List.getLast?_eq_getLast _ hne]
      rfl
    rw [hgl]
    have hdl : (z :: ys).dropLast ++ [(z :: ys).getLast hne] = z :: ys :=
      List.dropLast_append_getLast hne
    refine (List.perm_append_singleton _ _).symm.trans ?_
    rw [hdl]

theorem heappop_keep (a : Arena) (x : ℕ) (xs : List ℕ) (y : ℕ) (hy : y ∈ xs) :
    y ∈ (heappopD a (x :: xs)).2 :=
  ((heappopD_perm a x xs).mem_iff).mpr hy

theorem heappush_mem (a : Arena) (l : HeapL) (it y : ℕ) (hy : y = it ∨ y ∈ l) :
    y ∈ heappush a l it := by
  rw [(heappush_perm a l it).mem_iff]
  rcases hy with h | h
  · rw [h]; exact List.mem_cons_self it l
  · exact List.mem_cons_of_mem it h

/-! ### C4: CPython heap-order verification -/

theorem nodeLt_true (a : Arena) (i j : ℕ) (h : nodeLt a i j = true) :
    (aGet a i).f < (aGet a j).f := by
  rw [nodeLt] at h
  exact of_decide_eq_true h

theorem nodeLt_false (a : Arena) (i j : ℕ) (h : ¬ nodeLt a i j = true) :
    (aGet a j).f ≤ (aGet a i).f := by
  rw [nodeLt] at h
  exact le_of_not_lt (fun hc => h (decide_eq_true hc))

theorem siftdownLoop_ord (a : Arena) (it : ℕ) :
    ∀ (fu : ℕ) (l : HeapL) (pos : ℕ), pos < l.length → pos < fu →
      (∀ j, j < l.length → 0 < j → j ≠ pos → (j - 1) / 2 ≠ pos →
        (aGet a (hGet l ((j - 1) / 2))).f ≤ (aGet a (hGet l j)).f) →
      (∀ c, c < l.length → (c - 1) / 2 = pos → 0 < c →
        (aGet a it).f ≤ (aGet a (hGet l c)).f ∧
        (0 < pos → (aGet a (hGet l ((pos - 1) / 2))).f ≤ (aGet a (hGet l c)).f)) →
      heapOrd a (siftdownLoop a 0 it fu l pos) := by
  intro fu
  induction fu with
  | zero =>
    intro l pos hpos hfu
    exact absurd hfu (Nat.not_lt_zero pos)
  | succ fu ih =>
    intro l pos hpos hfu hI1 hI2
    rw [siftdownLoop]
    simp only []
    by_cases hsp : 0 < pos
    · rw [if_pos hsp]
      have hpp : (pos - 1) / 2 < l.length := by omega
      by_cases hlt : nodeLt a it (hGet l ((pos - 1) / 2)) = true
      · rw [if_pos hlt]
        have hflt := nodeLt_true a it _ hlt
        apply ih (l.set pos (hGet l ((pos - 1) / 2))) ((pos - 1) / 2)
        · rw [List.length_set]
          omega
        · omega
        · intro j hj hj0 hjp hjpp
          rw [List.length_set] at hj
          rw [hGet_set l pos hpos _ j, hGet_set l pos hpos _ ((j - 1) / 2)]
          by_cases hjpos : j = pos
          · exact absurd (by rw [hjpos]) hjpp
          · rw [if_neg hjpos]
            by_cases hjq : (j - 1) / 2 = pos
            · rw [if_pos hjq]
              exact (hI2 j hj hjq hj0).2 hsp
            · rw [if_neg hjq]
              exact hI1 j hj hj0 hjpos hjq
        · intro c hc hcpp hc0
          rw [List.length_set] at hc
          rw [hGet_set l pos hpos _ c]
          by_cases hcpos : c = pos
          · rw [if_pos hcpos]
            constructor
            · exact le_of_lt hflt
            · intro hpp0
              rw [hGet_set l pos hpos _ (((pos - 1) / 2 - 1) / 2)]
              rw [if_neg (by omega)]
              exact hI1 ((pos - 1) / 2) hpp hpp0 (by omega) (by omega)
          · rw [if_neg hcpos]
            have hcne : (c - 1) / 2 ≠ pos := by omega
            have hbase := hI1 c hc hc0 hcpos hcne
            rw [hcpp] at hbase
            constructor
            · exact le_trans (le_of_lt hflt) hbase
            · intro hpp0
              rw [hGet_set l pos hpos _ (((pos - 1) / 2 - 1) / 2)]
              rw [if_neg (by omega)]
              exact le_trans (hI1 ((pos - 1) / 2) hpp hpp0 (by omega) (by omega)) hbase
      · rw [if_neg hlt]
        have hfge := nodeLt_false a it _ hlt
        intro j hj hj0
        rw [List.length_set] at hj
        rw [hGet_set l pos hpos it j, hGet_set l pos hpos it ((j - 1) / 2)]
        by_cases hjpos : j = pos
        · rw [if_pos hjpos, if_neg (by omega)]
          rw [hjpos]
          exact hfge
        · rw [if_neg hjpos]
          by_cases hjq : (j - 1) / 2 = pos
          · rw [if_pos hjq]
            exact (hI2 j hj hjq hj0).1
          · rw [if_neg hjq]
            exact hI1 j hj hj0 hjpos hjq
    · rw [if_neg hsp]
      have hpos0 : pos = 0 := by omega
      subst hpos0
      intro j hj hj0
      rw [List.length_set] at hj
      rw [hGet_set l 0 hpos it j, hGet_set l 0 hpos it ((j - 1) / 2)]
      rw [if_neg (by omega : ¬ j = 0)]
      by_cases hjq : (j - 1) / 2 = 0
      · rw [if_pos hjq]
        exact (hI2 j hj hjq hj0).1
      · rw [if_neg hjq]
        exact hI1 j hj hj0 (by omega) hjq

theorem heappush_ord (a : Arena) (l : HeapL) (it : ℕ) (hord : heapOrd a l) :
    heapOrd a (heappush a l it) := by
  rw [heappush]
  apply siftdownLoop_ord a it (l.length + 1) (l ++ [it]) l.length
  · rw [List.length_append]
    simp
  · omega
  · intro j hj hj0 hjp hjpp
    rw [List.length_append] at hj
    have hjlen : j < l.length := by
      simp at hj
      omega
    have hpl : (j - 1) / 2 < l.length := by omega
    rw [hGet_append l it j hjlen, hGet_append l it _ hpl]
    exact hord j hjlen hj0
  · intro c hc hcp hc0
    rw [List.length_append] at hc
    simp at hc
    exact absurd hcp (by omega)

theorem siftupLoop_ord (a : Arena) :
    ∀ (fu : ℕ) (l : HeapL) (pos : ℕ), pos < l.length → l.length - pos ≤ fu →
      (∀ j, j < l.length → 0 < j → j ≠ pos → (j - 1) / 2 ≠ pos →
        (aGet a (hGet l ((j - 1) / 2))).f ≤ (aGet a (hGet l j)).f) →
      (∀ c, c < l.length → (c - 1) / 2 = pos → 0 < c → 0 < pos →
        (aGet a (hGet l ((pos - 1) / 2))).f ≤ (aGet a (hGet l c)).f) →
      (siftupLoop a fu l pos).2 < (siftupLoop a fu l pos).1.length ∧
      ¬(2 * (siftupLoop a fu l pos).2 + 1 < (siftupLoop a fu l pos).1.length) ∧
      (∀ j, j < (siftupLoop a fu l pos).1.length → 0 < j →
        j ≠ (siftupLoop a fu l pos).2 → (j - 1) / 2 ≠ (siftupLoop a fu l pos).2 →
        (aGet a (hGet (siftupLoop a fu l pos).1 ((j - 1) / 2))).f ≤
          (aGet a (hGet (siftupLoop a fu l pos).1 j)).f) ∧
      (siftupLoop a fu l pos).1.length = l.length := by
  intro fu
  induction fu with
  | zero =>
    intro l pos hpos hfu
    exact absurd hfu (by omega)
  | succ fu ih =>
    intro l pos hpos hfu hJ1 hJ2
    rw [siftupLoop]
    simp only []
    by_cases hcp : 2 * pos + 1 < l.length
    · rw [if_pos hcp]
      set c2 := (if 2 * pos + 1 + 1 < l.length && !nodeLt a (hGet l (2 * pos + 1)) (hGet l (2 * pos + 1 + 1)) then 2 * pos + 1 + 1 else 2 * pos + 1) with hc2def
      have hc2 : c2 < l.length := by
        rw [hc2def]
        split
        · next hb =>
          have := (Bool.and_eq_true _ _).mp hb
          exact of_decide_eq_true this.1
        · exact hcp
      have hc2gt : pos < c2 := by
        rw [hc2def]
        split
        · omega
        · omega
      have hc2par : (c2 - 1) / 2 = pos := by
        rw [hc2def]
        split
        · omega
        · omega
      have hmin : ∀ c, c < l.length → (c - 1) / 2 = pos → 0 < c →
          (aGet a (hGet l c2)).f ≤ (aGet a (hGet l c)).f := by
        intro c hcl hcc hc0
        have hcases : c = 2 * pos + 1 ∨ c = 2 * pos + 1 + 1 := by omega
        rw [hc2def]
        split
        · next hb =>
          have hb2 := (Bool.and_eq_true _ _).mp hb
          have hnl := nodeLt_false a (hGet l (2 * pos + 1)) (hGet l (2 * pos + 1 + 1))
            (by
              intro hcon
              rw [hcon] at hb2
              exact absurd hb2.2 (by simp))
          rcases hcases with h | h
          · rw [h]
            exact hnl
          · rw [h]
        · next hb =>
          rcases hcases with h | h
          · rw [h]
          · rw [h]
            by_cases hrp : 2 * pos + 1 + 1 < l.length
            · have hnl2 : nodeLt a (hGet l (2 * pos + 1)) (hGet l (2 * pos + 1 + 1)) = true := by
                cases hnl3 : nodeLt a (hGet l (2 * pos + 1)) (hGet l (2 * pos + 1 + 1)) with
                | true => rfl
                | false =>
                  exact absurd (by rw [decide_eq_true hrp, hnl3]; rfl) hb
              exact le_of_lt (nodeLt_true a _ _ hnl2)
            · rw [h] at hcl
              exact absurd hcl hrp
      obtain ⟨ha1, ha2, ha3, ha4⟩ := ih (l.set pos (hGet l c2)) c2
        (by rw [List.length_set]; exact hc2)
        (by rw [List.length_set]; omega)
        (by
          intro j hj hj0 hjc hjpc
          rw [List.length_set] at hj
          rw [hGet_set l pos hpos _ j, hGet_set l pos hpos _ ((j - 1) / 2)]
          by_cases hjpos : j = pos
          · rw [if_pos hjpos, if_neg (by omega)]
            rw [hjpos]
            exact hJ2 c2 hc2 hc2par (by omega) (by omega)
          · rw [if_neg hjpos]
            by_cases hjq : (j - 1) / 2 = pos
            · rw [if_pos hjq]
              exact hmin j hj hjq hj0
            · rw [if_neg hjq]
              exact hJ1 j hj hj0 hjpos hjq)
        (by
          intro c hc hcc hc0 hc2pos
          rw [List.length_set] at hc
          have hcpos : ¬ c = pos := by omega
          rw [hGet_set l pos hpos _ c, if_neg hcpos]
          rw [hGet_set l pos hpos _ ((c2 - 1) / 2)]
          rw [if_pos hc2par]
          have hb := hJ1 c hc (by omega) hcpos (by omega)
          rw [hcc] at hb
          exact hb)
      rw [List.length_set] at ha4
      exact ⟨ha1, ha2, ha3, ha4⟩
    · rw [if_neg hcp]
      exact ⟨hpos, hcp, hJ1, rfl⟩

theorem hGet_dropLast : ∀ (l : HeapL) (i : ℕ), i < l.dropLast.length →
    hGet l.dropLast i = hGet l i := by
  intro l
  induction l with
  | nil => intro i hi; simp at hi
  | cons x xs ih =>
    intro i hi
    cases xs with
    | nil => simp at hi
    | cons y ys =>
      cases i with
      | zero => rfl
      | succ k =>
        show hGet ((y :: ys).dropLast) k = hGet (y :: ys) k
        exact ih k (by simpa using hi)

theorem siftup_ord (a : Arena) (l : HeapL) (hl : 0 < l.length)
    (hI1 : ∀ j, j < l.length → 0 < j → (j - 1) / 2 ≠ 0 →
      (aGet a (hGet l ((j - 1) / 2))).f ≤ (aGet a (hGet l j)).f) :
    heapOrd a (siftup a l 0) := by
  rw [siftup]
  obtain ⟨hp2, hleaf, hJ1, hlen⟩ := siftupLoop_ord a l.length l 0 hl (by omega)
    (fun j hj hj0 hjp hjpp => hI1 j hj hj0 hjpp)
    (fun c hc hcp hc0 hpos0 => absurd hpos0 (lt_irrefl 0))
  apply siftdownLoop_ord a (hGet l 0) ((siftupLoop a l.length l 0).1.length + 1)
    ((siftupLoop a l.length l 0).1.set (siftupLoop a l.length l 0).2 (hGet l 0))
    (siftupLoop a l.length l 0).2
  · rw [List.length_set]
    exact hp2
  · omega
  · intro j hj hj0 hjp hjpp
    rw [List.length_set] at hj
    rw [hGet_set _ _ hp2 _ j, if_neg hjp, hGet_set _ _ hp2 _ ((j - 1) / 2), if_neg hjpp]
    exact hJ1 j hj hj0 hjp hjpp
  · intro c hc hcp hc0
    rw [List.length_set] at hc
    exact absurd hcp (by omega)

theorem heappopD_ord (a : Arena) (x : ℕ) (xs : List ℕ) (hord : heapOrd a (x :: xs)) :
    heapOrd a (heappopD a (x :: xs)).2 := by
  cases xs with
  | nil =>
    intro j hj hj0
    simp [heappopD] at hj
  | cons z ys =>
    simp only [heappopD]
    have hlen0 : ((x :: z :: ys).dropLast).length = ys.length + 1 := by
      simp [List.dropLast]
    apply siftup_ord a _ (by rw [List.length_set, hlen0]; omega)
    intro j hj hj0 hjpp
    rw [List.length_set] at hj
    rw [hGet_set _ _ (by rw [hlen0]; omega) _ j, if_neg (by omega)]
    rw [hGet_set _ _ (by rw [hlen0]; omega) _ ((j - 1) / 2), if_neg hjpp]
    rw [hGet_dropLast _ j hj, hGet_dropLast _ _ (by rw [hlen0] at hj ⊢; omega)]
    rw [hlen0] at hj
    exact hord j (by simp; omega) hj0

theorem heapOrd_root_min (a : Arena) (l : HeapL) (hord : heapOrd a l) :
    ∀ j, j < l.length → (aGet a (hGet l 0)).f ≤ (aGet a (hGet l j)).f := by
  intro j
  induction j using Nat.strong_induction_on with
  | _ j ih =>
    intro hj
    cases Nat.eq_zero_or_pos j with
    | inl h => rw [h]
    | inr h =>
      have hpar := hord j hj h
      exact le_trans (ih ((j - 1) / 2) (by omega) (by omega)) hpar

theorem heapOrd_head_min (a : Arena) (x : ℕ) (xs : List ℕ)
    (hord : heapOrd a (x :: xs)) (y : ℕ) (hy : y ∈ x :: xs) :
    (aGet a x).f ≤ (aGet a y).f := by
  obtain ⟨j, hjlen, hjy⟩ := List.getElem_of_mem hy
  have hroot := heapOrd_root_min a (x :: xs) hord j hjlen
  have he : hGet (x :: xs) j = y := by
    rw [hGet, List.getD_eq_getElem _ _ hjlen]
    exact hjy
  rw [he] at hroot
  exact hroot

/-! ### C4: canonical-path arithmetic -/

theorem manhattan_self (p : Pos) : manhattan_distance p p = 0 := by
  simp [manhattan_distance]

theorem manhattan_eq_zero (p q : Pos) (h : manhattan_distance p q = 0) : p = q := by
  rw [manhattan_distance] at h
  exact Prod.ext (by omega) (by omega)

theorem manhattan_triangle (p q r : Pos) :
    manhattan_distance p r ≤ manhattan_distance p q + manhattan_distance q r := by
  rw [manhattan_distance, manhattan_distance, manhattan_distance]
  omega

theorem manhattan_adj_le (s p q : Pos) (h : fourAdj p q) :
    manhattan_distance s q ≤ manhattan_distance s p + 1 := by
  rw [fourAdj] at h
  have := manhattan_triangle s p q
  omega

theorem stepTo_adj (p e : Pos) : manhattan_distance p (stepTo p e) = 1 := by
  rw [stepTo, manhattan_distance]
  split_ifs with h1 h2 h3 <;> dsimp only <;> omega

theorem stepTo_dist (p e : Pos) (h : p ≠ e) :
    manhattan_distance (stepTo p e) e + 1 = manhattan_distance p e := by
  have hc : ¬(p.1 = e.1 ∧ p.2 = e.2) := fun hc => h (Prod.ext hc.1 hc.2)
  rw [stepTo, manhattan_distance, manhattan_distance]
  split_ifs with h1 h2 h3 <;> dsimp only <;> omega

theorem pathPt_dist (s e : Pos) : ∀ t, t ≤ manhattan_distance s e →
    manhattan_distance (pathPt s e t) e = manhattan_distance s e - t := by
  intro t
  induction t with
  | zero => intro _; rfl
  | succ t ih =>
    intro ht
    have ih2 := ih (by omega)
    have hne : pathPt s e t ≠ e := by
      intro hc
      rw [hc, manhattan_self] at ih2
      omega
    have hstep := stepTo_dist (pathPt s e t) e hne
    show manhattan_distance (stepTo (pathPt s e t) e) e = _
    omega

theorem pathPt_last (s e : Pos) : pathPt s e (manhattan_distance s e) = e := by
  apply manhattan_eq_zero
  have := pathPt_dist s e (manhattan_distance s e) (le_refl _)
  omega

theorem pathPt_ne (s e : Pos) (t : ℕ) (h : t < manhattan_distance s e) :
    pathPt s e t ≠ e := by
  intro hc
  have hd := pathPt_dist s e t (by omega)
  rw [hc, manhattan_self] at hd
  omega

theorem pathPt_adj (s e : Pos) (t : ℕ) :
    fourAdj (pathPt s e t) (pathPt s e (t + 1)) := by
  show manhattan_distance (pathPt s e t) (stepTo (pathPt s e t) e) = 1
  exact stepTo_adj _ e

theorem pathPt_g (s e : Pos) : ∀ t, t ≤ manhattan_distance s e →
    manhattan_distance s (pathPt s e t) = t := by
  intro t
  induction t with
  | zero => intro _; exact manhattan_self s
  | succ t ih =>
    intro ht
    have h1 := ih (by omega)
    have h2 := manhattan_adj_le s (pathPt s e t) (pathPt s e (t + 1)) (pathPt_adj s e t)
    have h3 := manhattan_triangle s (pathPt s e (t + 1)) e
    have h4 := pathPt_dist s e (t + 1) ht
    omega

theorem pathPt_inj (s e : Pos) (t₁ t₂ : ℕ) (h1 : t₁ ≤ manhattan_distance s e)
    (h2 : t₂ ≤ manhattan_distance s e) (hne : t₁ ≠ t₂) :
    pathPt s e t₁ ≠ pathPt s e t₂ := by
  intro hc
  have d1 := pathPt_dist s e t₁ h1
  have d2 := pathPt_dist s e t₂ h2
  rw [hc] at d1
  omega

theorem stepTo_inBounds (g : Grid) (p e : Pos) (hp : inBounds g p = true)
    (he : inBounds g e = true) (hne : p ≠ e) : inBounds g (stepTo p e) = true := by
  rw [inBounds] at hp he ⊢
  simp only [Bool.and_eq_true, decide_eq_true_eq] at hp he ⊢
  have hc : ¬(p.1 = e.1 ∧ p.2 = e.2) := fun hc => hne (Prod.ext hc.1 hc.2)
  rw [stepTo]
  split_ifs with h1 h2 h3 <;> dsimp only <;> omega

theorem pathPt_inBounds (g : Grid) (s e : Pos) (hs : inBounds g s = true)
    (he : inBounds g e = true) : ∀ t, t ≤ manhattan_distance s e →
      inBounds g (pathPt s e t) = true := by
  intro t
  induction t with
  | zero => intro _; exact hs
  | succ t ih =>
    intro ht
    exact stepTo_inBounds g (pathPt s e t) e (ih (by omega)) he
      (pathPt_ne s e t (by omega))

theorem fourAdj_exists_move (p q : Pos) (h : fourAdj p q) :
    ∃ mv ∈ moves, q = (p.1 + mv.1, p.2 + mv.2) := by
  rw [fourAdj, manhattan_distance] at h
  have hcase : (q.1 = p.1 ∧ q.2 = p.2 + 1) ∨ (q.1 = p.1 ∧ q.2 = p.2 - 1) ∨
      (q.1 = p.1 + 1 ∧ q.2 = p.2) ∨ (q.1 = p.1 - 1 ∧ q.2 = p.2) := by omega
  rcases hcase with ⟨h1, h2⟩ | ⟨h1, h2⟩ | ⟨h1, h2⟩ | ⟨h1, h2⟩
  · refine ⟨(0, 1), by simp [moves], ?_⟩
    show q = (p.1 + 0, p.2 + 1)
    exact Prod.ext (by omega) (by omega)
  · refine ⟨(0, -1), by simp [moves], ?_⟩
    show q = (p.1 + 0, p.2 + -1)
    exact Prod.ext (by omega) (by omega)
  · refine ⟨(1, 0), by simp [moves], ?_⟩
    show q = (p.1 + 1, p.2 + 0)
    exact Prod.ext (by omega) (by omega)
  · refine ⟨(-1, 0), by simp [moves], ?_⟩
    show q = (p.1 + -1, p.2 + 0)
    exact Prod.ext (by omega) (by omega)

theorem obstacleFree_cellAt (g : Grid) (hf : obstacleFree g = true) (p : Pos)
    (hp : inBounds g p = true) : cellAt g p ≠ '1' := by
  rw [obstacleFree, List.all_eq_true] at hf
  rw [inBounds] at hp
  simp only [Bool.and_eq_true, decide_eq_true_eq] at hp
  obtain ⟨⟨⟨h1, h2⟩, h3⟩, h4⟩ := hp
  rw [cellAt]
  have hrl : p.1.toNat < g.length := by rw [rowsOf] at h2; omega
  have hmem : g.getD p.1.toNat [] ∈ g := by
    rw [List.getD_eq_getElem g [] hrl]
    exact List.getElem_mem hrl
  have hrowok := hf _ hmem
  rw [List.all_eq_true] at hrowok
  by_cases hcl : p.2.toNat < (g.getD p.1.toNat []).length
  · have hcm : (g.getD p.1.toNat []).getD p.2.toNat '?' ∈ g.getD p.1.toNat [] := by
      rw [List.getD_eq_getElem _ _ hcl]
      exact List.getElem_mem hcl
    have hne := hrowok _ hcm
    intro hcon
    rw [hcon] at hne
    simp at hne
  · rw [List.getD_eq_default _ _ (by omega)]
    decide

theorem passable_card_le (g : Grid) :
    (passableFinset g).card ≤ rowsOf g * colsOf g := by
  rw [passableFinset]
  refine le_trans (Finset.card_filter_le _ _) ?_
  refine le_trans Finset.card_image_le ?_
  rw [Finset.card_product, Finset.card_range, Finset.card_range]

/-! ### C4: node validity, g lower bound, reconstruction length -/

theorem g_lb (grid : Grid) (s e : Pos) (a : Arena)
    (h0 : (aGet a 0).parent = none)
    (hA : ∀ i, i < a.size → nodeOK4 grid s e a i)
    (hP : ∀ i, i < a.size → 0 < i → ∃ j, (aGet a i).parent = some j) :
    ∀ i, i < a.size → manhattan_distance s (aGet a i).pos ≤ (aGet a i).g := by
  intro i
  induction i using Nat.strong_induction_on with
  | _ i ih =>
    intro hi
    rcases Nat.eq_zero_or_pos i with hz | hpos
    · subst hz
      obtain ⟨hpos0, hg0, _⟩ := (hA 0 hi).1 h0
      rw [hpos0, hg0, manhattan_self]
    · obtain ⟨j, hj⟩ := hP i hi hpos
      obtain ⟨hji, _, hadj, hg, _⟩ := (hA i hi).2 j hj
      have hjs : j < a.size := Nat.lt_trans hji hi
      have h1 := ih j hji hjs
      have h2 := manhattan_adj_le s (aGet a j).pos (aGet a i).pos hadj
      omega

theorem reconstructAux_len (grid : Grid) (s e : Pos) (a : Arena)
    (h0 : (aGet a 0).parent = none)
    (hA : ∀ i, i < a.size → nodeOK4 grid s e a i)
    (hP : ∀ i, i < a.size → 0 < i → ∃ j, (aGet a i).parent = some j) :
    ∀ i, i < a.size → ∀ fu, i + 1 ≤ fu → ∀ acc,
      (reconstructAux a fu (some i) acc).length = (aGet a i).g + 1 + acc.length := by
  intro i
  induction i using Nat.strong_induction_on with
  | _ i ih =>
    intro hi fu hfu acc
    match fu, hfu with
    | fv + 1, hfu =>
      rw [reconstructAux]
      rcases Nat.eq_zero_or_pos i with hz | hpos
      · subst hz
        rw [h0, reconstructAux_none]
        obtain ⟨_, hg0, _⟩ := (hA 0 hi).1 h0
        rw [hg0]
        simp
        omega
      · obtain ⟨j, hj⟩ := hP i hi hpos
        obtain ⟨hji, _, _, hg, _⟩ := (hA i hi).2 j hj
        rw [hj]
        have hlen := ih j hji (Nat.lt_trans hji hi) fv (by omega)
          ((aGet a i).pos :: acc)
        rw [hlen]
        simp only [List.length_cons]
        omega

theorem reconstruct_len (grid : Grid) (s e : Pos) (a : Arena)
    (h0 : (aGet a 0).parent = none)
    (hA : ∀ i, i < a.size → nodeOK4 grid s e a i)
    (hP : ∀ i, i < a.size → 0 < i → ∃ j, (aGet a i).parent = some j)
    (i : ℕ) (hi : i < a.size) :
    (reconstruct a i).length = (aGet a i).g + 1 := by
  rw [reconstruct]
  have h := reconstructAux_len grid s e a h0 hA hP i hi (i + 1) (le_refl _) []
  rw [h]
  rfl

theorem nodeOK4_push (grid : Grid) (s e : Pos) (a : Arena) (n : SNode) (i : ℕ)
    (hi : i < a.size) (h : nodeOK4 grid s e a i) : nodeOK4 grid s e (a.push n) i := by
  obtain ⟨h1, h2⟩ := h
  have ei : aGet (a.push n) i = aGet a i := aGet_push_lt a n i hi
  constructor
  · rw [ei]; exact h1
  · intro j hp
    rw [ei] at hp
    obtain ⟨hj, hin, hadj, hg, hf⟩ := h2 j hp
    have ej : aGet (a.push n) j = aGet a j := aGet_push_lt a n j (Nat.lt_trans hj hi)
    rw [ei, ej]
    exact ⟨hj, hin, hadj, hg, hf⟩

theorem nodeOK4_push_new (grid : Grid) (s e : Pos) (a : Arena) (n : SNode) (ci : ℕ)
    (hp : n.parent = some ci) (hci : ci < a.size)
    (hin : inBounds grid n.pos = true) (hadj : fourAdj (aGet a ci).pos n.pos)
    (hg : n.g = (aGet a ci).g + 1)
    (hf : n.f = (n.g : ℚ) + (manhattan_distance n.pos e : ℚ)) :
    nodeOK4 grid s e (a.push n) a.size := by
  have en : aGet (a.push n) a.size = n := aGet_push_size a n
  constructor
  · intro hcon
    rw [en, hp] at hcon
    exact Option.noConfusion hcon
  · intro j hj
    rw [en, hp] at hj
    have hjc : j = ci := by
      injection hj with hj2
      omega
    subst hjc
    have ej : aGet (a.push n) j = aGet a j := aGet_push_lt a n j hci
    rw [en, ej]
    exact ⟨hci, hin, hadj, hg, hf⟩

theorem heapOrd_push (a : Arena) (n : SNode) (l : HeapL)
    (hlt : ∀ x ∈ l, x < a.size) (hord : heapOrd a l) : heapOrd (a.push n) l := by
  intro j hj hj0
  have hm1 : hGet l j ∈ l := hGet_mem_of_lt l j hj
  have hm2 : hGet l ((j - 1) / 2) ∈ l := hGet_mem_of_lt l _ (by omega)
  rw [aGet_push_lt a n _ (hlt _ hm1), aGet_push_lt a n _ (hlt _ hm2)]
  exact hord j hj hj0

/-! ### C4: A* expansion preserves the optimality invariants -/

theorem expandMove4_step (grid : Grid) (s e : Pos) (closed : List Pos) (ci : ℕ)
    (st : HeapL × Arena) (mv : ℤ × ℤ) (hmv : mv ∈ moves) (out : HeapL × Arena)
    (hout : out = expandMove grid e hManhattan (· + 1) (fun g h => (g : ℚ) + h) closed ci st mv)
    (hci : ci < st.2.size) (h0 : 0 < st.2.size)
    (hne : ∀ x ∈ st.1, x ≠ 0)
    (hlt : ∀ x ∈ st.1, x < st.2.size)
    (hA : ∀ i, i < st.2.size → nodeOK4 grid s e st.2 i)
    (hPar : ∀ i, i < st.2.size → 0 < i → ∃ j, (aGet st.2 i).parent = some j)
    (hord : heapOrd st.2 st.1) :
    0 < out.2.size ∧ st.2.size ≤ out.2.size ∧
    (∀ j, j < st.2.size → aGet out.2 j = aGet st.2 j) ∧
    (∀ x ∈ out.1, x ≠ 0) ∧ (∀ x ∈ out.1, x < out.2.size) ∧
    (∀ i, i < out.2.size → nodeOK4 grid s e out.2 i) ∧
    (∀ i, i < out.2.size → 0 < i → ∃ j, (aGet out.2 i).parent = some j) ∧
    heapOrd out.2 out.1 ∧
    (∀ y ∈ st.1, y ∈ out.1) ∧
    out.1.length ≤ st.1.length + 1 ∧
    ((inBounds grid ((aGet st.2 ci).pos.1 + mv.1, (aGet st.2 ci).pos.2 + mv.2) && (cellAt grid ((aGet st.2 ci).pos.1 + mv.1, (aGet st.2 ci).pos.2 + mv.2) != '1') && !(decide (((aGet st.2 ci).pos.1 + mv.1, (aGet st.2 ci).pos.2 + mv.2) ∈ closed))) = true →
      ∃ idx ∈ out.1, (aGet out.2 idx).pos = ((aGet st.2 ci).pos.1 + mv.1, (aGet st.2 ci).pos.2 + mv.2) ∧
        (aGet out.2 idx).g = (aGet st.2 ci).g + 1) := by
  rw [expandMove] at hout
  simp only [] at hout
  split at hout
  · next hguard =>
    have hob : cellAt grid ((aGet st.2 ci).pos.1 + mv.1, (aGet st.2 ci).pos.2 + mv.2) ≠ '1' := by
      simp only [Bool.and_eq_true, bne_iff_ne, ne_eq] at hguard
      exact hguard.1.2
    have hin : inBounds grid ((aGet st.2 ci).pos.1 + mv.1, (aGet st.2 ci).pos.2 + mv.2) = true := by
      simp only [Bool.and_eq_true] at hguard
      exact hguard.1.1
    refine ⟨?_, ?_, ?_, ?_, ?_, ?_, ?_, ?_, ?_, ?_, ?_⟩
    · rw [hout]
      dsimp only
      rw [Array.size_push]
      omega
    · rw [hout]
      dsimp only
      rw [Array.size_push]
      omega
    · intro j hj
      rw [hout]
      dsimp only
      exact aGet_push_lt _ _ j hj
    · intro x hx
      rw [hout] at hx
      dsimp only at hx
      rw [(heappush_perm _ _ _).mem_iff] at hx
      rcases List.mem_cons.mp hx with hx | hx
      · rw [Array.size_push] at hx
        omega
      · exact hne x hx
    · intro x hx
      rw [hout] at hx ⊢
      dsimp only at hx ⊢
      rw [(heappush_perm _ _ _).mem_iff] at hx
      rw [Array.size_push]
      rcases List.mem_cons.mp hx with hx | hx
      · rw [Array.size_push] at hx
        omega
      · have := hlt x hx
        omega
    · intro i hi
      rw [hout] at hi ⊢
      dsimp only at hi ⊢
      rw [Array.size_push] at hi
      rcases Nat.lt_or_ge i st.2.size with hi2 | hi2
      · exact nodeOK4_push grid s e st.2 _ i hi2 (hA i hi2)
      · have hieq : i = st.2.size := by omega
        subst hieq
        apply nodeOK4_push_new grid s e st.2 _ ci rfl hci hin
          (fourAdj_move (aGet st.2 ci).pos mv hmv) rfl rfl
    · intro i hi hpos
      rw [hout] at hi ⊢
      dsimp only at hi ⊢
      rw [Array.size_push] at hi
      rcases Nat.lt_or_ge i st.2.size with hi2 | hi2
      · rw [aGet_push_lt _ _ i hi2]
        exact hPar i hi2 hpos
      · have hieq : i = st.2.size := by omega
        subst hieq
        exact ⟨ci, by rw [aGet_push_size]⟩
    · rw [hout]
      dsimp only
      exact heappush_ord _ st.1 _ (heapOrd_push st.2 _ st.1 hlt hord)
    · intro y hy
      rw [hout]
      dsimp only
      exact heappush_mem _ _ _ y (Or.inr hy)
    · rw [hout]
      dsimp only
      rw [(heappush_perm _ _ _).length_eq]
      simp
    · intro _
      refine ⟨st.2.size, ?_, ?_, ?_⟩
      · rw [hout]
        dsimp only
        apply heappush_mem
        left
        rw [Array.size_push]
        omega
      · rw [hout]
        dsimp only
        rw [aGet_push_size]
      · rw [hout]
        dsimp only
        rw [aGet_push_size]
  · next hguard =>
    subst hout
    exact ⟨h0, le_refl _, fun j _ => rfl, hne, hlt, hA, hPar, hord,
      fun y hy => hy, by omega, fun hg2 => absurd hg2 hguard⟩

theorem expandMove4_foldl (grid : Grid) (s e : Pos) (closed : List Pos) (ci : ℕ) :
    ∀ (mvs : List (ℤ × ℤ)), (∀ mv ∈ mvs, mv ∈ moves) →
      ∀ (st out : HeapL × Arena),
      out = mvs.foldl (expandMove grid e hManhattan (· + 1) (fun g h => (g : ℚ) + h) closed ci) st →
      ci < st.2.size → 0 < st.2.size →
      (∀ x ∈ st.1, x ≠ 0) → (∀ x ∈ st.1, x < st.2.size) →
      (∀ i, i < st.2.size → nodeOK4 grid s e st.2 i) →
      (∀ i, i < st.2.size → 0 < i → ∃ j, (aGet st.2 i).parent = some j) →
      heapOrd st.2 st.1 →
      (0 < out.2.size ∧ st.2.size ≤ out.2.size ∧
       (∀ j, j < st.2.size → aGet out.2 j = aGet st.2 j) ∧
       (∀ x ∈ out.1, x ≠ 0) ∧ (∀ x ∈ out.1, x < out.2.size) ∧
       (∀ i, i < out.2.size → nodeOK4 grid s e out.2 i) ∧
       (∀ i, i < out.2.size → 0 < i → ∃ j, (aGet out.2 i).parent = some j) ∧
       heapOrd out.2 out.1 ∧
       (∀ y ∈ st.1, y ∈ out.1) ∧
       out.1.length ≤ st.1.length + mvs.length ∧
       (∀ m ∈ mvs, (inBounds grid ((aGet st.2 ci).pos.1 + m.1, (aGet st.2 ci).pos.2 + m.2) && (cellAt grid ((aGet st.2 ci).pos.1 + m.1, (aGet st.2 ci).pos.2 + m.2) != '1') && !(decide (((aGet st.2 ci).pos.1 + m.1, (aGet st.2 ci).pos.2 + m.2) ∈ closed))) = true →
         ∃ idx ∈ out.1, (aGet out.2 idx).pos = ((aGet st.2 ci).pos.1 + m.1, (aGet st.2 ci).pos.2 + m.2) ∧
           (aGet out.2 idx).g = (aGet st.2 ci).g + 1)) := by
  intro mvs
  induction mvs with
  | nil =>
    intro _ st out hout hci h0 hne hlt hA hPar hord
    rw [List.foldl_nil] at hout
    subst hout
    refine ⟨h0, le_refl _, fun j _ => rfl, hne, hlt, hA, hPar, hord,
      fun y hy => hy, by omega, ?_⟩
    intro m hm
    exact absurd hm (List.not_mem_nil m)
  | cons mv mvs ih =>
    intro hsub st out hout hci h0 hne hlt hA hPar hord
    rw [List.foldl_cons] at hout
    obtain ⟨s1, s2, s3, s4, s5, s6, s7, s8, s9, s10, s11⟩ :=
      expandMove4_step grid s e closed ci st mv (hsub mv (List.mem_cons_self mv mvs))
        (expandMove grid e hManhattan (· + 1) (fun g h => (g : ℚ) + h) closed ci st mv) rfl hci h0 hne hlt hA hPar hord
    obtain ⟨i1, i2, i3, i4, i5, i6, i7, i8, i9, i10, i11⟩ :=
      ih (fun m hm => hsub m (List.mem_cons_of_mem mv hm)) _ out hout
        (Nat.lt_of_lt_of_le hci s2) s1 s4 s5 s6 s7 s8
    refine ⟨i1, le_trans s2 i2, ?_, i4, i5, i6, i7, i8, ?_, ?_, ?_⟩
    · intro j hj
      rw [i3 j (Nat.lt_of_lt_of_le hj s2), s3 j hj]
    · intro y hy
      exact i9 y (s9 y hy)
    · rw [List.length_cons]
      omega
    · intro m hm hguard
      rcases List.mem_cons.mp hm with hmeq | hmtl
      · subst hmeq
        obtain ⟨idx, hidx, hpos, hg⟩ := s11 hguard
        have hidlt : idx < (expandMove grid e hManhattan (· + 1) (fun g h => (g : ℚ) + h) closed ci st m).2.size := s5 idx hidx
        refine ⟨idx, i9 idx hidx, ?_, ?_⟩
        · rw [i3 idx hidlt]
          exact hpos
        · rw [i3 idx hidlt]
          exact hg
      · have hci1 : ci < (expandMove grid e hManhattan (· + 1) (fun g h => (g : ℚ) + h) closed ci st mv).2.size := Nat.lt_of_lt_of_le hci s2
        obtain ⟨idx, hidx, hpos, hg⟩ := i11 m hmtl (by rw [s3 ci hci]; exact hguard)
        rw [s3 ci hci] at hpos hg
        exact ⟨idx, hidx, hpos, hg⟩

/-! ### C4: the A* loop returns an optimal path on obstacle-free grids -/

theorem heappopD_fst (a : Arena) (x : ℕ) (xs : List ℕ) :
    (heappopD a (x :: xs)).1 = x := by
  cases xs with
  | nil => rfl
  | cons z ys => rfl

theorem searchLoop_c4 (grid : Grid) (s e : Pos)
    (hfree : obstacleFree grid = true)
    (hse : inBounds grid s = true) (hee : inBounds grid e = true) :
    ∀ (fu : ℕ) (l : HeapL) (a : Arena) (closed : List Pos),
      c4Inv grid s e l a closed →
      l.length + 5 * (rowsOf grid * colsOf grid - closed.length) + 1 ≤ fu →
      ∃ p, searchLoop grid e hManhattan (· + 1) (fun g h => (g : ℚ) + h) fu l a closed
          = some p ∧ p.length = manhattan_distance s e + 1 := by
  intro fu
  induction fu with
  | zero =>
    intro l a closed _ hfu
    exact absurd hfu (by omega)
  | succ fu ih =>
    intro l a closed hinv hfu
    obtain ⟨ha0, hpar0, hpos0, hne0, hltsz, hA, hP, hord, hnd, hclb, henc,
      r, hrD, ⟨iw, hiw, hiwpos, hiwg⟩, hunv⟩ := hinv
    have hRC : 1 ≤ rowsOf grid * colsOf grid := by
      rw [inBounds] at hse
      simp only [Bool.and_eq_true, decide_eq_true_eq] at hse
      have h1 : 1 ≤ rowsOf grid := by omega
      have h2 : 1 ≤ colsOf grid := by omega
      simpa using Nat.mul_le_mul h1 h2
    cases l with
    | nil => exact absurd hiw (List.not_mem_nil iw)
    | cons x xs =>
      rw [searchLoop]
      simp only []
      rw [heappopD_fst]
      have hx : x ∈ x :: xs := List.mem_cons_self x xs
      have hxsz : x < a.size := hltsz x hx
      rcases hne0 with hne0 | ⟨hl0, hcl0⟩
      · -- every heap entry is a non-root node
        by_cases hskip : (aGet a x).pos ∈ closed
        · rw [if_pos hskip]
          have hiwne : iw ≠ x := by
            intro hc
            rw [hc] at hiwpos
            rw [hiwpos] at hskip
            exact hunv r (le_refl r) hrD hskip
          have hiwxs : iw ∈ xs := by
            rcases List.mem_cons.mp hiw with h | h
            · exact absurd h hiwne
            · exact h
          apply ih
          · refine ⟨ha0, hpar0, hpos0, Or.inl ?_, ?_, hA, hP,
              heappopD_ord a x xs hord, hnd, hclb, henc, r, hrD,
              ⟨iw, heappop_keep a x xs iw hiwxs, hiwpos, hiwg⟩, hunv⟩
            · intro y hy
              exact hne0 y (heappopD_sub2 a x xs y hy)
            · intro y hy
              exact hltsz y (heappopD_sub2 a x xs y hy)
          · rw [heappopD_len]
            rw [List.length_cons] at hfu
            omega
        · rw [if_neg hskip]
          have hxne : x ≠ 0 := hne0 x hx
          obtain ⟨jx, hjx⟩ := hP x hxsz (Nat.pos_of_ne_zero hxne)
          obtain ⟨hjxlt, hxin, hxadj, hxg, hxf⟩ := (hA x hxsz).2 jx hjx
          have hiwne : iw ≠ 0 := hne0 iw hiw
          have hiwsz : iw < a.size := hltsz iw hiw
          obtain ⟨jw, hjw⟩ := hP iw hiwsz (Nat.pos_of_ne_zero hiwne)
          obtain ⟨hjw1, hjw2, hjw3, hjw4, hwf⟩ := (hA iw hiwsz).2 jw hjw
          have hfiw : (aGet a iw).f = (manhattan_distance s e : ℚ) := by
            rw [hwf, hiwg, hiwpos, pathPt_dist s e r hrD, Nat.cast_sub hrD]
            ring
          have hfle : (aGet a x).f ≤ (aGet a iw).f := heapOrd_head_min a x xs hord iw hiw
          have hgub : ((aGet a x).g : ℚ) + (manhattan_distance (aGet a x).pos e : ℚ) ≤
              (manhattan_distance s e : ℚ) := by
            rw [← hxf, ← hfiw]
            exact hfle
          have hglb : manhattan_distance s (aGet a x).pos ≤ (aGet a x).g :=
            g_lb grid s e a hpar0 hA hP x hxsz
          by_cases hgoal : (aGet a x).pos = e
          · rw [if_pos hgoal]
            refine ⟨reconstruct a x, rfl, ?_⟩
            rw [reconstruct_len grid s e a hpar0 hA hP x hxsz]
            have h1 : manhattan_distance s e ≤ (aGet a x).g := by
              rw [← hgoal]
              exact hglb
            have h2 : (aGet a x).g ≤ manhattan_distance s e := by
              rw [hgoal, manhattan_self, Nat.cast_zero, add_zero] at hgub
              exact_mod_cast hgub
            omega
          · rw [if_neg hgoal]
            have hp2ne : ∀ y ∈ (heappopD a (x :: xs)).2, y ≠ 0 :=
              fun y hy => hne0 y (heappopD_sub2 a x xs y hy)
            have hp2lt : ∀ y ∈ (heappopD a (x :: xs)).2, y < a.size :=
              fun y hy => hltsz y (heappopD_sub2 a x xs y hy)
            obtain ⟨i1, i2, i3, i4, i5, i6, i7, i8, i9, i10, i11⟩ :=
              expandMove4_foldl grid s e ((aGet a x).pos :: closed) x moves
                (fun m hm => hm) ((heappopD a (x :: xs)).2, a) _ rfl hxsz ha0
                hp2ne hp2lt hA hP (heappopD_ord a x xs hord)
            dsimp only at i2 i3 i9 i10 i11
            apply ih
            · refine ⟨i1, ?_, ?_, Or.inl i4, i5, i6, i7, i8, ?_, ?_, ?_, ?_⟩
              · rw [i3 0 ha0]
                exact hpar0
              · rw [i3 0 ha0]
                exact hpos0
              · exact List.nodup_cons.mpr ⟨hskip, hnd⟩
              · intro q hq
                rcases List.mem_cons.mp hq with h | h
                · rw [h]
                  exact hxin
                · exact hclb q h
              · intro hc
                rcases List.mem_cons.mp hc with h | h
                · exact hgoal h.symm
                · exact henc h
              · by_cases ht0 : ∃ t₀, r ≤ t₀ ∧ t₀ ≤ manhattan_distance s e ∧
                    (aGet a x).pos = pathPt s e t₀
                · obtain ⟨t₀, hrt0, ht0D, hcp⟩ := ht0
                  have ht0lt : t₀ < manhattan_distance s e := by
                    rcases Nat.eq_or_lt_of_le ht0D with h | h
                    · exfalso
                      apply hgoal
                      rw [hcp, h, pathPt_last]
                    · exact h
                  have hgx : (aGet a x).g = t₀ := by
                    have hlow : t₀ ≤ (aGet a x).g := by
                      have hq := hglb
                      rw [hcp, pathPt_g s e t₀ ht0D] at hq
                      exact hq
                    have hup : (aGet a x).g ≤ t₀ := by
                      have hd : (manhattan_distance (aGet a x).pos e : ℚ) =
                          ((manhattan_distance s e - t₀ : ℕ) : ℚ) := by
                        rw [hcp, pathPt_dist s e t₀ ht0D]
                      rw [hd, Nat.cast_sub ht0D] at hgub
                      have hq : ((aGet a x).g : ℚ) ≤ (t₀ : ℚ) := by linarith
                      exact_mod_cast hq
                    omega
                  obtain ⟨mv, hmv, hnp⟩ := fourAdj_exists_move (pathPt s e t₀)
                    (pathPt s e (t₀ + 1)) (pathPt_adj s e t₀)
                  have hnp2 : ((aGet a x).pos.1 + mv.1, (aGet a x).pos.2 + mv.2) =
                      pathPt s e (t₀ + 1) := by
                    rw [hcp]
                    exact hnp.symm
                  have hginB : inBounds grid (pathPt s e (t₀ + 1)) = true :=
                    pathPt_inBounds grid s e hse hee (t₀ + 1) (by omega)
                  have hgcell : cellAt grid (pathPt s e (t₀ + 1)) ≠ '1' :=
                    obstacleFree_cellAt grid hfree _ hginB
                  have hgnotin : pathPt s e (t₀ + 1) ∉ (aGet a x).pos :: closed := by
                    intro hc
                    rcases List.mem_cons.mp hc with h | h
                    · rw [hcp] at h
                      exact pathPt_inj s e (t₀ + 1) t₀ (by omega) ht0D (by omega) h
                    · exact hunv (t₀ + 1) (by omega) (by omega) h
                  have hguard : (inBounds grid ((aGet a x).pos.1 + mv.1, (aGet a x).pos.2 + mv.2) &&
                      (cellAt grid ((aGet a x).pos.1 + mv.1, (aGet a x).pos.2 + mv.2) != '1') &&
                      !(decide (((aGet a x).pos.1 + mv.1, (aGet a x).pos.2 + mv.2) ∈
                        (aGet a x).pos :: closed))) = true := by
                    rw [hnp2]
                    simp only [Bool.and_eq_true, bne_iff_ne, ne_eq, Bool.not_eq_true',
                      decide_eq_false_iff_not]
                    exact ⟨⟨hginB, hgcell⟩, hgnotin⟩
                  obtain ⟨idx, hidxmem, hidxpos, hidxg⟩ := i11 mv hmv hguard
                  refine ⟨t₀ + 1, by omega, ⟨idx, hidxmem, ?_, ?_⟩, ?_⟩
                  · rw [hidxpos, hnp2]
                  · rw [hidxg, hgx]
                  · intro t hts htD hc
                    rcases List.mem_cons.mp hc with h | h
                    · rw [hcp] at h
                      exact pathPt_inj s e t t₀ htD ht0D (by omega) h
                    · exact hunv t (by omega) htD h
                · have hiwx : iw ≠ x := by
                    intro hc
                    apply ht0
                    refine ⟨r, le_refl r, hrD, ?_⟩
                    rw [← hc]
                    exact hiwpos
                  have hiwxs : iw ∈ xs := by
                    rcases List.mem_cons.mp hiw with h | h
                    · exact absurd h hiwx
                    · exact h
                  have hiwp2 : iw ∈ (heappopD a (x :: xs)).2 :=
                    heappop_keep a x xs iw hiwxs
                  refine ⟨r, hrD, ⟨iw, i9 iw hiwp2, ?_, ?_⟩, ?_⟩
                  · rw [i3 iw hiwsz]
                    exact hiwpos
                  · rw [i3 iw hiwsz]
                    exact hiwg
                  · intro t hts htD hc
                    rcases List.mem_cons.mp hc with h | h
                    · exact ht0 ⟨t, hts, htD, h.symm⟩
                    · exact hunv t hts htD h
            · have hcl1 : closed.length + 1 ≤ rowsOf grid * colsOf grid := by
                have hsub : ∀ q ∈ (aGet a x).pos :: closed, q ∈ passableFinset grid := by
                  intro q hq
                  rcases List.mem_cons.mp hq with h | h
                  · rw [h]
                    exact pass_mem_finset grid _ hxin (obstacleFree_cellAt grid hfree _ hxin)
                  · exact pass_mem_finset grid q (hclb q h)
                      (obstacleFree_cellAt grid hfree q (hclb q h))
                have hnd1 : ((aGet a x).pos :: closed).Nodup := List.nodup_cons.mpr ⟨hskip, hnd⟩
                have hcard := nodup_sub_card grid _ hnd1 hsub
                have hple := passable_card_le grid
                simp only [List.length_cons] at hcard
                omega
              have hlen1 := i10
              rw [heappopD_len] at hlen1
              have hm4 : moves.length = 4 := rfl
              rw [hm4] at hlen1
              rw [List.length_cons] at hfu
              simp only [List.length_cons]
              omega
      · -- first iteration: the heap is exactly the start node
        injection hl0 with hx0 hxs0
        subst hx0
        subst hxs0
        subst hcl0
        rw [if_neg (List.not_mem_nil _)]
        by_cases hgoal : (aGet a 0).pos = e
        · rw [if_pos hgoal]
          refine ⟨reconstruct a 0, rfl, ?_⟩
          rw [reconstruct_len grid s e a hpar0 hA hP 0 ha0]
          obtain ⟨hps, hg0, _⟩ := (hA 0 ha0).1 hpar0
          rw [hg0]
          have hse2 : s = e := by
            rw [← hps, hgoal]
          rw [hse2, manhattan_self]
        · rw [if_neg hgoal]
          obtain ⟨hps, hg0, _⟩ := (hA 0 ha0).1 hpar0
          have hDpos : 0 < manhattan_distance s e := by
            rcases Nat.eq_zero_or_pos (manhattan_distance s e) with h | h
            · exfalso
              apply hgoal
              rw [hps]
              exact manhattan_eq_zero s e h
            · exact h
          have hpop2 : (heappopD a [0]).2 = ([] : HeapL) := rfl
          rw [hpop2]
          obtain ⟨i1, i2, i3, i4, i5, i6, i7, i8, i9, i10, i11⟩ :=
            expandMove4_foldl grid s e ((aGet a 0).pos :: []) 0 moves
              (fun m hm => hm) (([] : HeapL), a) _ rfl ha0 ha0
              (fun y hy => absurd hy (List.not_mem_nil y))
              (fun y hy => absurd hy (List.not_mem_nil y)) hA hP
              (by intro j hj _; simp at hj)
          dsimp only at i2 i3 i9 i10 i11
          apply ih
          · refine ⟨i1, ?_, ?_, Or.inl i4, i5, i6, i7, i8, ?_, ?_, ?_, ?_⟩
            · rw [i3 0 ha0]
              exact hpar0
            · rw [i3 0 ha0]
              exact hpos0
            · simp
            · intro q hq
              rcases List.mem_cons.mp hq with h | h
              · rw [h, hps]
                exact hse
              · exact absurd h (List.not_mem_nil q)
            · intro hc
              rcases List.mem_cons.mp hc with h | h
              · exact hgoal h.symm
              · exact absurd h (List.not_mem_nil e)
            · obtain ⟨mv, hmv, hnp⟩ := fourAdj_exists_move (pathPt s e 0)
                (pathPt s e 1) (pathPt_adj s e 0)
              have hp0 : pathPt s e 0 = s := rfl
              rw [hp0] at hnp
              have hnp2 : ((aGet a 0).pos.1 + mv.1, (aGet a 0).pos.2 + mv.2) =
                  pathPt s e 1 := by
                rw [hps]
                exact hnp.symm
              have hginB : inBounds grid (pathPt s e 1) = true :=
                pathPt_inBounds grid s e hse hee 1 (by omega)
              have hgcell : cellAt grid (pathPt s e 1) ≠ '1' :=
                obstacleFree_cellAt grid hfree _ hginB
              have hgnotin : pathPt s e 1 ∉ (aGet a 0).pos :: ([] : List Pos) := by
                intro hc
                rcases List.mem_cons.mp hc with h | h
                · rw [hps] at h
                  rw [← hp0] at h
                  exact pathPt_inj s e 1 0 (by omega) (by omega) (by omega) h
                · exact absurd h (List.not_mem_nil _)
              have hguard : (inBounds grid ((aGet a 0).pos.1 + mv.1, (aGet a 0).pos.2 + mv.2) &&
                  (cellAt grid ((aGet a 0).pos.1 + mv.1, (aGet a 0).pos.2 + mv.2) != '1') &&
                  !(decide (((aGet a 0).pos.1 + mv.1, (aGet a 0).pos.2 + mv.2) ∈
                    (aGet a 0).pos :: ([] : List Pos)))) = true := by
                rw [hnp2]
                simp only [Bool.and_eq_true, bne_iff_ne, ne_eq, Bool.not_eq_true',
                  decide_eq_false_iff_not]
                exact ⟨⟨hginB, hgcell⟩, hgnotin⟩
              obtain ⟨idx, hidxmem, hidxpos, hidxg⟩ := i11 mv hmv hguard
              refine ⟨1, by omega, ⟨idx, hidxmem, ?_, ?_⟩, ?_⟩
              · rw [hidxpos, hnp2]
              · rw [hidxg, hg0]
              · intro t hts htD hc
                rcases List.mem_cons.mp hc with h | h
                · rw [hps] at h
                  rw [← hp0] at h
                  exact pathPt_inj s e t 0 htD (by omega) (by omega) h
                · exact absurd h (List.not_mem_nil _)
          · have hlen1 := i10
            have hm4 : moves.length = 4 := rfl
            rw [hm4] at hlen1
            simp only [List.length_cons, List.length_nil] at hfu hlen1 ⊢
            omega

/-- C4 counterexample: on the obstacle-free 1×2 grid with start (0,0)
and goal (0,1), a_star_search returns the path [(0,0), (0,1)], whose
length is 2, while the Manhattan distance between start and goal is 1:
the returned path always has one more element than the number of steps,
so its length is the Manhattan distance plus one, not the Manhattan
distance. -/
theorem c4_counterexample :
    a_star_search [['0', '0']] (0, 0) (0, 1) hManhattan = some [(0, 0), (0, 1)] ∧
    obstacleFree [['0', '0']] = true ∧
    inBounds [['0', '0']] (0, 0) = true ∧ inBounds [['0', '0']] (0, 1) = true ∧
    ([(0, 0), (0, 1)] : List Pos).length ≠ manhattan_distance (0, 0) (0, 1) := by
  refine ⟨?_, by decide, by decide, by decide, by decide⟩
  with_unfolding_all decide

/-- C4 (amended): for every grid containing no obstacle cells and every
start and goal within its bounds, a_star_search with the Manhattan
heuristic returns a path, and that path's length (number of positions)
equals the Manhattan distance between start and goal plus one — i.e.
the path takes exactly manhattan_distance(start, goal) steps, which is
optimal. -/
theorem c4_amended (grid : Grid) (s e : Pos)
    (hfree : obstacleFree grid = true)
    (hs : inBounds grid s = true) (he : inBounds grid e = true) :
    ∃ p, a_star_search grid s e hManhattan = some p ∧
      p.length = manhattan_distance s e + 1 := by
  rw [a_star_search]
  apply searchLoop_c4 grid s e hfree hs he (FUEL grid) [0] #[{ parent := none, pos := s, g := 0, h := 0, f := 0, depth := 0, children := [] }] []
  · refine ⟨Nat.one_pos, rfl, rfl, Or.inr ⟨rfl, rfl⟩, ?_, ?_, ?_, ?_,
      List.nodup_nil, ?_, List.not_mem_nil e, 0, Nat.zero_le _,
      ⟨0, List.mem_singleton.mpr rfl, rfl, rfl⟩, ?_⟩
    · intro y hy
      rw [List.mem_singleton.mp hy]
      exact Nat.one_pos
    · intro i hi
      have h0 : i = 0 := by
        have : (#[{ parent := none, pos := s, g := 0, h := 0, f := 0, depth := 0, children := [] }] : Arena).size = 1 := rfl
        omega
      subst h0
      constructor
      · intro _
        exact ⟨rfl, rfl, rfl⟩
      · intro j hj
        exact Option.noConfusion hj
    · intro i hi hpos
      have h0 : i = 0 := by
        have : (#[{ parent := none, pos := s, g := 0, h := 0, f := 0, depth := 0, children := [] }] : Arena).size = 1 := rfl
        omega
      omega
    · intro j hj hj0
      simp at hj
      omega
    · intro q hq
      exact absurd hq (List.not_mem_nil q)
    · intro t _ _
      exact List.not_mem_nil _
  · rw [FUEL]
    have hassoc : 5 * rowsOf grid * colsOf grid = 5 * (rowsOf grid * colsOf grid) := by
      ring
    rw [hassoc]
    simp only [List.length_singleton, List.length_nil]
    omega

/-- C4 amended witness: on the obstacle-free 1×2 grid with in-bounds
start (0,0) and goal (0,1), a_star_search returns a path of length
manhattan_distance((0,0),(0,1)) + 1 = 2. -/
theorem c4_amended_witness :
    obstacleFree [['0', '0']] = true ∧ inBounds [['0', '0']] (0, 0) = true ∧
    inBounds [['0', '0']] (0, 1) = true ∧
    (∃ p, a_star_search [['0', '0']] (0, 0) (0, 1) hManhattan = some p ∧
      p.length = manhattan_distance (0, 0) (0, 1) + 1) :=
  ⟨by decide, by decide, by decide,
    c4_amended [['0', '0']] (0, 0) (0, 1) (by decide) (by decide) (by decide)⟩
